import Mathlib

/-!
Verification of the declarative worker pipeline engine.

This file gives a shallow embedding, in Lean, of the engine's core:
the template resolver (`src/packages/orchestrator/src/engine/templates.ts`),
the retry helper (`src/packages/orchestrator/src/engine/execution.ts`),
the backend registry's selection policy (`selectBackend`),
the sequential pipeline runner
(`src/packages/orchestrator/src/engine/sequential.ts`), and the DAG
pipeline runner / dispatcher (`processPipelineDAG` / `processTask`).

JavaScript run-time values are modelled by the inductive type `JsValue`
(with an explicit `undefined`), backend executions by an oracle function
passed as a parameter, and the asynchronous scheduler by its synchronous
determinization: every dispatched batch completes before the next
readiness computation, so the `running` set is empty at every tick
boundary and the `await sleep(10)` branch of the source is unreachable.
Wall-clock time is a monotone logical clock advanced by the duration the
oracle reports for each backend call.
-/

namespace DWA

/-- JavaScript run-time values as seen by the engine: the engine's payloads,
step results and template contexts. `undef` is JavaScript `undefined`,
distinct from `null`. Numbers are modelled as integers (the engine performs
no arithmetic on payload numbers). -/
inductive JsValue where
  | undef : JsValue
  | null : JsValue
  | bool (b : Bool) : JsValue
  | num (n : Int) : JsValue
  | str (s : String) : JsValue
  | arr (elems : List JsValue) : JsValue
  | obj (fields : List (String × JsValue)) : JsValue

/-- JavaScript truthiness on modelled values: `undefined`, `null`, `false`,
`0` and `""` are falsy; everything else (including empty arrays and objects)
is truthy. -/
def jsTruthy : JsValue → Bool
  | .undef => false
  | .null => false
  | .bool b => b
  | .num n => n != 0
  | .str s => s ≠ ""
  | .arr _ => true
  | .obj _ => true

/-- JavaScript `typeof` on modelled values (`typeof null` is `"object"`,
arrays are `"object"`). Used verbatim in the `forEach` type-mismatch
message. -/
def jsTypeof : JsValue → String
  | .undef => "undefined"
  | .null => "object"
  | .bool _ => "boolean"
  | .num _ => "number"
  | .str _ => "string"
  | .arr _ => "object"
  | .obj _ => "object"

/-- The opening brace character (written by code point to keep string
literals brace-free). -/
def lbrace : Char := Char.ofNat 123

/-- The closing brace character. -/
def rbrace : Char := Char.ofNat 125

/-- JavaScript `path.split(".")` at the character level: splitting an empty
string yields `[""]`, adjacent dots yield empty segments. -/
def splitDot : List Char → List (List Char)
  | [] => [[]]
  | c :: rest =>
      match splitDot rest with
      | [] => [[]]
      | seg :: segs => if c = '.' then [] :: seg :: segs else (c :: seg) :: segs

/-- The numeric value of a digit list (most significant first). -/
def digitsVal (cs : List Char) : Nat :=
  cs.foldl (fun acc ch => acc * 10 + (ch.toNat - 48)) 0

/-- Canonical array index: a string indexes a JavaScript array iff it is the
canonical decimal representation of a natural number (`"2"` indexes, `"02"`
and `"-1"` do not). -/
def jsArrayIndex (s : String) : Option Nat :=
  match s.data with
  | [] => none
  | c :: cs =>
      if (c :: cs).all (fun ch => ch.isDigit) then
        if c = '0' ∧ cs ≠ [] then none
        else some (digitsVal (c :: cs))
      else none

/-- One traversal step of `getNestedValue`: property lookup on an object,
canonical-index lookup on an array; `null`, `undefined` and primitives yield
`undefined` (the source's early `return undefined`, which an absorbing step
function reproduces). Array properties other than element indices are not
part of the template grammar and yield `undefined`. -/
def jsGet : JsValue → String → JsValue
  | .obj fields, k =>
      match fields.find? (fun p => p.1 = k) with
      | some p => p.2
      | none => .undef
  | .arr elems, k =>
      match jsArrayIndex k with
      | some i =>
          match elems.get? i with
          | some v => v
          | none => .undef
      | none => .undef
  | _, _ => (.undef)

/-- `getNestedValue(obj, path)` from `templates.ts`: split the path on `.`
and traverse, yielding `undefined` at the first missing or non-object
segment. -/
def getNestedValue (o : JsValue) (path : String) : JsValue :=
  ((splitDot path.data).map fun cs => String.mk cs).foldl jsGet o

/-- A string is a whole-string template iff it starts with the two-character
opening brace pair and ends with the closing one (`template.startsWith` /
`template.endsWith` in the source, at the character level). -/
def isTemplate (s : String) : Bool :=
  (match s.data with
   | c1 :: c2 :: _ => c1 = lbrace && c2 = lbrace
   | _ => false) &&
  (match s.data.reverse with
   | c1 :: c2 :: _ => c1 = rbrace && c2 = rbrace
   | _ => false)

/-- Strip whitespace from both ends (`trim()`; as in Lean's own trim, the
whitespace characters are space, tab, carriage return and newline). -/
def trimChars (cs : List Char) : List Char :=
  ((cs.dropWhile Char.isWhitespace).reverse.dropWhile Char.isWhitespace).reverse

/-- The dotted path inside a whole-string template: `slice(2, -2)` then
`trim()` (every string in whole-string template shape has length at least
4, so `slice(2, -2)` is drop-2-front, drop-2-back). -/
def templatePath (s : String) : String :=
  String.mk (trimChars ((s.data.drop 2).dropLast.dropLast))

/-- `resolveTemplate(template, context)` from `templates.ts`: a whole-string
template resolves to the value at its dotted path; any other string passes
through unchanged. -/
def resolveTemplate (template : String) (context : JsValue) : JsValue :=
  if isTemplate template then getNestedValue context (templatePath template)
  else .str template

/-- `resolveTemplates(input, context)` from `templates.ts`: field-wise
resolution over an input mapping; exactly the entries whose value is a
string in whole-string template shape are replaced, all others pass through.
(The source checks `typeof value === "string"` at run time, so the entries
are modelled as arbitrary values.) -/
def resolveTemplates (input : List (String × JsValue)) (context : JsValue) :
    List (String × JsValue) :=
  input.map fun kv =>
    match kv.2 with
    | .str s =>
        if isTemplate s then (kv.1, getNestedValue context (templatePath s))
        else kv
    | _ => kv

/-- `RetryConfig` from `core/src/types/task.ts`; every field is optional in
the source. -/
structure RetryConfig where
  attempts : Option Nat := none
  backoff : Option String := none
  delay : Option Nat := none
  maxDelay : Option Nat := none

/-- The `gpu` field of `ResourceRequirements`: `boolean | string` in the
source. -/
inductive GpuReq where
  | ofBool (b : Bool) : GpuReq
  | ofStr (s : String) : GpuReq

/-- JavaScript truthiness of a `gpu` requirement value. -/
def GpuReq.truthy : GpuReq → Bool
  | .ofBool b => b
  | .ofStr s => s ≠ ""

/-- `ResourceRequirements` from `core/src/types/resource.ts`. -/
structure ResourceRequirements where
  gpu : Option GpuReq := none
  vram : Option Nat := none
  ram : Option Nat := none
  cpu : Option Nat := none
  timeout : Option Nat := none

/-- `GpuInfo` from `core/src/types/resource.ts`. -/
structure GpuInfo where
  name : String
  vram : Nat
  available : Bool

/-- `ResourcePool` from `core/src/types/resource.ts` (`ram`/`vram` are
`(total, available)` pairs). -/
structure ResourcePool where
  gpus : List GpuInfo
  ram : Nat × Nat := (0, 0)
  vram : Nat × Nat := (0, 0)

/-- `Step` from `core/src/types/task.ts`. The `optional` flag is read only
through JavaScript truthiness, so it is modelled as a `Bool` (absent =
`false`). -/
structure Step where
  id : Option String := none
  task : String
  input : Option (List (String × JsValue)) := none
  dependsOn : Option (List String) := none
  forEach : Option String := none
  forEachConcurrency : Option Nat := none
  runWhen : Option String := none
  timeout : Option Nat := none
  optional : Bool := false
  resources : Option ResourceRequirements := none
  retry : Option RetryConfig := none

/-- `Task` from `core/src/types/task.ts` (the fields the engine reads;
`queue`/`priority`/`delay`/`cron` and the effect lists are never consulted
by the dispatcher, the runners, the retry helper or `selectBackend`). -/
structure Task where
  type : String
  backend : Option String := none
  payload : JsValue := .obj []
  steps : Option (List Step) := none
  resources : Option ResourceRequirements := none
  retry : Option RetryConfig := none

/-- JavaScript `a || b` on two optional values that are objects when
present (objects are always truthy), as in `step.resources ||
task.resources` and `step.retry || task.retry`. -/
def jsOrOpt (a b : Option α) : Option α :=
  match a with
  | some x => some x
  | none => b

/-- JavaScript `a || b` on two optional numbers: a present `0` is falsy and
falls through, as in `step.timeout || task.resources?.timeout`. -/
def jsOrNat (a b : Option Nat) : Option Nat :=
  match a with
  | some n => if n = 0 then b else some n
  | none => b

/-- The timeout, in milliseconds, that a step's execution is wrapped in:
`step.timeout || task.resources?.timeout` (seconds, `0` falsy), multiplied
by 1000 when truthy; `none` means no timeout wrapper is applied. -/
def effTimeoutMs (step : Step) (task : Task) : Option Nat :=
  match jsOrNat step.timeout (match task.resources with
      | some r => r.timeout
      | none => none) with
  | some t => if t = 0 then none else some (t * 1000)
  | none => none

/-- The sub-task both runners construct for a step (or for one `forEach`
item): `{type: step.task, backend: task.backend, payload: resolvedInput,
resources: step.resources || task.resources, retry: step.retry ||
task.retry}`. -/
def mkStepTask (task : Task) (step : Step) (payload : JsValue) : Task :=
  { type := step.task
    backend := task.backend
    payload := payload
    steps := none
    resources := jsOrOpt step.resources task.resources
    retry := jsOrOpt step.retry task.retry }

/-! ## Retry helper (`execution.ts`) -/

/-- Observable events of one `executeWithRetry` run: the observer callback
(`onRetry?.(attempt, maxAttempts)`), the executor invocation for a given
attempt, and the backoff sleep (`await sleep(backoffDelay)`). -/
inductive RetryEvent where
  | observe (attempt maxAttempts : Nat) : RetryEvent
  | call (attempt : Nat) : RetryEvent
  | sleep (ms : Nat) : RetryEvent
deriving DecidableEq

/-- The executor passed to `executeWithRetry`, modelled as a function from
the attempt number (1-based) to that attempt's outcome. -/
abbrev Executor := Nat → Except String JsValue

/-- The backoff delay before the attempt after `attempt`:
`delay * 2^(attempt-1)` for `"exponential"`, the base delay otherwise. -/
def backoffDelay (expo : Bool) (delay attempt : Nat) : Nat :=
  if expo then delay * 2 ^ (attempt - 1) else delay

/-- The retry for-loop of `executeWithRetry`, from attempt `a` with `fuel`
further attempts allowed after this one (`fuel = attempts - a` on entry):
report the attempt to the observer, run the executor, return on success;
on failure sleep the backoff and recurse, or re-raise the last error when
this was the final attempt. Returns the outcome and the event trace. -/
def retryGo (ex : Executor) (n delay : Nat) (expo : Bool) :
    Nat → Nat → Except String JsValue × List RetryEvent
  | a, 0 =>
      (ex a, [.observe a n, .call a])
  | a, fuel + 1 =>
      match ex a with
      | .ok v => (.ok v, [.observe a n, .call a])
      | .error _ =>
          let r := retryGo ex n delay expo (a + 1) fuel
          (r.1, .observe a n :: .call a :: .sleep (backoffDelay expo delay a) :: r.2)

/-- The base delay of a retry config: `retry.delay || 1000` (a present `0`
is falsy and falls back to the default). -/
def retryBaseDelay (rc : RetryConfig) : Nat :=
  match rc.delay with
  | some d => if d = 0 then 1000 else d
  | none => 1000

/-- Whether a retry config selects exponential backoff
(`retry.backoff === "exponential"`; anything else is fixed). -/
def retryExpo (rc : RetryConfig) : Bool :=
  rc.backoff == some "exponential"

/-- `executeWithRetry(task, executor, onRetry)` from `execution.ts`: when
the retry config is absent, or `attempts` is absent, `0` (falsy) or `≤ 1`,
the executor runs exactly once with no observer call and no sleep;
otherwise the retry loop runs with base delay `retry.delay || 1000`. -/
def executeWithRetry (task : Task) (ex : Executor) :
    Except String JsValue × List RetryEvent :=
  match task.retry with
  | none => (ex 1, [.call 1])
  | some retry =>
      match retry.attempts with
      | none => (ex 1, [.call 1])
      | some n =>
          if n ≤ 1 then (ex 1, [.call 1])
          else retryGo ex n (retryBaseDelay retry) (retryExpo retry) 1 (n - 1)

/-! ## Backend registry and selection (`registry.ts`, `selectBackend`) -/

/-- A registered backend as `selectBackend` observes it: its name, the
outcome of `await backend.isHealthy()` (`Except.error` models a throwing
health check), and the optional `getResources` capability (whose call may
itself throw). `execute`/`getStatus`/`cancel` are not consulted by the
selection policy. -/
structure BackendM where
  name : String
  isHealthy : Except String Bool
  getResources : Option (Except String ResourcePool) := none

/-- Whether a health check came back `true` (a throwing check or a `false`
answer both count as unhealthy for the auto path). -/
def healthyOk : Except String Bool → Bool
  | .ok true => true
  | _ => false

/-- The healthy backends in registration (insertion) order: the auto path's
`healthyBackends` array, built by iterating `backends.values()` with a
`try`/`catch` that skips throwing health checks. -/
def healthyBackends (registry : List BackendM) : List BackendM :=
  registry.filter fun be => healthyOk be.isHealthy

/-- Whether the task declares a GPU requirement (`task.resources?.gpu`
under JavaScript truthiness: `false` and `""` do not count). -/
def taskWantsGpu (task : Task) : Bool :=
  match task.resources with
  | some r =>
      match r.gpu with
      | some g => g.truthy
      | none => false
  | none => false

/-- The GPU-preference scan of the auto path: the first healthy backend
exposing `getResources` whose pool reports at least one available GPU;
backends without the capability are skipped; a throwing `getResources`
propagates (the source awaits it with no `try`/`catch`). -/
def gpuScan : List BackendM → Except String (Option BackendM)
  | [] => .ok none
  | be :: rest =>
      match be.getResources with
      | none => gpuScan rest
      | some (.error e) => .error e
      | some (.ok pool) =>
          if pool.gpus.any (fun g => g.available) then .ok (some be)
          else gpuScan rest

/-- Whether a backend reports at least one available GPU: it exposes
`getResources`, the call answers, and some GPU in the pool is available. -/
def reportsAvailableGpu (be : BackendM) : Bool :=
  match be.getResources with
  | some (.ok pool) => pool.gpus.any fun g => g.available
  | _ => false

/-- The auto-selection path of `selectBackend`: collect healthy backends,
fail with `No healthy backend available` when none, prefer a GPU-capable
backend when the task wants a GPU, otherwise the first healthy backend. -/
def autoSelect (registry : List BackendM) (task : Task) :
    Except String BackendM :=
  match healthyBackends registry with
  | [] => .error "No healthy backend available"
  | first :: rest =>
      if taskWantsGpu task then
        match gpuScan (first :: rest) with
        | .error e => .error e
        | .ok (some be) => .ok be
        | .ok none => .ok first
      else .ok first

/-- `selectBackend(task)` from the registry module. `task.backend` equal to
`"auto"` or absent (or the falsy `""`) takes the auto path; otherwise the
named backend is looked up (`backends.get`), a missing name fails with
`Backend "<name>" not registered`, a `false` health answer fails with
`Backend "<name>" is not healthy`, and a throwing health check propagates
unwrapped (the named path has no `try`/`catch`). The registry list stands
for `backends.values()` in insertion order; lookup by name is first-match,
which agrees with the `Map` when names are unique. -/
def selectBackend (registry : List BackendM) (task : Task) :
    Except String BackendM :=
  match task.backend with
  | some b =>
      if b ≠ "" ∧ b ≠ "auto" then
        match registry.find? (fun be => be.name = b) with
        | none => .error ("Backend \"" ++ b ++ "\" not registered")
        | some be =>
            match be.isHealthy with
            | .error e => .error e
            | .ok false => .error ("Backend \"" ++ b ++ "\" is not healthy")
            | .ok true => .ok be
      else autoSelect registry task
  | none => autoSelect registry task

/-! ## Shared pipeline bookkeeping -/

/-- Insertion-ordered map update with JavaScript `Map.set` semantics:
replace in place when the key exists, append otherwise. -/
def mapSet (m : List (String × α)) (k : String) (v : α) : List (String × α) :=
  match m with
  | [] => [(k, v)]
  | kv :: rest => if kv.1 = k then (k, v) :: rest else kv :: mapSet rest k v

/-- Map lookup (`Map.get`): the value at the first matching key. -/
def mapGet (m : List (String × α)) (k : String) : Option α :=
  (m.find? fun p => p.1 = k).map fun p => p.2

/-- JavaScript `Set.add`: append the element unless already present. -/
def setAdd (l : List String) (x : String) : List String :=
  if x ∈ l then l else l ++ [x]

/-- `StepStatus` from the dispatcher module. Timestamps are logical-clock
values; `duration` is the recorded `completedAt - startedAt` difference
(an `Int`, as the source computes it by subtraction of dates).
`retryAttempt` is written by the retry observer, which this model folds
into the execution oracle, so it stays `none`. -/
structure StepStatus where
  id : String
  task : String
  status : String
  startedAt : Option Nat := none
  completedAt : Option Nat := none
  duration : Option Int := none
  error : Option String := none
  result : Option JsValue := none
  retryAttempt : Option Nat := none

/-- `PipelineResult` from the dispatcher module. -/
structure PipelineResult where
  steps : List JsValue
  stepResults : List (String × JsValue)
  stepStatus : List StepStatus
  finalResult : JsValue
  totalDuration : Nat
  parallelGroups : List (List String)

/-- The execution oracle standing for `selectBackend` + `executeWithRetry`
(+ the backend call) applied to one sub-task: given the sub-task and the
timeout (in ms) its execution is wrapped in (`none` = no timeout wrapper),
it yields the outcome and the elapsed logical time. -/
abbrev Exec := Task → Option Nat → Except String JsValue × Nat

/-- The mutable bookkeeping of one `processPipelineDAG` run. `calls` is the
specification-level trace of oracle invocations (each with its timeout);
`progressLog` is the sequence of values passed to the progress callback;
`clock` is the logical wall clock. The `running` set of the source is
always empty at the points this model observes (every dispatched batch is
awaited before the next readiness computation), so it is omitted. -/
structure DagState where
  results : List (String × JsValue) := []
  completed : List String := []
  failed : List String := []
  statuses : List (String × StepStatus) := []
  parallelGroups : List (List String) := []
  progressLog : List Nat := []
  calls : List (Task × Option Nat) := []
  clock : Nat := 0

/-- The defaulted id of the step at index `i`: `step.id || step_<index>`
(an empty explicit id is falsy and also defaults). -/
def defaultedId (s : Step) (i : Nat) : String :=
  match s.id with
  | some id => if id = "" then "step_" ++ toString i else id
  | none => "step_" ++ toString i

/-- The defaulted ids of all declared steps, by index (`stepIndexToId`). -/
def defaultedIds (steps : List Step) : List String :=
  steps.enum.map fun p => defaultedId p.2 p.1

/-- The step map of `processPipelineDAG`: defaulted id to step, with
`Map.set` collapsing duplicate ids to the last declaration. -/
def buildStepMap (steps : List Step) : List (String × Step) :=
  steps.enum.foldl (fun m p => mapSet m (defaultedId p.2 p.1) p.2) []

/-- Initial step statuses: one `pending` record per step-map entry. -/
def initStatuses (stepMap : List (String × Step)) : List (String × StepStatus) :=
  stepMap.map fun p => (p.1, { id := p.1, task := p.2.task, status := "pending" })

/-- Initial DAG state. -/
def initDagState (stepMap : List (String × Step)) : DagState :=
  { statuses := initStatuses stepMap }

/-- The DAG template context `{payload: task.payload, steps: results}`
(the source captures `results` by reference; the model rebuilds the object
at each use, which observes the same current mapping). -/
def dagContext (task : Task) (results : List (String × JsValue)) : JsValue :=
  .obj [("payload", task.payload), ("steps", .obj results)]

/-- The per-item context of a `forEach` iteration: the step context spread
and extended with `item` and `index`. -/
def itemContext (task : Task) (results : List (String × JsValue))
    (item : JsValue) (index : Nat) : JsValue :=
  .obj [("payload", task.payload), ("steps", .obj results),
        ("item", item), ("index", .num index)]

/-- Whether a step id is terminal (in `completed` or `failed`). -/
def isTerminal (st : DagState) (stepId : String) : Bool :=
  st.completed.contains stepId || st.failed.contains stepId

/-- `canRun` from `processPipelineDAG`: not already running/terminal, and
every id in `dependsOn` is in `completed` (the `running` membership test of
the source is vacuous at tick boundaries). -/
def canRun (st : DagState) (stepId : String) (step : Step) : Bool :=
  if isTerminal st stepId then false
  else (match step.dependsOn with
        | some deps => deps
        | none => []).all fun d => st.completed.contains d

/-- `getRunnableSteps`: the step-map entries that can run now, in insertion
order. -/
def runnableSteps (st : DagState) (stepMap : List (String × Step)) :
    List (String × Step) :=
  stepMap.filter fun p => canRun st p.1 p.2

/-- The status record of a step (`stepStatuses.get(stepId)!`; statuses are
initialized for every step-map key, so the default is unreachable and
mirrors the source's non-null assertion). -/
def getStatus (st : DagState) (stepId : String) : StepStatus :=
  match mapGet st.statuses stepId with
  | some s => s
  | none => { id := stepId, task := "", status := "pending" }

/-- Update the status record of a step in place. -/
def updateStatus (st : DagState) (stepId : String)
    (f : StepStatus → StepStatus) : DagState :=
  { st with statuses := mapSet st.statuses stepId (f (getStatus st stepId)) }

/-- The result marker of an `on-demand` skip. -/
def onDemandMarker : JsValue :=
  .obj [("skipped", .bool true), ("reason", .str "on-demand")]

/-- The result marker of a falsy `runWhen` condition skip, carrying the
original condition string. -/
def conditionFalseMarker (cond : String) : JsValue :=
  .obj [("skipped", .bool true), ("reason", .str "condition-false"),
        ("condition", .str cond)]

/-- The result marker of an optional step whose execution failed. -/
def optionalErrorMarker (msg : String) : JsValue :=
  .obj [("error", .str msg), ("skipped", .bool true)]

/-- The `runWhen` skip path of `executeStep`: status becomes `skipped`, the
id joins `completed` (so dependents unblock), and the marker is recorded as
the step's result. No timestamps are written on this path. -/
def skipStep (st : DagState) (stepId : String) (marker : JsValue) : DagState :=
  let st := updateStatus st stepId fun s => { s with status := "skipped" }
  { st with completed := setAdd st.completed stepId,
            results := mapSet st.results stepId marker }

/-- The `catch` block of `executeStep`: an optional step absorbs the error
into a skip marker and joins `completed`; a non-optional step joins
`failed` and the error message is returned for the scheduler tick to
re-raise. -/
def handleStepError (st : DagState) (stepId : String) (step : Step)
    (msg : String) : DagState × Option String :=
  if step.optional then
    let st' := updateStatus st stepId fun s =>
      { s with status := "skipped",
               completedAt := some st.clock,
               duration := some ((st.clock : Int) - (s.startedAt.getD st.clock : Int)),
               error := some msg }
    ({ st' with completed := setAdd st'.completed stepId,
                results := mapSet st'.results stepId (optionalErrorMarker msg) }, none)
  else
    let st' := updateStatus st stepId fun s =>
      { s with status := "failed",
               completedAt := some st.clock,
               duration := some ((st.clock : Int) - (s.startedAt.getD st.clock : Int)),
               error := some msg }
    ({ st' with failed := setAdd st'.failed stepId }, some msg)

/-- The success epilogue of `executeStep`: the id joins `completed`, the
value is recorded, and the status receives `completed` with timestamps.
(The source writes the set and result entries before mutating the status
record; the fields are independent, so the state is the same.) -/
def completeStep (st : DagState) (stepId : String) (value : JsValue) : DagState :=
  let st' := updateStatus st stepId fun s =>
    { s with status := "completed",
             completedAt := some st.clock,
             duration := some ((st.clock : Int) - (s.startedAt.getD st.clock : Int)),
             result := some value }
  { st' with completed := setAdd st'.completed stepId,
             results := mapSet st'.results stepId value }

/-- One `forEach` item: build the item context, resolve the step's input
templates against it, build the sub-task, and invoke the oracle with the
step's timeout. The call and its elapsed time are recorded. -/
def runItem (exec : Exec) (task : Task) (step : Step) (st : DagState)
    (index : Nat) (item : JsValue) : DagState × Except String JsValue :=
  let ctx := itemContext task st.results item index
  let resolvedInput := resolveTemplates (match step.input with
      | some inp => inp
      | none => []) ctx
  let stepTask := mkStepTask task step (.obj resolvedInput)
  let tm := effTimeoutMs step task
  let r := exec stepTask tm
  ({ st with calls := st.calls ++ [(stepTask, tm)],
             clock := st.clock + r.2 }, r.1)

/-- One `forEach` batch (`Promise.all(batchPromises)`): item results in
input order; the first failing item's error rejects the batch. (In the
source the in-flight siblings of a failing item still run to completion;
their oracle calls are not traced on the error path, which no stated
property observes.) -/
def runItemBatch (exec : Exec) (task : Task) (step : Step) :
    DagState → List (Nat × JsValue) → DagState × Except String (List JsValue)
  | st, [] => (st, .ok [])
  | st, (i, v) :: rest =>
      let r := runItem exec task step st i v
      match r.2 with
      | .error e => (r.1, .error e)
      | .ok value =>
          let rr := runItemBatch exec task step r.1 rest
          (rr.1, rr.2.map fun vs => value :: vs)

/-- Chunking worker with explicit fuel (the fuel is the list length, which
bounds the number of batches whenever the chunk size is positive). -/
def chunkListGo (c : Nat) : Nat → List α → List (List α)
  | 0, _ => []
  | _, [] => []
  | fuel + 1, xs => xs.take c :: chunkListGo c fuel (xs.drop c)

/-- The batch decomposition of the `forEach` loop: slices
`[i, i+concurrency)` of the item list, in order. -/
def chunkList (c : Nat) (xs : List α) : List (List α) :=
  chunkListGo c xs.length xs

/-- The sequential-batches loop of `forEach`: batches run in order, item
results are concatenated in input order, the first failing batch rejects
the whole step. -/
def runChunks (exec : Exec) (task : Task) (step : Step) :
    DagState → List (List (Nat × JsValue)) → DagState × Except String (List JsValue)
  | st, [] => (st, .ok [])
  | st, b :: bs =>
      let r := runItemBatch exec task step st b
      match r.2 with
      | .error e => (r.1, .error e)
      | .ok vs =>
          let rr := runChunks exec task step r.1 bs
          (rr.1, rr.2.map fun ws => vs ++ ws)

/-- The `status.status = "running"; status.startedAt = new Date()` update
at the start of the `try` block of `executeStep`. -/
def markRunning (st : DagState) (stepId : String) : DagState :=
  updateStatus st stepId fun s =>
    { s with status := "running", startedAt := some st.clock }

/-- The common epilogue of an execution outcome: success completes the
step, failure falls into the `catch` handler. -/
def finishExec (st : DagState) (stepId : String) (step : Step)
    (out : Except String JsValue) : DagState × Option String :=
  match out with
  | .ok v => (completeStep st stepId v, none)
  | .error e => handleStepError st stepId step e

/-- The regular (non-`forEach`) execution path of `executeStep`: resolve
the input templates, build the sub-task, invoke the oracle with the
effective timeout, then complete or fall into the error handler. -/
def regularExec (exec : Exec) (task : Task) (st : DagState) (stepId : String)
    (step : Step) : DagState × Option String :=
  let ctx := dagContext task st.results
  let resolvedInput := resolveTemplates (match step.input with
      | some inp => inp
      | none => []) ctx
  let stepTask := mkStepTask task step (.obj resolvedInput)
  let tm := effTimeoutMs step task
  let r := exec stepTask tm
  let st := { st with calls := st.calls ++ [(stepTask, tm)],
                      clock := st.clock + r.2 }
  finishExec st stepId step r.1

/-- The `try` block of `executeStep`, after the `runWhen` gate: mark the
status `running` with `startedAt`, then either the `forEach` fan-out (a
non-array resolution throws the type-mismatch error into the `catch`
block) or the regular path. A present-but-empty `forEach` string is falsy
and takes the regular path. -/
def executeStepBody (exec : Exec) (task : Task) (st : DagState)
    (stepId : String) (step : Step) : DagState × Option String :=
  let st := markRunning st stepId
  match step.forEach with
  | some fe =>
      if fe = "" then regularExec exec task st stepId step
      else
        match resolveTemplate fe (dagContext task st.results) with
        | .arr xs =>
            let concurrency := match step.forEachConcurrency with
              | some c => if c = 0 then xs.length else c
              | none => xs.length
            let r := runChunks exec task step st (chunkList concurrency xs.enum)
            finishExec r.1 stepId step (r.2.map JsValue.arr)
        | other =>
            handleStepError st stepId step
              ("forEach template \"" ++ fe ++ "\" did not resolve to array, got: "
                ++ jsTypeof other)
  | none => regularExec exec task st stepId step

/-- `executeStep` of `processPipelineDAG`: the `runWhen` gate (absent, the
falsy `""`, or `"always"` proceed; `"on-demand"` skips eagerly; any other
string is a template whose falsy resolution skips with a condition
marker), then the execution body. Returns the updated state and the error
the tick should re-raise, if any. -/
def executeStep (exec : Exec) (task : Task) (st : DagState) (stepId : String)
    (step : Step) : DagState × Option String :=
  match step.runWhen with
  | some rw =>
      if rw = "" ∨ rw = "always" then executeStepBody exec task st stepId step
      else if rw = "on-demand" then (skipStep st stepId onDemandMarker, none)
      else if jsTruthy (resolveTemplate rw (dagContext task st.results)) then
        executeStepBody exec task st stepId step
      else (skipStep st stepId (conditionFalseMarker rw), none)
  | none => executeStepBody exec task st stepId step

/-- One scheduler tick's dispatch (`Promise.all(executions)` over the
runnable list, in step-map order): all runnable steps execute, each
outcome's optional error is collected in order. -/
def runStepBatch (exec : Exec) (task : Task) :
    DagState → List (String × Step) → DagState × List (Option String)
  | st, [] => (st, [])
  | st, (id, s) :: rest =>
      let r := executeStep exec task st id s
      let rr := runStepBatch exec task r.1 rest
      (rr.1, r.2 :: rr.2)

/-- The first error among the tick's outcomes (the `for (const outcome of
outcomes) if (outcome.error) throw` scan). -/
def firstErr : List (Option String) → Option String
  | [] => none
  | some e :: _ => some e
  | none :: rest => firstErr rest

/-- `Math.round((c / total) * 100)` for `total > 0`: round-half-up of the
exact rational (the engine only ever calls this with `total ≥ 1`). -/
def jsRound100 (c total : Nat) : Nat :=
  if total = 0 then 0 else (200 * c + total) / (2 * total)

/-- The unresolved steps listed in the deadlock message: the declared steps
(by index) whose defaulted id is not terminal, mapped to their task types. -/
def remainingTasks (steps : List Step) (st : DagState) : List String :=
  (steps.enum.filter fun p => !isTerminal st (defaultedId p.2 p.1)).map
    fun p => p.2.task

/-- The pipeline-deadlock error message, exactly as thrown by the source. -/
def deadlockMsg (remaining : List String) : String :=
  "Pipeline deadlock: cannot run remaining steps ["
    ++ String.intercalate ", " remaining
    ++ "]. Check for circular dependencies or missing dependency IDs."

/-- The parallel-group recording of one scheduler tick: groups of more
than one simultaneously-runnable step are appended to `parallelGroups`
(`if (runnableSteps.length > 1) parallelGroups.push(...)`). -/
def pgUpd (st : DagState) (runnable : List (String × Step)) : DagState :=
  if runnable.length > 1 then
    { st with parallelGroups := st.parallelGroups ++ [runnable.map fun p => p.1] }
  else st

/-- The main scheduling loop of `processPipelineDAG`. While fewer than
`totalSteps` ids are terminal: an empty runnable set (the in-flight set
being always empty here) is a deadlock; otherwise the runnable batch is
recorded as a parallel group (when larger than one), dispatched, scanned
for an error to re-raise, and the progress `round(100·completed/total)` is
emitted. The fuel argument only bounds the recursion; `totalSteps + 1` is
enough for every run because each non-returning tick strictly grows the
terminal set (proved below), so the fuel sentinel is unreachable from
`processPipelineDAG`. -/
def runLoop (exec : Exec) (task : Task) (stepMap : List (String × Step))
    (steps : List Step) (totalSteps : Nat) :
    Nat → DagState → DagState × Except String Unit
  | 0, st => (st, .error "loop fuel exhausted")
  | fuel + 1, st =>
      if st.completed.length + st.failed.length < totalSteps then
        match runnableSteps st stepMap with
        | [] => (st, .error (deadlockMsg (remainingTasks steps st)))
        | r :: rs =>
            let runnable := r :: rs
            let st := if runnable.length > 1 then
                { st with parallelGroups :=
                    st.parallelGroups ++ [runnable.map fun p => p.1] }
              else st
            let b := runStepBatch exec task st runnable
            match firstErr b.2 with
            | some e => (b.1, .error e)
            | none =>
                let st' := { b.1 with progressLog := b.1.progressLog
                    ++ [jsRound100 b.1.completed.length totalSteps] }
                runLoop exec task stepMap steps totalSteps fuel st'
      else (st, .ok ())

/-- The `PipelineResult` assembled after a successful DAG run: results in
declared order (`results[stepIndexToId(i)]`), the id-keyed mapping, the
statuses in step-map order, the last ordered result, the wall-clock total
(the initial clock is 0), and the recorded parallel groups. -/
def buildPipelineResult (steps : List Step) (st : DagState) : PipelineResult :=
  let ordered := steps.enum.map fun p =>
    match mapGet st.results (defaultedId p.2 p.1) with
    | some v => v
    | none => .undef
  { steps := ordered
    stepResults := st.results
    stepStatus := st.statuses.map fun p => p.2
    finalResult := match ordered.getLast? with
      | some v => v
      | none => .undef
    totalDuration := st.clock
    parallelGroups := st.parallelGroups }

/-- `processPipelineDAG(task, onProgress, onEvent)`. Besides the source's
result-or-thrown-error, the model also returns the final bookkeeping state
as a specification-level observation. -/
def processPipelineDAG (exec : Exec) (task : Task) :
    Except String PipelineResult × DagState :=
  let steps := match task.steps with
    | some s => s
    | none => []
  let stepMap := buildStepMap steps
  let r := runLoop exec task stepMap steps steps.length (steps.length + 1)
    (initDagState stepMap)
  match r.2 with
  | .error e => (.error e, r.1)
  | .ok _ => (.ok (buildPipelineResult steps r.1), r.1)

/-! ## Sequential runner (`sequential.ts`) -/

/-- The bookkeeping of one `processPipelineSequential` run: the ordered
results-so-far, the status records in push order, the emitted progress
values, the oracle-call trace and the logical clock. -/
structure SeqState where
  stepResults : List JsValue := []
  statuses : List StepStatus := []
  progressLog : List Nat := []
  calls : List (Task × Option Nat) := []
  clock : Nat := 0

/-- The sequential template context: `steps` is the ordered results-so-far
as an array (templates index it numerically). -/
def seqContext (task : Task) (st : SeqState) : JsValue :=
  .obj [("payload", task.payload), ("steps", .arr st.stepResults)]

/-- The `try` block of one sequential iteration: resolve inputs, build the
sub-task, invoke the oracle with the effective timeout; on success push the
result and a `completed` status; on failure either push the optional-skip
marker and a `skipped` status and continue, or push a `failed` status and
re-raise. `status0` is the record pushed at iteration start (with
`startedAt` already set). -/
def seqRunStep (exec : Exec) (task : Task) (step : Step) (st : SeqState)
    (status0 : StepStatus) : SeqState × Option String :=
  let ctx := seqContext task st
  let resolvedInput := resolveTemplates (match step.input with
      | some inp => inp
      | none => []) ctx
  let stepTask := mkStepTask task step (.obj resolvedInput)
  let tm := effTimeoutMs step task
  let r := exec stepTask tm
  let st := { st with calls := st.calls ++ [(stepTask, tm)],
                      clock := st.clock + r.2 }
  match r.1 with
  | .ok v =>
      ({ st with
          stepResults := st.stepResults ++ [v],
          statuses := st.statuses ++ [{ status0 with
            status := "completed",
            completedAt := some st.clock,
            duration := some ((st.clock : Int) - (status0.startedAt.getD st.clock : Int)),
            result := some v }] }, none)
  | .error e =>
      if step.optional then
        ({ st with
            stepResults := st.stepResults ++ [optionalErrorMarker e],
            statuses := st.statuses ++ [{ status0 with
              status := "skipped",
              completedAt := some st.clock,
              duration := some ((st.clock : Int) - (status0.startedAt.getD st.clock : Int)),
              error := some e }] }, none)
      else
        ({ st with
            statuses := st.statuses ++ [{ status0 with
              status := "failed",
              completedAt := some st.clock,
              duration := some ((st.clock : Int) - (status0.startedAt.getD st.clock : Int)),
              error := some e }] }, some e)

/-- The sequential for-loop, from step index `i`: emit
`round(100·i/total)` before each step, push the status record (with
`startedAt` at creation, as the source does), apply the `runWhen` gate
(skips set `duration` to a literal `0` and `completedAt` immediately), and
run the step; a non-optional failure stops the loop with the error. -/
def seqGo (exec : Exec) (task : Task) (total : Nat) :
    List Step → Nat → SeqState → SeqState × Except String Unit
  | [], _, st => (st, .ok ())
  | step :: rest, i, st =>
      let st := { st with progressLog := st.progressLog ++ [jsRound100 i total] }
      let status0 : StepStatus :=
        { id := "step_" ++ toString i
          task := step.task
          status := "pending"
          startedAt := some st.clock }
      let skipWith : JsValue → SeqState := fun marker =>
        { st with
            stepResults := st.stepResults ++ [marker],
            statuses := st.statuses ++ [{ status0 with
              status := "skipped",
              completedAt := some st.clock,
              duration := some 0 }] }
      match step.runWhen with
      | some rw =>
          if rw = "" ∨ rw = "always" then
            match seqRunStep exec task step st status0 with
            | (st', none) => seqGo exec task total rest (i + 1) st'
            | (st', some e) => (st', .error e)
          else if rw = "on-demand" then
            seqGo exec task total rest (i + 1) (skipWith onDemandMarker)
          else if jsTruthy (resolveTemplate rw (seqContext task st)) then
            match seqRunStep exec task step st status0 with
            | (st', none) => seqGo exec task total rest (i + 1) st'
            | (st', some e) => (st', .error e)
          else
            seqGo exec task total rest (i + 1) (skipWith (conditionFalseMarker rw))
      | none =>
          match seqRunStep exec task step st status0 with
          | (st', none) => seqGo exec task total rest (i + 1) st'
          | (st', some e) => (st', .error e)

/-- The `PipelineResult` of a successful sequential run: ordered results,
the `step_<i>`-keyed record, the pushed statuses, the last result, the
wall-clock total and an empty parallel-group list. -/
def buildSeqResult (st : SeqState) : PipelineResult :=
  { steps := st.stepResults
    stepResults := st.stepResults.enum.map fun p => ("step_" ++ toString p.1, p.2)
    stepStatus := st.statuses
    finalResult := match st.stepResults.getLast? with
      | some v => v
      | none => .undef
    totalDuration := st.clock
    parallelGroups := [] }

/-- `processPipelineSequential(task, onProgress, onEvent)`, with the final
bookkeeping state returned as a specification-level observation. -/
def processPipelineSequential (exec : Exec) (task : Task) :
    Except String PipelineResult × SeqState :=
  let steps := match task.steps with
    | some s => s
    | none => []
  let r := seqGo exec task steps.length steps 0 {}
  match r.2 with
  | .error e => (.error e, r.1)
  | .ok _ => (.ok (buildSeqResult r.1), r.1)

/-! ## Dispatcher (`processTask`) -/

/-- The outcome of `processTask`: a pipeline result or a single-task
value. -/
inductive TaskOutcome where
  | pipeline (r : PipelineResult) : TaskOutcome
  | single (v : JsValue) : TaskOutcome

/-- The dispatcher's DAG trigger for one step:
`s.dependsOn?.length || s.id` — a non-empty dependency list or a truthy
(non-empty) id. -/
def stepTriggersDag (s : Step) : Bool :=
  (match s.dependsOn with
   | some l => !l.isEmpty
   | none => false) ||
  (match s.id with
   | some id => id ≠ ""
   | none => false)

/-- The single-task path of `processTask`: `selectBackend` +
`executeWithRetry` on the task itself, folded into one oracle call with no
timeout wrapper. -/
def runSingle (exec : Exec) (task : Task) : Except String TaskOutcome :=
  match (exec task none).1 with
  | .ok v => .ok (.single v)
  | .error e => .error e

/-- `processTask(task, onProgress, onEvent, chunkConfig)` with no
`chunkConfig` (so the chunking branch is skipped): a non-empty `steps`
list routes to the DAG runner when any step declares an id or
dependencies, else to the sequential runner; otherwise the task executes
once as a single task. -/
def processTask (exec : Exec) (task : Task) : Except String TaskOutcome :=
  match task.steps with
  | some steps =>
      if steps.length ≠ 0 then
        if steps.any stepTriggersDag then
          match (processPipelineDAG exec task).1 with
          | .ok r => .ok (.pipeline r)
          | .error e => .error e
        else
          match (processPipelineSequential exec task).1 with
          | .ok r => .ok (.pipeline r)
          | .error e => .error e
      else runSingle exec task
  | none => runSingle exec task

/-! ## Concrete instances used to exercise the model -/

/-- A demo oracle: every sub-task succeeds with `{did: <type>}` after 5 ms. -/
def demoExec : Exec := fun t _ => (.ok (.obj [("did", .str t.type)]), 5)

/-- A demo oracle: sub-tasks of type `"bad"` fail with `boom` after 3 ms,
all others succeed with `"fine"` after 5 ms. -/
def demoFailExec : Exec := fun t _ =>
  if t.type = "bad" then (.error "boom", 3) else (.ok (.str "fine"), 5)

/-- A two-step cycle: `a` depends on `b`, `b` depends on `a`. -/
def cyclicTask : Task := { type := "p", steps := some [
  { id := some "a", task := "ta", dependsOn := some ["b"] },
  { id := some "b", task := "tb", dependsOn := some ["a"] } ] }

/-- A `forEach` pipeline mapping `payload.xs = [1,2,3]` with concurrency 2. -/
def forEachTask : Task :=
  { type := "p"
    payload := .obj [("xs", .arr [.num 1, .num 2, .num 3])]
    steps := some [
      { id := some "proc", task := "double",
        forEach := some "\x7b\x7bpayload.xs\x7d\x7d", forEachConcurrency := some 2,
        input := some [("v", .str "\x7b\x7bitem\x7d\x7d"),
                       ("i", .str "\x7b\x7bindex\x7d\x7d")] } ] }

/-- A `forEach` whose template resolves to `undefined` (not an array). -/
def forEachBadTask : Task := { type := "p", steps := some [
  { id := some "proc", task := "double",
    forEach := some "\x7b\x7bpayload.missing\x7d\x7d" } ] }

/-- A `forEach` over an empty array. -/
def forEachEmptyTask : Task :=
  { type := "p"
    payload := .obj [("xs", .arr [])]
    steps := some [
      { id := some "proc", task := "double",
        forEach := some "\x7b\x7bpayload.xs\x7d\x7d" } ] }

/-- An optional failing step with a dependent. -/
def optionalFailTask : Task := { type := "p", steps := some [
  { id := some "a", task := "bad", optional := true },
  { id := some "b", task := "good", dependsOn := some ["a"] } ] }

/-- A required failing step with a dependent. -/
def requiredFailTask : Task := { type := "p", steps := some [
  { id := some "a", task := "bad" },
  { id := some "b", task := "good", dependsOn := some ["a"] } ] }

/-- A single `on-demand` step. -/
def onDemandTask : Task := { type := "p", steps := some [
  { id := some "a", task := "ta", runWhen := some "on-demand" } ] }

/-- A falsy `runWhen` condition with a dependent. -/
def conditionFalseTask : Task :=
  { type := "p"
    payload := .obj [("flag", .bool false)]
    steps := some [
      { id := some "a", task := "ta", runWhen := some "\x7b\x7bpayload.flag\x7d\x7d" },
      { id := some "b", task := "tb", dependsOn := some ["a"] } ] }

/-- Two declared steps with the same id after defaulting. -/
def duplicateIdTask : Task := { type := "p", steps := some [
  { id := some "a", task := "t1" },
  { id := some "a", task := "t2" } ] }

/-- Two declared steps with the same id whose collapsed step fails. -/
def dupFailTask : Task := { type := "p", steps := some [
  { id := some "a", task := "bad" },
  { id := some "a", task := "bad" } ] }

/-- A two-step sequential pipeline with templates into payload and a prior
step's result. -/
def seqDemoTask : Task :=
  { type := "p"
    payload := .obj [("u", .str "x")]
    steps := some [
      { task := "s1", input := some [("url", .str "\x7b\x7bpayload.u\x7d\x7d")] },
      { task := "s2", input := some [("prev", .str "\x7b\x7bsteps.0.did\x7d\x7d")] } ] }

/-- A sequential pipeline whose first step is optional and fails. -/
def seqOptFailTask : Task := { type := "p", steps := some [
  { task := "bad", optional := true },
  { task := "good" } ] }

/-- A sequential pipeline whose first step is required and fails. -/
def seqReqFailTask : Task := { type := "p", steps := some [
  { task := "bad" },
  { task := "good" } ] }

/-- A DAG pipeline with one trivially succeeding step. -/
def singleStepTask : Task := { type := "p", steps := some [
  { id := some "a", task := "ta" } ] }

/-- An executor that fails on attempts 1 and 2 and succeeds on attempt 3. -/
def flakyExecutor : Executor := fun a =>
  if a < 3 then .error ("fail" ++ toString a) else .ok (.str "yay")

/-- A task with a 4-attempt exponential retry policy. -/
def retryTask : Task :=
  { type := "t"
    retry := some { attempts := some 4, backoff := some "exponential", delay := some 10 } }

/-- A healthy demo backend with no resource reporting. -/
def beHealthy : BackendM := { name := "h", isHealthy := .ok true }

/-- An unhealthy demo backend. -/
def beUnhealthy : BackendM := { name := "u", isHealthy := .ok false }

/-- A demo backend whose health check throws. -/
def beThrowing : BackendM := { name := "t", isHealthy := .error "hc-down" }

/-- A healthy demo backend reporting one available GPU. -/
def beGpu : BackendM :=
  { name := "g"
    isHealthy := .ok true
    getResources := some (.ok { gpus := [{ name := "T4", vram := 16000, available := true }] }) }

/-- A task declaring a GPU requirement. -/
def gpuTask : Task := { type := "x", resources := some { gpu := some (.ofBool true) } }

/-! ## Specification-level predicates and observations -/

/-- The per-attempt event triple of a failing attempt: observer report,
executor call, backoff sleep. -/
def attemptEvents (n delay : Nat) (expo : Bool) (i : Nat) : List RetryEvent :=
  [.observe i n, .call i, .sleep (backoffDelay expo delay i)]

/-- The number of terminal step ids (`completed.size + failed.size`). -/
def terminalCount (st : DagState) : Nat :=
  st.completed.length + st.failed.length

/-- Set-membership invariant of the DAG bookkeeping: the `completed` and
`failed` sets are duplicate-free, disjoint, and hold only step-map keys. -/
def SetsInv (keys : List String) (st : DagState) : Prop :=
  st.completed.Nodup ∧ st.failed.Nodup ∧
  (∀ x ∈ st.completed, x ∉ st.failed) ∧
  (∀ x ∈ st.completed, x ∈ keys) ∧
  (∀ x ∈ st.failed, x ∈ keys)

/-- A progress emission is a rounded completion ratio with a completed
count within range. -/
def ProgressEntryOk (total p : Nat) : Prop :=
  ∃ c, c ≤ total ∧ p = jsRound100 c total

/-- Invariant of the progress emissions: the log is non-decreasing, every
entry is a rounded completion ratio, and the latest entry (when any)
reflects the current completed count. -/
def ProgressInv (total : Nat) (st : DagState) : Prop :=
  st.progressLog.Chain' (· ≤ ·) ∧
  (∀ p ∈ st.progressLog, ProgressEntryOk total p) ∧
  (st.progressLog = [] ∨
    st.progressLog.getLast? = some (jsRound100 st.completed.length total))

/-- Timing facts of one step-status record: terminal `completed`/`failed`
statuses carry a duration, a `skipped` status carries one whenever it
recorded an error (an absorbed optional failure), durations are
non-negative, and on terminal records `completedAt` is at least
`startedAt` whenever both are present. -/
def statusTimingOk (s : StepStatus) : Prop :=
  ((s.status = "completed" ∨ s.status = "failed") → s.duration.isSome) ∧
  (s.status = "skipped" → s.error.isSome → s.duration.isSome) ∧
  (∀ d, s.duration = some d → 0 ≤ d) ∧
  ((s.status = "completed" ∨ s.status = "failed" ∨ s.status = "skipped") →
    ∀ a b, s.startedAt = some a → s.completedAt = some b → a ≤ b)

/-- Clock bounds of one step-status record: its timestamps never exceed the
given clock. -/
def statusClockOk (clock : Nat) (s : StepStatus) : Prop :=
  (∀ a, s.startedAt = some a → a ≤ clock) ∧
  (∀ b, s.completedAt = some b → b ≤ clock)

/-- Status invariant of the DAG bookkeeping: every record satisfies the
timing facts and clock bounds, and the record of a step that is not yet
terminal carries no error and no completion timestamp (it is untouched or
at most marked running). -/
def StatusesInv (st : DagState) : Prop :=
  ∀ p ∈ st.statuses,
    (statusTimingOk p.2 ∧ statusClockOk st.clock p.2) ∧
    (p.1 ∉ st.completed → p.1 ∉ st.failed →
      p.2.error = none ∧ p.2.completedAt = none)

/-- The combined loop invariant of the DAG scheduler. -/
def DagInv (keys : List String) (total : Nat) (st : DagState) : Prop :=
  SetsInv keys st ∧ ProgressInv total st ∧ StatusesInv st

/-- Timing facts of a sequential-runner status record: every terminal
status (including all skips) carries a duration. -/
def seqStatusOk (s : StepStatus) : Prop :=
  statusTimingOk s ∧
  ((s.status = "completed" ∨ s.status = "failed" ∨ s.status = "skipped") →
    s.duration.isSome)

/-! ## Basic lemmas about the bookkeeping primitives -/

theorem mapGet_mapSet_self (m : List (String × α)) (k : String) (v : α) :
    mapGet (mapSet m k v) k = some v := by
  induction m with
  | nil => simp [mapSet, mapGet, List.find?]
  | cons kv rest ih =>
      by_cases h : kv.1 = k
      · simp [mapSet, h, mapGet, List.find?]
      · simp only [mapSet, if_neg h]
        simpa [mapGet, List.find?, h] using ih

theorem mapGet_mapSet_other (m : List (String × α)) (k k' : String) (v : α)
    (h : k' ≠ k) : mapGet (mapSet m k v) k' = mapGet m k' := by
  induction m with
  | nil => simp [mapSet, mapGet, List.find?, Ne.symm h]
  | cons kv rest ih =>
      by_cases hk : kv.1 = k
      · subst hk
        simp [mapSet, mapGet, List.find?, h, Ne.symm h]
      · by_cases hk' : kv.1 = k'
        · simp [mapSet, if_neg hk, mapGet, List.find?, hk', h]
        · simp only [mapSet, if_neg hk]
          simpa [mapGet, List.find?, hk'] using ih

theorem setAdd_mem (l : List String) (x y : String) :
    y ∈ setAdd l x ↔ y ∈ l ∨ y = x := by
  by_cases h : x ∈ l
  · simp only [setAdd, if_pos h]
    constructor
    · exact fun hy => Or.inl hy
    · rintro (hy | rfl) <;> assumption
  · simp [setAdd, if_neg h]

theorem mem_setAdd_of_mem (l : List String) (x y : String) (h : y ∈ l) :
    y ∈ setAdd l x := (setAdd_mem l x y).mpr (Or.inl h)

theorem self_mem_setAdd (l : List String) (x : String) : x ∈ setAdd l x :=
  (setAdd_mem l x x).mpr (Or.inr rfl)

theorem setAdd_length_fresh (l : List String) (x : String) (h : x ∉ l) :
    (setAdd l x).length = l.length + 1 := by
  simp [setAdd, h]

theorem setAdd_length_ge (l : List String) (x : String) :
    l.length ≤ (setAdd l x).length := by
  by_cases h : x ∈ l <;> simp [setAdd, h]

theorem setAdd_nodup (l : List String) (x : String) (h : l.Nodup) :
    (setAdd l x).Nodup := by
  by_cases hx : x ∈ l
  · simpa [setAdd, hx] using h
  · simp only [setAdd, if_neg hx]
    refine List.Nodup.append h (List.nodup_singleton x) ?_
    intro a ha hax
    simp only [List.mem_singleton] at hax
    subst hax
    exact hx ha

/-! ## Template resolver lemmas (claim C8 support) -/

theorem jsGet_undef (k : String) : jsGet .undef k = .undef := rfl

theorem jsGet_null (k : String) : jsGet .null k = .undef := rfl

theorem jsGet_num (n : Int) (k : String) : jsGet (.num n) k = .undef := rfl

theorem jsGet_str (s k : String) : jsGet (.str s) k = .undef := rfl

theorem jsGet_bool (b : Bool) (k : String) : jsGet (.bool b) k = .undef := rfl

theorem jsGet_obj_missing (fields : List (String × JsValue)) (k : String)
    (h : fields.find? (fun p => p.1 = k) = none) : jsGet (.obj fields) k = .undef := by
  simp [jsGet, h]

theorem jsGet_obj_found (fields : List (String × JsValue)) (k : String)
    (p : String × JsValue) (h : fields.find? (fun q => q.1 = k) = some p) :
    jsGet (.obj fields) k = p.2 := by
  simp [jsGet, h]

theorem jsGet_arr_index (elems : List JsValue) (s : String) (i : Nat)
    (h : jsArrayIndex s = some i) :
    jsGet (.arr elems) s = (elems.get? i).getD .undef := by
  simp only [jsGet, h]
  cases elems.get? i <;> rfl

/-- Once the traversal yields `undefined`, every further segment keeps it. -/
theorem foldl_jsGet_undef (segs : List String) :
    segs.foldl jsGet .undef = .undef := by
  induction segs with
  | nil => rfl
  | cons s rest ih => simpa [jsGet] using ih

theorem splitDot_ne_nil (cs : List Char) : splitDot cs ≠ [] := by
  cases cs with
  | nil => simp [splitDot]
  | cons c rest =>
      simp only [splitDot]
      rcases h : splitDot rest with _ | ⟨seg, segs⟩
      · simp
      · by_cases hc : c = '.' <;> simp [hc]

/-- Splitting distributes over a dot: the segments of `p ++ "." ++ q` are
the segments of `p` followed by those of `q`. -/
theorem splitDot_append (p q : List Char) :
    splitDot (p ++ '.' :: q) = splitDot p ++ splitDot q := by
  induction p with
  | nil =>
      simp only [List.nil_append, splitDot]
      rcases h : splitDot q with _ | ⟨seg, segs⟩
      · exact absurd h (splitDot_ne_nil q)
      · simp
  | cons c rest ih =>
      rcases h : splitDot rest with _ | ⟨seg, segs⟩
      · exact absurd h (splitDot_ne_nil rest)
      · simp only [List.cons_append, splitDot, ih, h]
        by_cases hc : c = '.' <;> simp [hc, ih, h]

/-! ## Decimal-representation lemmas: `toString n` is a canonical array
index recovering `n` -/

theorem toDigitsCore_ten (fuel : Nat) : ∀ (n : Nat) (acc : List Char),
    0 < n → n < fuel →
    Nat.toDigitsCore 10 fuel n acc =
      ((Nat.digits 10 n).map Nat.digitChar).reverse ++ acc := by
  induction fuel with
  | zero => intro n acc _ h; omega
  | succ fuel ih =>
      intro n acc hn _
      by_cases hdiv : n / 10 = 0
      · have hlt : n < 10 := by omega
        have : Nat.digits 10 n = [n % 10] := by
          rw [Nat.digits_def' (by norm_num : (1:Nat) < 10) hn, hdiv]
          simp
        simp [Nat.toDigitsCore, hdiv, this]
      · have hq : 0 < n / 10 := Nat.pos_of_ne_zero hdiv
        have hqlt : n / 10 < fuel := by
          have := Nat.div_lt_self hn (by norm_num : 1 < 10)
          omega
        have step : Nat.toDigitsCore 10 (fuel + 1) n acc =
            Nat.toDigitsCore 10 fuel (n / 10) (Nat.digitChar (n % 10) :: acc) := by
          simp [Nat.toDigitsCore, hdiv]
        rw [step, ih (n / 10) _ hq hqlt,
          Nat.digits_def' (by norm_num : (1:Nat) < 10) hn]
        simp

theorem repr_data_eq_digits (n : Nat) (h : 0 < n) :
    (Nat.repr n).data = ((Nat.digits 10 n).map Nat.digitChar).reverse := by
  have := toDigitsCore_ten (n + 1) n [] h (Nat.lt_succ_self n)
  simpa [Nat.repr, Nat.toDigits, List.asString] using this

theorem digitChar_isDigit (d : Nat) (h : d < 10) :
    (Nat.digitChar d).isDigit = true := by
  interval_cases d <;> decide

theorem digitChar_toNat (d : Nat) (h : d < 10) :
    (Nat.digitChar d).toNat = 48 + d := by
  interval_cases d <;> decide

theorem digitChar_ne_zero (d : Nat) (h : d < 10) (hd : d ≠ 0) :
    Nat.digitChar d ≠ '0' := by
  interval_cases d <;> simp_all <;> decide

theorem digitsVal_append (l : List Char) (c : Char) :
    digitsVal (l ++ [c]) = digitsVal l * 10 + (c.toNat - 48) := by
  simp [digitsVal, List.foldl_append]

theorem digitsVal_rev_digits : ∀ (ds : List Nat), (∀ d ∈ ds, d < 10) →
    digitsVal ((ds.map Nat.digitChar).reverse) = Nat.ofDigits 10 ds := by
  intro ds
  induction ds with
  | nil => intro _; simp [digitsVal, Nat.ofDigits]
  | cons d ds ih =>
      intro h
      have hd : d < 10 := h d (List.mem_cons_self d ds)
      have hds : ∀ x ∈ ds, x < 10 := fun x hx => h x (List.mem_cons_of_mem d hx)
      simp only [List.map_cons, List.reverse_cons, digitsVal_append, ih hds,
        digitChar_toNat d hd, Nat.ofDigits_cons]
      omega

/-- The decimal representation of any natural number is accepted by the
canonical-index parser and recovers the number: array elements are reachable
through their stringified indices. -/
theorem jsArrayIndex_toString (n : Nat) : jsArrayIndex (toString n) = some n := by
  rcases Nat.eq_zero_or_pos n with rfl | hn
  · rfl
  · have hdata : (toString n).data = ((Nat.digits 10 n).map Nat.digitChar).reverse :=
      repr_data_eq_digits n hn
    have hne : Nat.digits 10 n ≠ [] := Nat.digits_ne_nil_iff_ne_zero.mpr (Nat.pos_iff_ne_zero.mp hn)
    have hall : ∀ c ∈ (toString n).data, c.isDigit = true := by
      rw [hdata]
      intro c hc
      rw [List.mem_reverse, List.mem_map] at hc
      obtain ⟨d, hd, rfl⟩ := hc
      exact digitChar_isDigit d (Nat.digits_lt_base (by norm_num) hd)
    have hval : digitsVal (toString n).data = n := by
      rw [hdata, digitsVal_rev_digits _ (fun d hd => Nat.digits_lt_base (by norm_num) hd)]
      exact Nat.ofDigits_digits 10 n
    have hhead : ∀ c cs, (toString n).data = c :: cs → cs ≠ [] → c ≠ '0' := by
      intro c cs hc _
      have hlast : (Nat.digits 10 n).getLast hne ≠ 0 :=
        Nat.getLast_digit_ne_zero 10 (Nat.pos_iff_ne_zero.mp hn)
      have hcval : c = Nat.digitChar ((Nat.digits 10 n).getLast hne) := by
        have h1 : ((Nat.digits 10 n).map Nat.digitChar).reverse = c :: cs := hdata ▸ hc
        have h2 : ((Nat.digits 10 n).map Nat.digitChar).getLast? = some c := by
          rw [← List.head?_reverse, h1]
          rfl
        have h3 : ((Nat.digits 10 n).map Nat.digitChar).getLast? =
            some (Nat.digitChar ((Nat.digits 10 n).getLast hne)) := by
          rw [List.getLast?_eq_getLast _ (by simpa using hne)]
          simp [List.getLast_map]
        rw [h2] at h3
        exact Option.some_inj.mp h3
      rw [hcval]
      exact digitChar_ne_zero _ (Nat.digits_lt_base (by norm_num) (List.getLast_mem hne)) hlast
    rcases hd : (toString n).data with _ | ⟨c, cs⟩
    · exfalso
      rw [hd] at hdata
      exact hne (by simpa using hdata.symm)
    · have hall' : (c :: cs).all (fun ch => ch.isDigit) = true := by
        rw [List.all_eq_true]
        intro ch hch
        exact hall ch (hd ▸ hch)
      simp only [jsArrayIndex, hd, hall', if_true]
      have hnolead : ¬(c = '0' ∧ cs ≠ []) := by
        rintro ⟨rfl, hcs⟩
        exact hhead _ _ hd hcs rfl
      rw [if_neg hnolead]
      have : digitsVal (c :: cs) = n := by rw [← hd]; exact hval
      rw [this]

/-- The string whose characters are the segments of `p ++ "." ++ q` are the
segments of `p` followed by those of `q`, so path evaluation of a dotted
concatenation is sequential traversal: the first missing or non-object
segment (yielding `undefined`, which absorbs) decides the result. -/
theorem getNestedValue_append (o : JsValue) (p q : String) :
    getNestedValue o (p ++ "." ++ q) = getNestedValue (getNestedValue o p) q := by
  have hdata : (p ++ "." ++ q).data = p.data ++ '.' :: q.data := by
    simp [String.data_append]
  simp only [getNestedValue, hdata, splitDot_append, List.map_append,
    List.foldl_append]

/-! ## Retry-loop lemmas (claim C7 support) -/

theorem retryGo_all_fail (ex : Executor) (n delay : Nat) (expo : Bool) :
    ∀ (fuel a : Nat), (∀ i, a ≤ i → i ≤ a + fuel → ∃ e, ex i = .error e) →
    retryGo ex n delay expo a fuel =
      (ex (a + fuel),
       (List.range' a fuel).flatMap (attemptEvents n delay expo) ++
         [.observe (a + fuel) n, .call (a + fuel)]) := by
  intro fuel
  induction fuel with
  | zero => intro a _; simp [retryGo]
  | succ fuel ih =>
      intro a h
      obtain ⟨e, he⟩ := h a (le_refl a) (by omega)
      have harith : a + (fuel + 1) = (a + 1) + fuel := by omega
      simp only [retryGo, he]
      rw [ih (a + 1) (fun i h1 h2 => h i (by omega) (by omega))]
      simp [List.range'_succ, attemptEvents, harith]

theorem retryGo_first_ok (ex : Executor) (n delay : Nat) (expo : Bool) :
    ∀ (fuel a k : Nat) (v : JsValue), a ≤ k → k ≤ a + fuel →
    (∀ i, a ≤ i → i < k → ∃ e, ex i = .error e) → ex k = .ok v →
    retryGo ex n delay expo a fuel =
      (.ok v,
       (List.range' a (k - a)).flatMap (attemptEvents n delay expo) ++
         [.observe k n, .call k]) := by
  intro fuel
  induction fuel with
  | zero =>
      intro a k v hak hka _ hok
      have : k = a := by omega
      subst this
      simp [retryGo, hok]
  | succ fuel ih =>
      intro a k v hak hka hfail hok
      rcases Nat.eq_or_lt_of_le hak with rfl | hlt
      · simp [retryGo, hok]
      · obtain ⟨e, he⟩ := hfail a (le_refl a) hlt
        simp only [retryGo, he]
        rw [ih (a + 1) k v (by omega) (by omega)
          (fun i h1 h2 => hfail i (by omega) h2) hok]
        have hrange : List.range' a (k - a) = a :: List.range' (a + 1) (k - (a + 1)) := by
          have : k - a = (k - (a + 1)) + 1 := by omega
          rw [this, List.range'_succ]
        simp [hrange, attemptEvents]

/-! ## Backend-selection lemmas (claim C6 support) -/

theorem healthyOk_iff (h : Except String Bool) : healthyOk h = true ↔ h = .ok true := by
  cases h with
  | error e => simp [healthyOk]
  | ok b => cases b <;> simp [healthyOk]

theorem mem_healthyBackends (registry : List BackendM) (be : BackendM) :
    be ∈ healthyBackends registry ↔ be ∈ registry ∧ be.isHealthy = .ok true := by
  simp [healthyBackends, List.mem_filter, healthyOk_iff]

theorem healthyBackends_sublist (registry : List BackendM) :
    (healthyBackends registry).Sublist registry :=
  List.filter_sublist registry

/-- When no scanned backend's `getResources` throws, the GPU scan is the
first backend reporting an available GPU. -/
theorem gpuScan_no_throw : ∀ (l : List BackendM),
    (∀ be ∈ l, ∀ e, be.getResources ≠ some (.error e)) →
    gpuScan l = .ok (l.find? reportsAvailableGpu) := by
  intro l
  induction l with
  | nil => intro _; rfl
  | cons be rest ih =>
      intro h
      have hrest := fun b hb => h b (List.mem_cons_of_mem be hb)
      rcases hres : be.getResources with _ | r
      · have : reportsAvailableGpu be = false := by simp [reportsAvailableGpu, hres]
        simp [gpuScan, hres, List.find?, this, ih hrest]
      · rcases r with e | pool
        · exact absurd hres (h be (List.mem_cons_self be rest) e)
        · by_cases hg : pool.gpus.any (fun g => g.available)
          · have : reportsAvailableGpu be = true := by simp [reportsAvailableGpu, hres, hg]
            simp [gpuScan, hres, hg, List.find?, this]
          · have : reportsAvailableGpu be = false := by
              simp only [reportsAvailableGpu, hres]
              simpa using hg
            simp [gpuScan, hres, hg, List.find?, this, ih hrest]

/-! ## DAG-runner effect lemmas -/

theorem mem_mapSet (m : List (String × α)) (k : String) (v : α) :
    ∀ p ∈ mapSet m k v, p = (k, v) ∨ p ∈ m := by
  induction m with
  | nil => intro p hp; simpa [mapSet] using hp
  | cons kv rest ih =>
      intro p hp
      by_cases h : kv.1 = k
      · simp only [mapSet, if_pos h, List.mem_cons] at hp
        rcases hp with rfl | hp
        · exact Or.inl rfl
        · exact Or.inr (List.mem_cons_of_mem kv hp)
      · simp only [mapSet, if_neg h, List.mem_cons] at hp
        rcases hp with rfl | hp
        · exact Or.inr (List.mem_cons_self p rest)
        · rcases ih p hp with h' | h'
          · exact Or.inl h'
          · exact Or.inr (List.mem_cons_of_mem kv h')

theorem updateStatus_completed (st : DagState) (id : String)
    (f : StepStatus → StepStatus) : (updateStatus st id f).completed = st.completed := rfl

theorem updateStatus_failed (st : DagState) (id : String)
    (f : StepStatus → StepStatus) : (updateStatus st id f).failed = st.failed := rfl

theorem skipStep_completed (st : DagState) (id : String) (m : JsValue) :
    (skipStep st id m).completed = setAdd st.completed id := rfl

theorem skipStep_failed (st : DagState) (id : String) (m : JsValue) :
    (skipStep st id m).failed = st.failed := rfl

theorem skipStep_progressLog (st : DagState) (id : String) (m : JsValue) :
    (skipStep st id m).progressLog = st.progressLog := rfl

theorem skipStep_clock (st : DagState) (id : String) (m : JsValue) :
    (skipStep st id m).clock = st.clock := rfl

theorem completeStep_completed (st : DagState) (id : String) (v : JsValue) :
    (completeStep st id v).completed = setAdd st.completed id := rfl

theorem completeStep_failed (st : DagState) (id : String) (v : JsValue) :
    (completeStep st id v).failed = st.failed := rfl

theorem completeStep_progressLog (st : DagState) (id : String) (v : JsValue) :
    (completeStep st id v).progressLog = st.progressLog := rfl

theorem completeStep_clock (st : DagState) (id : String) (v : JsValue) :
    (completeStep st id v).clock = st.clock := rfl

theorem handleStepError_cases (st : DagState) (id : String) (step : Step)
    (msg : String) :
    ((handleStepError st id step msg).1.completed = setAdd st.completed id ∧
     (handleStepError st id step msg).1.failed = st.failed ∧
     (handleStepError st id step msg).2 = none) ∨
    ((handleStepError st id step msg).1.completed = st.completed ∧
     (handleStepError st id step msg).1.failed = setAdd st.failed id ∧
     (handleStepError st id step msg).2 = some msg) := by
  by_cases h : step.optional
  · left; simp [handleStepError, h, updateStatus]
  · right; simp [handleStepError, h, updateStatus]

theorem handleStepError_progressLog (st : DagState) (id : String) (step : Step)
    (msg : String) :
    (handleStepError st id step msg).1.progressLog = st.progressLog := by
  by_cases h : step.optional <;> simp [handleStepError, h, updateStatus]

theorem handleStepError_clock (st : DagState) (id : String) (step : Step)
    (msg : String) :
    (handleStepError st id step msg).1.clock = st.clock := by
  by_cases h : step.optional <;> simp [handleStepError, h, updateStatus]

theorem runItem_completed (exec : Exec) (task : Task) (step : Step)
    (st : DagState) (i : Nat) (v : JsValue) :
    (runItem exec task step st i v).1.completed = st.completed := rfl

theorem runItem_failed (exec : Exec) (task : Task) (step : Step)
    (st : DagState) (i : Nat) (v : JsValue) :
    (runItem exec task step st i v).1.failed = st.failed := rfl

theorem runItem_progressLog (exec : Exec) (task : Task) (step : Step)
    (st : DagState) (i : Nat) (v : JsValue) :
    (runItem exec task step st i v).1.progressLog = st.progressLog := rfl

theorem runItem_statuses (exec : Exec) (task : Task) (step : Step)
    (st : DagState) (i : Nat) (v : JsValue) :
    (runItem exec task step st i v).1.statuses = st.statuses := rfl

theorem runItem_clock_ge (exec : Exec) (task : Task) (step : Step)
    (st : DagState) (i : Nat) (v : JsValue) :
    st.clock ≤ (runItem exec task step st i v).1.clock :=
  Nat.le_add_right _ _

theorem runItemBatch_frame (exec : Exec) (task : Task) (step : Step) :
    ∀ (l : List (Nat × JsValue)) (st : DagState),
    (runItemBatch exec task step st l).1.completed = st.completed ∧
    (runItemBatch exec task step st l).1.failed = st.failed ∧
    (runItemBatch exec task step st l).1.progressLog = st.progressLog ∧
    (runItemBatch exec task step st l).1.statuses = st.statuses ∧
    st.clock ≤ (runItemBatch exec task step st l).1.clock := by
  intro l
  induction l with
  | nil => intro st; exact ⟨rfl, rfl, rfl, rfl, le_refl _⟩
  | cons iv rest ih =>
      intro st
      rcases iv with ⟨i, v⟩
      rcases h : (runItem exec task step st i v).2 with e | value
      · simp only [runItemBatch, h]
        exact ⟨rfl, rfl, rfl, rfl, runItem_clock_ge exec task step st i v⟩
      · have hmid := ih (runItem exec task step st i v).1
        simp only [runItemBatch, h]
        refine ⟨hmid.1, hmid.2.1, hmid.2.2.1, hmid.2.2.2.1, ?_⟩
        exact le_trans (runItem_clock_ge exec task step st i v) hmid.2.2.2.2

theorem runChunks_frame (exec : Exec) (task : Task) (step : Step) :
    ∀ (bs : List (List (Nat × JsValue))) (st : DagState),
    (runChunks exec task step st bs).1.completed = st.completed ∧
    (runChunks exec task step st bs).1.failed = st.failed ∧
    (runChunks exec task step st bs).1.progressLog = st.progressLog ∧
    (runChunks exec task step st bs).1.statuses = st.statuses ∧
    st.clock ≤ (runChunks exec task step st bs).1.clock := by
  intro bs
  induction bs with
  | nil => intro st; exact ⟨rfl, rfl, rfl, rfl, le_refl _⟩
  | cons b rest ih =>
      intro st
      have hb := runItemBatch_frame exec task step b st
      rcases h : (runItemBatch exec task step st b).2 with e | vs
      · simp only [runChunks, h]
        exact ⟨hb.1, hb.2.1, hb.2.2.1, hb.2.2.2.1, hb.2.2.2.2⟩
      · have hmid := ih (runItemBatch exec task step st b).1
        simp only [runChunks, h]
        refine ⟨hb.1 ▸ hmid.1, hb.2.1 ▸ hmid.2.1, hb.2.2.1 ▸ hmid.2.2.1,
          hb.2.2.2.1 ▸ hmid.2.2.2.1, le_trans hb.2.2.2.2 hmid.2.2.2.2⟩

theorem finishExec_cases (st : DagState) (id : String) (step : Step)
    (out : Except String JsValue) :
    ((finishExec st id step out).1.completed = setAdd st.completed id ∧
     (finishExec st id step out).1.failed = st.failed ∧
     (finishExec st id step out).2 = none) ∨
    ((finishExec st id step out).1.completed = st.completed ∧
     (finishExec st id step out).1.failed = setAdd st.failed id ∧
     ∃ e, (finishExec st id step out).2 = some e) := by
  rcases out with e | v
  · rcases handleStepError_cases st id step e with ⟨h1, h2, h3⟩ | ⟨h1, h2, h3⟩
    · exact Or.inl ⟨h1, h2, h3⟩
    · exact Or.inr ⟨h1, h2, ⟨e, h3⟩⟩
  · exact Or.inl ⟨rfl, rfl, rfl⟩

theorem finishExec_progressLog (st : DagState) (id : String) (step : Step)
    (out : Except String JsValue) :
    (finishExec st id step out).1.progressLog = st.progressLog := by
  rcases out with e | v
  · exact handleStepError_progressLog st id step e
  · rfl

theorem finishExec_clock (st : DagState) (id : String) (step : Step)
    (out : Except String JsValue) :
    (finishExec st id step out).1.clock = st.clock := by
  rcases out with e | v
  · exact handleStepError_clock st id step e
  · rfl

theorem regularExec_cases (exec : Exec) (task : Task) (st : DagState)
    (id : String) (step : Step) :
    ((regularExec exec task st id step).1.completed = setAdd st.completed id ∧
     (regularExec exec task st id step).1.failed = st.failed ∧
     (regularExec exec task st id step).2 = none) ∨
    ((regularExec exec task st id step).1.completed = st.completed ∧
     (regularExec exec task st id step).1.failed = setAdd st.failed id ∧
     ∃ e, (regularExec exec task st id step).2 = some e) := by
  unfold regularExec
  exact finishExec_cases _ _ _ _

theorem sets_cases_mono {st st' : DagState} (id : String)
    (r : DagState × Option String)
    (hc : st'.completed = st.completed) (hf : st'.failed = st.failed)
    (h : (r.1.completed = setAdd st'.completed id ∧ r.1.failed = st'.failed ∧
          r.2 = none) ∨
         (r.1.completed = st'.completed ∧ r.1.failed = setAdd st'.failed id ∧
          ∃ e, r.2 = some e)) :
    (r.1.completed = setAdd st.completed id ∧ r.1.failed = st.failed ∧
     r.2 = none) ∨
    (r.1.completed = st.completed ∧ r.1.failed = setAdd st.failed id ∧
     ∃ e, r.2 = some e) := by
  rw [hc, hf] at h
  exact h

theorem executeStepBody_cases (exec : Exec) (task : Task) (st : DagState)
    (id : String) (step : Step) :
    ((executeStepBody exec task st id step).1.completed = setAdd st.completed id ∧
     (executeStepBody exec task st id step).1.failed = st.failed ∧
     (executeStepBody exec task st id step).2 = none) ∨
    ((executeStepBody exec task st id step).1.completed = st.completed ∧
     (executeStepBody exec task st id step).1.failed = setAdd st.failed id ∧
     ∃ e, (executeStepBody exec task st id step).2 = some e) := by
  unfold executeStepBody
  dsimp only
  split
  · split
    · exact sets_cases_mono id _ rfl rfl (regularExec_cases _ _ _ _ _)
    · split
      · refine sets_cases_mono id _ ?_ ?_ (finishExec_cases _ _ _ _)
        · exact (runChunks_frame _ _ _ _ _).1
        · exact (runChunks_frame _ _ _ _ _).2.1
      · exact sets_cases_mono id _ rfl rfl
          (Or.elim (handleStepError_cases _ _ _ _)
            (fun h => Or.inl h)
            (fun h => Or.inr ⟨h.1, h.2.1, ⟨_, h.2.2⟩⟩))
  · exact sets_cases_mono id _ rfl rfl (regularExec_cases _ _ _ _ _)

theorem executeStep_cases (exec : Exec) (task : Task) (st : DagState)
    (id : String) (step : Step) :
    ((executeStep exec task st id step).1.completed = setAdd st.completed id ∧
     (executeStep exec task st id step).1.failed = st.failed ∧
     (executeStep exec task st id step).2 = none) ∨
    ((executeStep exec task st id step).1.completed = st.completed ∧
     (executeStep exec task st id step).1.failed = setAdd st.failed id ∧
     ∃ e, (executeStep exec task st id step).2 = some e) := by
  unfold executeStep
  split
  · split
    · exact executeStepBody_cases exec task st id step
    · split
      · exact Or.inl ⟨rfl, rfl, rfl⟩
      · split
        · exact executeStepBody_cases exec task st id step
        · exact Or.inl ⟨rfl, rfl, rfl⟩
  · exact executeStepBody_cases exec task st id step

theorem regularExec_progressLog (exec : Exec) (task : Task) (st : DagState)
    (id : String) (step : Step) :
    (regularExec exec task st id step).1.progressLog = st.progressLog := by
  unfold regularExec
  exact finishExec_progressLog _ _ _ _

theorem regularExec_clock_ge (exec : Exec) (task : Task) (st : DagState)
    (id : String) (step : Step) :
    st.clock ≤ (regularExec exec task st id step).1.clock := by
  unfold regularExec
  rw [finishExec_clock]
  exact Nat.le_add_right _ _

theorem executeStepBody_progressLog (exec : Exec) (task : Task) (st : DagState)
    (id : String) (step : Step) :
    (executeStepBody exec task st id step).1.progressLog = st.progressLog := by
  unfold executeStepBody
  dsimp only
  split
  · split
    · exact regularExec_progressLog exec task (markRunning st id) id step
    · split
      · rw [finishExec_progressLog]
        exact (runChunks_frame exec task step _ (markRunning st id)).2.2.1
      · exact handleStepError_progressLog _ _ _ _
  · exact regularExec_progressLog exec task (markRunning st id) id step

theorem executeStepBody_clock_ge (exec : Exec) (task : Task) (st : DagState)
    (id : String) (step : Step) :
    st.clock ≤ (executeStepBody exec task st id step).1.clock := by
  unfold executeStepBody
  dsimp only
  split
  · split
    · exact regularExec_clock_ge exec task (markRunning st id) id step
    · split
      · rw [finishExec_clock]
        exact (runChunks_frame exec task step _ (markRunning st id)).2.2.2.2
      · rw [handleStepError_clock]
        exact le_refl _
  · exact regularExec_clock_ge exec task (markRunning st id) id step

theorem executeStep_progressLog (exec : Exec) (task : Task) (st : DagState)
    (id : String) (step : Step) :
    (executeStep exec task st id step).1.progressLog = st.progressLog := by
  unfold executeStep
  split
  · split
    · exact executeStepBody_progressLog _ _ _ _ _
    · split
      · rfl
      · split
        · exact executeStepBody_progressLog _ _ _ _ _
        · rfl
  · exact executeStepBody_progressLog _ _ _ _ _

theorem executeStep_clock_ge (exec : Exec) (task : Task) (st : DagState)
    (id : String) (step : Step) :
    st.clock ≤ (executeStep exec task st id step).1.clock := by
  unfold executeStep
  split
  · split
    · exact executeStepBody_clock_ge _ _ _ _ _
    · split
      · exact le_refl _
      · split
        · exact executeStepBody_clock_ge _ _ _ _ _
        · exact le_refl _
  · exact executeStepBody_clock_ge _ _ _ _ _

/-! ## Status-invariant preservation (claim C5 support) -/

theorem statusClockOk_mono {c c' : Nat} (h : c ≤ c') (s : StepStatus)
    (hs : statusClockOk c s) : statusClockOk c' s :=
  ⟨fun a ha => le_trans (hs.1 a ha) h, fun b hb => le_trans (hs.2 b hb) h⟩

theorem getStatus_cases (st : DagState) (id : String) :
    getStatus st id = { id := id, task := "", status := "pending" } ∨
    (id, getStatus st id) ∈ st.statuses := by
  unfold getStatus
  rcases h : mapGet st.statuses id with _ | s
  · exact Or.inl rfl
  · right
    unfold mapGet at h
    rcases hf : st.statuses.find? (fun p => p.1 = id) with _ | p
    · rw [hf] at h; simp at h
    · rw [hf] at h
      obtain ⟨p1, p2⟩ := p
      have hkey : p1 = id := by simpa using List.find?_some hf
      have hval : p2 = s := by simpa using h
      subst hkey
      subst hval
      exact List.mem_of_find?_eq_some hf

/-- The timing, clock and pristineness facts of the status record of a
not-yet-terminal step. -/
theorem getStatus_fresh_facts (st : DagState) (id : String)
    (hfc : id ∉ st.completed) (hff : id ∉ st.failed) (hinv : StatusesInv st) :
    statusTimingOk (getStatus st id) ∧ statusClockOk st.clock (getStatus st id) ∧
    (getStatus st id).error = none ∧ (getStatus st id).completedAt = none := by
  rcases getStatus_cases st id with hdef | hmem
  · rw [hdef]
    refine ⟨⟨fun h => by simp_all, fun h => by simp_all, fun d hd => by simp_all,
      fun _ a b ha _ => by simp_all⟩,
      ⟨fun a ha => by simp_all, fun b hb => by simp_all⟩, rfl, rfl⟩
  · have h := hinv _ hmem
    exact ⟨h.1.1, h.1.2, (h.2 hfc hff).1, (h.2 hfc hff).2⟩

/-- Any status record in an invariant-satisfying state is timing- and
clock-sound. -/
theorem getStatus_sound (st : DagState) (id : String) (hinv : StatusesInv st) :
    statusTimingOk (getStatus st id) ∧ statusClockOk st.clock (getStatus st id) := by
  rcases getStatus_cases st id with hdef | hmem
  · rw [hdef]
    exact ⟨⟨fun h => by simp_all, fun h => by simp_all, fun d hd => by simp_all,
      fun _ a b ha _ => by simp_all⟩,
      ⟨fun a ha => by simp_all, fun b hb => by simp_all⟩⟩
  · exact (hinv _ hmem).1

theorem StatusesInv_frame (st st' : DagState) (hs : st'.statuses = st.statuses)
    (hcpl : st'.completed = st.completed) (hfl : st'.failed = st.failed)
    (hck : st.clock ≤ st'.clock) (hinv : StatusesInv st) : StatusesInv st' := by
  intro p hp
  rw [hs] at hp
  rw [hcpl, hfl]
  exact ⟨⟨(hinv p hp).1.1, statusClockOk_mono hck p.2 (hinv p hp).1.2⟩,
    (hinv p hp).2⟩

theorem StatusesInv_skipStep (st : DagState) (id : String) (m : JsValue)
    (hfc : id ∉ st.completed) (hff : id ∉ st.failed) (hinv : StatusesInv st) :
    StatusesInv (skipStep st id m) := by
  obtain ⟨hT, hK, hE, hC⟩ := getStatus_fresh_facts st id hfc hff hinv
  intro p hp
  have hp' : p ∈ mapSet st.statuses id
      ((fun s => { s with status := "skipped" }) (getStatus st id)) := hp
  rcases mem_mapSet _ _ _ p hp' with rfl | hmem
  · refine ⟨⟨⟨fun h => by simp_all, fun _ herr => ?_, hT.2.2.1,
      fun _ a b ha hb => ?_⟩, ⟨fun a ha => hK.1 a ha, fun b hb => hK.2 b hb⟩⟩,
      fun h1 _ => absurd (self_mem_setAdd _ _) h1⟩
    · simp only [hE] at herr
      simp at herr
    · simp only [hC] at hb
      simp at hb
  · have h := hinv p hmem
    exact ⟨h.1, fun h1 h2 => h.2 (fun hc => h1 (mem_setAdd_of_mem _ _ _ hc)) h2⟩

theorem StatusesInv_markRunning (st : DagState) (id : String)
    (hfc : id ∉ st.completed) (hff : id ∉ st.failed) (hinv : StatusesInv st) :
    StatusesInv (markRunning st id) := by
  obtain ⟨hT, hK, hE, hC⟩ := getStatus_fresh_facts st id hfc hff hinv
  intro p hp
  have hp' : p ∈ mapSet st.statuses id
      ((fun s => { s with status := "running", startedAt := some st.clock })
        (getStatus st id)) := hp
  rcases mem_mapSet _ _ _ p hp' with rfl | hmem
  · refine ⟨⟨⟨fun h => by simp_all, fun h => by simp_all, hT.2.2.1,
      fun h => by simp_all⟩,
      ⟨fun a ha => ?_, fun b hb => ?_⟩⟩, fun _ _ => ⟨hE, hC⟩⟩
    · show a ≤ st.clock
      simp only [Option.some_inj] at ha
      omega
    · simp only [hC] at hb
      simp at hb
  · exact hinv p hmem

theorem StatusesInv_completeStep (st : DagState) (id : String) (v : JsValue)
    (hinv : StatusesInv st) : StatusesInv (completeStep st id v) := by
  obtain ⟨hT, hK⟩ := getStatus_sound st id hinv
  intro p hp
  rcases mem_mapSet _ _ _ p hp with rfl | hmem
  · refine ⟨⟨⟨fun _ => by simp, fun h => by simp_all, ?_, ?_⟩,
      ⟨fun a ha => hK.1 a ha, fun b hb => by
        show b ≤ st.clock
        simp only [Option.some_inj] at hb
        omega⟩⟩,
      fun h1 _ => absurd (self_mem_setAdd _ _) h1⟩
    · intro d hd
      simp only [Option.some_inj] at hd
      rcases ha : (getStatus st id).startedAt with _ | a
      · simp [ha] at hd; omega
      · have := hK.1 a ha
        simp [ha] at hd
        omega
    · intro _ a b ha hb
      simp only [Option.some_inj] at hb
      subst hb
      simp only at ha
      exact hK.1 a ha
  · have h := hinv p hmem
    exact ⟨h.1, fun h1 h2 => h.2 (fun hc => h1 (mem_setAdd_of_mem _ _ _ hc)) h2⟩

theorem StatusesInv_handleStepError (st : DagState) (id : String) (step : Step)
    (msg : String) (hinv : StatusesInv st) :
    StatusesInv (handleStepError st id step msg).1 := by
  obtain ⟨hT, hK⟩ := getStatus_sound st id hinv
  unfold handleStepError
  by_cases hop : step.optional
  · simp only [if_pos hop]
    intro p hp
    rcases mem_mapSet _ _ _ p hp with rfl | hmem
    · refine ⟨⟨⟨fun h => by simp_all, fun _ _ => by simp, ?_, ?_⟩,
        ⟨fun a ha => hK.1 a ha, fun b hb => by
          show b ≤ st.clock
          simp only [Option.some_inj] at hb
          omega⟩⟩,
        fun h1 _ => absurd (self_mem_setAdd _ _) h1⟩
      · intro d hd
        simp only [Option.some_inj] at hd
        rcases ha : (getStatus st id).startedAt with _ | a
        · simp [ha] at hd; omega
        · have := hK.1 a ha
          simp [ha] at hd
          omega
      · intro _ a b ha hb
        simp only [Option.some_inj] at hb
        subst hb
        simp only at ha
        exact hK.1 a ha
    · have h := hinv p hmem
      exact ⟨h.1, fun h1 h2 => h.2 (fun hc => h1 (mem_setAdd_of_mem _ _ _ hc)) h2⟩
  · simp only [if_neg hop]
    intro p hp
    rcases mem_mapSet _ _ _ p hp with rfl | hmem
    · refine ⟨⟨⟨fun _ => by simp, fun h => by simp_all, ?_, ?_⟩,
        ⟨fun a ha => hK.1 a ha, fun b hb => by
          show b ≤ st.clock
          simp only [Option.some_inj] at hb
          omega⟩⟩,
        fun _ h2 => absurd (self_mem_setAdd _ _) h2⟩
      · intro d hd
        simp only [Option.some_inj] at hd
        rcases ha : (getStatus st id).startedAt with _ | a
        · simp [ha] at hd; omega
        · have := hK.1 a ha
          simp [ha] at hd
          omega
      · intro _ a b ha hb
        simp only [Option.some_inj] at hb
        subst hb
        simp only at ha
        exact hK.1 a ha
    · have h := hinv p hmem
      exact ⟨h.1, fun h1 h2 => h.2 h1 (fun hc => h2 (mem_setAdd_of_mem _ _ _ hc))⟩

theorem StatusesInv_finishExec (st : DagState) (id : String) (step : Step)
    (out : Except String JsValue) (hinv : StatusesInv st) :
    StatusesInv (finishExec st id step out).1 := by
  rcases out with e | v
  · exact StatusesInv_handleStepError st id step e hinv
  · exact StatusesInv_completeStep st id v hinv

theorem StatusesInv_regularExec (exec : Exec) (task : Task) (st : DagState)
    (id : String) (step : Step) (hinv : StatusesInv st) :
    StatusesInv (regularExec exec task st id step).1 := by
  unfold regularExec
  refine StatusesInv_finishExec _ id step _ ?_
  exact StatusesInv_frame st _ rfl rfl rfl (Nat.le_add_right _ _) hinv

theorem StatusesInv_executeStepBody (exec : Exec) (task : Task) (st : DagState)
    (id : String) (step : Step) (hfc : id ∉ st.completed) (hff : id ∉ st.failed)
    (hinv : StatusesInv st) : StatusesInv (executeStepBody exec task st id step).1 := by
  have hrun : StatusesInv (markRunning st id) :=
    StatusesInv_markRunning st id hfc hff hinv
  unfold executeStepBody
  dsimp only
  split
  · split
    · exact StatusesInv_regularExec exec task (markRunning st id) id step hrun
    · split
      · refine StatusesInv_finishExec _ id step _ ?_
        refine StatusesInv_frame (markRunning st id) _ ?_ ?_ ?_ ?_ hrun
        · exact (runChunks_frame _ _ _ _ _).2.2.2.1
        · exact (runChunks_frame _ _ _ _ _).1
        · exact (runChunks_frame _ _ _ _ _).2.1
        · exact (runChunks_frame _ _ _ _ _).2.2.2.2
      · exact StatusesInv_handleStepError (markRunning st id) id step _ hrun
  · exact StatusesInv_regularExec exec task (markRunning st id) id step hrun

theorem StatusesInv_executeStep (exec : Exec) (task : Task) (st : DagState)
    (id : String) (step : Step) (hfc : id ∉ st.completed) (hff : id ∉ st.failed)
    (hinv : StatusesInv st) : StatusesInv (executeStep exec task st id step).1 := by
  unfold executeStep
  split
  · split
    · exact StatusesInv_executeStepBody exec task st id step hfc hff hinv
    · split
      · exact StatusesInv_skipStep st id _ hfc hff hinv
      · split
        · exact StatusesInv_executeStepBody exec task st id step hfc hff hinv
        · exact StatusesInv_skipStep st id _ hfc hff hinv
  · exact StatusesInv_executeStepBody exec task st id step hfc hff hinv

/-! ## Set-invariant and step-map lemmas (claims C4/C10 support) -/

theorem contains_false_not_mem (l : List String) (x : String)
    (h : l.contains x = false) : x ∉ l := by
  simpa using h

theorem canRun_facts (st : DagState) (id : String) (step : Step)
    (h : canRun st id step = true) :
    id ∉ st.completed ∧ id ∉ st.failed := by
  unfold canRun at h
  by_cases ht : isTerminal st id = true
  · rw [if_pos ht] at h
    exact absurd h (by simp)
  · have ht' : isTerminal st id = false := by simpa using ht
    unfold isTerminal at ht'
    rcases Bool.or_eq_false_iff.mp ht' with ⟨h1, h2⟩
    exact ⟨contains_false_not_mem _ _ h1, contains_false_not_mem _ _ h2⟩

theorem canRun_deps (st : DagState) (id : String) (step : Step)
    (h : canRun st id step = true) :
    ∀ d ∈ (match step.dependsOn with
            | some deps => deps
            | none => []), d ∈ st.completed := by
  unfold canRun at h
  by_cases ht : isTerminal st id = true
  · rw [if_pos ht] at h
    exact absurd h (by simp)
  · rw [if_neg ht] at h
    intro d hd
    have := List.all_eq_true.mp h d hd
    simpa using this

theorem SetsInv_executeStep (keys : List String) (exec : Exec) (task : Task)
    (st : DagState) (id : String) (step : Step) (hinv : SetsInv keys st)
    (hid : id ∈ keys) (hfc : id ∉ st.completed) (hff : id ∉ st.failed) :
    SetsInv keys (executeStep exec task st id step).1 ∧
    terminalCount (executeStep exec task st id step).1 = terminalCount st + 1 ∧
    (∀ x, x ∈ (executeStep exec task st id step).1.completed ↔
      x ∈ st.completed ∨ ((executeStep exec task st id step).1.completed =
        setAdd st.completed id ∧ x = id)) ∧
    st.completed.length ≤ (executeStep exec task st id step).1.completed.length := by
  rcases executeStep_cases exec task st id step with ⟨h1, h2, _⟩ | ⟨h1, h2, _⟩
  · refine ⟨⟨?_, ?_, ?_, ?_, ?_⟩, ?_, ?_, ?_⟩
    · rw [h1]; exact setAdd_nodup _ _ hinv.1
    · rw [h2]; exact hinv.2.1
    · rw [h1, h2]
      intro x hx
      rcases (setAdd_mem _ _ _).mp hx with hx' | rfl
      · exact hinv.2.2.1 x hx'
      · exact hff
    · rw [h1]
      intro x hx
      rcases (setAdd_mem _ _ _).mp hx with hx' | rfl
      · exact hinv.2.2.2.1 x hx'
      · exact hid
    · rw [h2]; exact hinv.2.2.2.2
    · unfold terminalCount
      rw [h1, h2, setAdd_length_fresh _ _ hfc]
      omega
    · intro x
      rw [h1]
      constructor
      · intro hx
        rcases (setAdd_mem _ _ _).mp hx with hx' | rfl
        · exact Or.inl hx'
        · exact Or.inr ⟨rfl, rfl⟩
      · rintro (hx | ⟨_, rfl⟩)
        · exact mem_setAdd_of_mem _ _ _ hx
        · exact self_mem_setAdd _ _
    · rw [h1]; exact setAdd_length_ge _ _
  · refine ⟨⟨?_, ?_, ?_, ?_, ?_⟩, ?_, ?_, ?_⟩
    · rw [h1]; exact hinv.1
    · rw [h2]; exact setAdd_nodup _ _ hinv.2.1
    · rw [h1, h2]
      intro x hx hx'
      rcases (setAdd_mem _ _ _).mp hx' with hx'' | rfl
      · exact hinv.2.2.1 x hx hx''
      · exact hfc hx
    · rw [h1]; exact hinv.2.2.2.1
    · rw [h2]
      intro x hx
      rcases (setAdd_mem _ _ _).mp hx with hx' | rfl
      · exact hinv.2.2.2.2 x hx'
      · exact hid
    · unfold terminalCount
      rw [h1, h2, setAdd_length_fresh _ _ hff]
      omega
    · intro x
      rw [h1]
      constructor
      · exact fun hx => Or.inl hx
      · rintro (hx | ⟨habs, rfl⟩)
        · exact hx
        · rw [habs]
          exact self_mem_setAdd _ _
    · rw [h1]

theorem terminalCount_le_keys (keys : List String) (st : DagState)
    (hinv : SetsInv keys st) : terminalCount st ≤ keys.length := by
  have hnd : (st.completed ++ st.failed).Nodup :=
    List.Nodup.append hinv.1 hinv.2.1 (fun x hx hx' => hinv.2.2.1 x hx hx')
  have hsub : (st.completed ++ st.failed) ⊆ keys := by
    intro x hx
    rcases List.mem_append.mp hx with h | h
    · exact hinv.2.2.2.1 x h
    · exact hinv.2.2.2.2 x h
  have := (hnd.subperm hsub).length_le
  simpa [terminalCount] using this

theorem runStepBatch_inv (keys : List String) (exec : Exec) (task : Task) :
    ∀ (l : List (String × Step)) (st : DagState),
    SetsInv keys st → StatusesInv st →
    (∀ p ∈ l, p.1 ∈ keys) → (l.map Prod.fst).Nodup →
    (∀ p ∈ l, p.1 ∉ st.completed ∧ p.1 ∉ st.failed) →
    SetsInv keys (runStepBatch exec task st l).1 ∧
    StatusesInv (runStepBatch exec task st l).1 ∧
    terminalCount (runStepBatch exec task st l).1 = terminalCount st + l.length ∧
    st.completed.length ≤ (runStepBatch exec task st l).1.completed.length ∧
    (runStepBatch exec task st l).1.progressLog = st.progressLog ∧
    st.clock ≤ (runStepBatch exec task st l).1.clock := by
  intro l
  induction l with
  | nil =>
      intro st hs hst _ _ _
      exact ⟨hs, hst, by simp [runStepBatch], le_refl _, rfl, le_refl _⟩
  | cons hd rest ih =>
      intro st hs hst hkeys hnd hfresh
      obtain ⟨id, step⟩ := hd
      have hid : id ∈ keys := hkeys (id, step) (List.mem_cons_self _ _)
      have hfr := hfresh (id, step) (List.mem_cons_self _ _)
      obtain ⟨hs1, hc1, hmem1, hlen1⟩ :=
        SetsInv_executeStep keys exec task st id step hs hid hfr.1 hfr.2
      have hst1 : StatusesInv (executeStep exec task st id step).1 :=
        StatusesInv_executeStep exec task st id step hfr.1 hfr.2 hst
      have hnotin : id ∉ rest.map Prod.fst := by
        have := hnd
        simp only [List.map_cons, List.nodup_cons] at this
        exact this.1
      have hfresh1 : ∀ p ∈ rest,
          p.1 ∉ (executeStep exec task st id step).1.completed ∧
          p.1 ∉ (executeStep exec task st id step).1.failed := by
        intro p hp
        have hne : p.1 ≠ id := by
          intro habs
          exact hnotin (habs ▸ List.mem_map_of_mem Prod.fst hp)
        have hfr' := hfresh p (List.mem_cons_of_mem _ hp)
        constructor
        · intro habs
          rcases (hmem1 p.1).mp habs with h | ⟨_, h⟩
          · exact hfr'.1 h
          · exact hne h
        · intro habs
          rcases executeStep_cases exec task st id step with ⟨_, h2, _⟩ | ⟨_, h2, _⟩
          · rw [h2] at habs
            exact hfr'.2 habs
          · rw [h2] at habs
            rcases (setAdd_mem _ _ _).mp habs with h | h
            · exact hfr'.2 h
            · exact hne h
      have := ih (executeStep exec task st id step).1 hs1 hst1
        (fun p hp => hkeys p (List.mem_cons_of_mem _ hp))
        (by simpa using (List.nodup_cons.mp (by simpa using hnd)).2)
        hfresh1
      refine ⟨this.1, this.2.1, ?_, le_trans hlen1 this.2.2.2.1, ?_, ?_⟩
      · simp only [runStepBatch]
        rw [this.2.2.1, hc1]
        simp [List.length_cons]
        omega
      · simp only [runStepBatch]
        rw [this.2.2.2.2.1]
        exact executeStep_progressLog exec task st id step
      · simp only [runStepBatch]
        exact le_trans (executeStep_clock_ge exec task st id step) this.2.2.2.2.2

/-! ## Step-map key structure and rounding lemmas -/

theorem setAdd_of_mem (l : List String) (x : String) (h : x ∈ l) :
    setAdd l x = l := by
  unfold setAdd
  rw [if_pos h]

theorem setAdd_length_le_succ (l : List String) (x : String) :
    (setAdd l x).length ≤ l.length + 1 := by
  unfold setAdd
  split
  · omega
  · simp

theorem foldl_setAdd_mem : ∀ (l : List String) (acc : List String) (x : String),
    x ∈ List.foldl setAdd acc l ↔ x ∈ acc ∨ x ∈ l := by
  intro l
  induction l with
  | nil => intro acc x; simp
  | cons a rest ih =>
      intro acc x
      rw [List.foldl_cons, ih, setAdd_mem]
      simp only [List.mem_cons]
      tauto

theorem foldl_setAdd_nodup : ∀ (l : List String) (acc : List String),
    acc.Nodup → (List.foldl setAdd acc l).Nodup := by
  intro l
  induction l with
  | nil => intro acc h; exact h
  | cons a rest ih =>
      intro acc h
      exact ih _ (setAdd_nodup _ _ h)

theorem foldl_setAdd_length_le : ∀ (l : List String) (acc : List String),
    (List.foldl setAdd acc l).length ≤ acc.length + l.length := by
  intro l
  induction l with
  | nil => intro acc; simp
  | cons a rest ih =>
      intro acc
      rw [List.foldl_cons]
      have h1 := ih (setAdd acc a)
      have h2 := setAdd_length_le_succ acc a
      simp only [List.length_cons]
      omega

theorem foldl_setAdd_length_lt_of_mem :
    ∀ (l : List String) (acc : List String), (∃ x ∈ l, x ∈ acc) →
    (List.foldl setAdd acc l).length < acc.length + l.length := by
  intro l
  induction l with
  | nil => rintro acc ⟨x, hx, _⟩; simp at hx
  | cons b rest ih =>
      rintro acc ⟨x, hx, hxa⟩
      rw [List.foldl_cons]
      rcases List.mem_cons.mp hx with rfl | hx'
      · rw [setAdd_of_mem acc x hxa]
        have := foldl_setAdd_length_le rest acc
        simp only [List.length_cons]
        omega
      · have := ih (setAdd acc b) ⟨x, hx', mem_setAdd_of_mem _ _ _ hxa⟩
        have h2 := setAdd_length_le_succ acc b
        simp only [List.length_cons]
        omega

theorem foldl_setAdd_length_lt_of_dup :
    ∀ (l : List String) (acc : List String), ¬l.Nodup →
    (List.foldl setAdd acc l).length < acc.length + l.length := by
  intro l
  induction l with
  | nil => intro acc h; exact absurd List.nodup_nil h
  | cons a rest ih =>
      intro acc h
      rw [List.foldl_cons]
      by_cases ha : a ∈ rest
      · have := foldl_setAdd_length_lt_of_mem rest (setAdd acc a)
          ⟨a, ha, self_mem_setAdd _ _⟩
        have h2 := setAdd_length_le_succ acc a
        simp only [List.length_cons]
        omega
      · have hrest : ¬rest.Nodup := by
          intro hnd
          exact h (List.nodup_cons.mpr ⟨ha, hnd⟩)
        have := ih (setAdd acc a) hrest
        have h2 := setAdd_length_le_succ acc a
        simp only [List.length_cons]
        omega

theorem mapSet_keys : ∀ (m : List (String × Step)) (k : String) (v : Step),
    (mapSet m k v).map Prod.fst = setAdd (m.map Prod.fst) k := by
  intro m
  induction m with
  | nil => intro k v; simp [mapSet, setAdd]
  | cons kv rest ih =>
      intro k v
      by_cases h : kv.1 = k
      · subst h
        have hms : mapSet (kv :: rest) kv.1 v = (kv.1, v) :: rest := by
          simp [mapSet]
        rw [hms, setAdd_of_mem _ _ (show kv.1 ∈ (kv :: rest).map Prod.fst by simp)]
        simp
      · simp only [mapSet, if_neg h, List.map_cons, ih]
        unfold setAdd
        by_cases hk : k ∈ rest.map Prod.fst
        · rw [if_pos hk, if_pos (List.mem_cons_of_mem _ hk)]
        · rw [if_neg hk, if_neg (by
            intro habs
            rcases List.mem_cons.mp habs with habs' | habs'
            · exact h habs'.symm
            · exact hk habs')]
          simp

theorem foldl_mapSet_keys : ∀ (l : List (Nat × Step)) (m : List (String × Step)),
    (List.foldl (fun m p => mapSet m (defaultedId p.2 p.1) p.2) m l).map Prod.fst =
    List.foldl setAdd (m.map Prod.fst) (l.map fun p => defaultedId p.2 p.1) := by
  intro l
  induction l with
  | nil => intro m; rfl
  | cons a rest ih =>
      intro m
      simp only [List.foldl_cons, List.map_cons]
      rw [ih, mapSet_keys]

theorem buildStepMap_keys (steps : List Step) :
    (buildStepMap steps).map Prod.fst =
    List.foldl setAdd [] (defaultedIds steps) :=
  foldl_mapSet_keys steps.enum []

theorem buildStepMap_keys_nodup (steps : List Step) :
    ((buildStepMap steps).map Prod.fst).Nodup := by
  rw [buildStepMap_keys]
  exact foldl_setAdd_nodup _ _ List.nodup_nil

theorem defaultedIds_length (steps : List Step) :
    (defaultedIds steps).length = steps.length := by
  simp [defaultedIds]

theorem buildStepMap_keys_length_le (steps : List Step) :
    ((buildStepMap steps).map Prod.fst).length ≤ steps.length := by
  rw [buildStepMap_keys]
  have := foldl_setAdd_length_le (defaultedIds steps) []
  rw [defaultedIds_length] at this
  simpa using this

theorem buildStepMap_keys_length_lt (steps : List Step)
    (h : ¬(defaultedIds steps).Nodup) :
    ((buildStepMap steps).map Prod.fst).length < steps.length := by
  rw [buildStepMap_keys]
  have := foldl_setAdd_length_lt_of_dup (defaultedIds steps) [] h
  rw [defaultedIds_length] at this
  simpa using this

theorem runnableSteps_sublist (st : DagState) (stepMap : List (String × Step)) :
    (runnableSteps st stepMap).Sublist stepMap :=
  List.filter_sublist _

theorem mem_runnableSteps (st : DagState) (stepMap : List (String × Step))
    (p : String × Step) (hp : p ∈ runnableSteps st stepMap) :
    p ∈ stepMap ∧ canRun st p.1 p.2 = true := by
  have := List.mem_filter.mp hp
  exact ⟨this.1, this.2⟩

theorem jsRound100_mono {c c' : Nat} (total : Nat) (h : c ≤ c') :
    jsRound100 c total ≤ jsRound100 c' total := by
  unfold jsRound100
  split
  · exact le_refl _
  · exact Nat.div_le_div_right (by omega)

theorem jsRound100_le_100 {c total : Nat} (h : c ≤ total) :
    jsRound100 c total ≤ 100 := by
  unfold jsRound100
  split
  · omega
  · rename_i ht
    have h2t : 0 < 2 * total := by omega
    have := (Nat.div_lt_iff_lt_mul h2t).mpr (show 200 * c + total < 101 * (2 * total) by omega)
    omega

theorem jsRound100_total_eq_100 {total : Nat} (h : total ≠ 0) :
    jsRound100 total total = 100 := by
  unfold jsRound100
  rw [if_neg h]
  have h2t : 0 < 2 * total := by omega
  have hlt := (Nat.div_lt_iff_lt_mul h2t).mpr
    (show 200 * total + total < 101 * (2 * total) by omega)
  have hge := Nat.le_div_iff_mul_le h2t |>.mpr
    (show 100 * (2 * total) ≤ 200 * total + total by omega)
  omega

/-! ## Scheduler-loop lemmas -/

theorem pgUpd_fields (st : DagState) (runnable : List (String × Step)) :
    (pgUpd st runnable).completed = st.completed ∧
    (pgUpd st runnable).failed = st.failed ∧
    (pgUpd st runnable).statuses = st.statuses ∧
    (pgUpd st runnable).progressLog = st.progressLog ∧
    (pgUpd st runnable).clock = st.clock ∧
    (pgUpd st runnable).results = st.results := by
  unfold pgUpd
  split <;> exact ⟨rfl, rfl, rfl, rfl, rfl, rfl⟩

theorem SetsInv_frame (keys : List String) (st st' : DagState)
    (hc : st'.completed = st.completed) (hf : st'.failed = st.failed)
    (h : SetsInv keys st) : SetsInv keys st' := by
  unfold SetsInv
  rw [hc, hf]
  exact h

theorem ProgressInv_frame (total : Nat) (st st' : DagState)
    (hp : st'.progressLog = st.progressLog) (hc : st'.completed = st.completed)
    (h : ProgressInv total st) : ProgressInv total st' := by
  unfold ProgressInv
  rw [hp, hc]
  exact h

theorem firstErr_eq_none : ∀ (l : List (Option String)),
    firstErr l = none ↔ ∀ x ∈ l, x = none := by
  intro l
  induction l with
  | nil => simp [firstErr]
  | cons a rest ih =>
      cases a with
      | none => simp [firstErr, ih]
      | some e => simp [firstErr]

theorem executeStep_failed_of_noerr (exec : Exec) (task : Task) (st : DagState)
    (id : String) (step : Step)
    (h : (executeStep exec task st id step).2 = none) :
    (executeStep exec task st id step).1.failed = st.failed := by
  rcases executeStep_cases exec task st id step with ⟨_, h2, _⟩ | ⟨_, _, e, he⟩
  · exact h2
  · rw [he] at h
    cases h

theorem runStepBatch_failed_of_noerr (exec : Exec) (task : Task) :
    ∀ (l : List (String × Step)) (st : DagState),
    firstErr (runStepBatch exec task st l).2 = none →
    (runStepBatch exec task st l).1.failed = st.failed := by
  intro l
  induction l with
  | nil => intro st _; rfl
  | cons hd rest ih =>
      intro st h
      obtain ⟨id, s⟩ := hd
      simp only [runStepBatch] at h ⊢
      rcases h2 : (executeStep exec task st id s).2 with _ | e
      · rw [h2] at h
        rw [ih _ (by simpa [firstErr] using h),
          executeStep_failed_of_noerr exec task st id s h2]
      · rw [h2] at h
        simp [firstErr] at h

theorem runLoop_zero (exec : Exec) (task : Task) (stepMap : List (String × Step))
    (steps : List Step) (totalSteps : Nat) (st : DagState) :
    runLoop exec task stepMap steps totalSteps 0 st =
      (st, .error "loop fuel exhausted") := rfl

theorem runLoop_done (exec : Exec) (task : Task) (stepMap : List (String × Step))
    (steps : List Step) (totalSteps fuel : Nat) (st : DagState)
    (hcond : ¬st.completed.length + st.failed.length < totalSteps) :
    runLoop exec task stepMap steps totalSteps (fuel + 1) st = (st, .ok ()) := by
  simp only [runLoop]
  rw [if_neg hcond]

theorem runLoop_deadlock (exec : Exec) (task : Task)
    (stepMap : List (String × Step)) (steps : List Step) (totalSteps fuel : Nat)
    (st : DagState) (hcond : st.completed.length + st.failed.length < totalSteps)
    (hrun : runnableSteps st stepMap = []) :
    runLoop exec task stepMap steps totalSteps (fuel + 1) st =
      (st, .error (deadlockMsg (remainingTasks steps st))) := by
  simp only [runLoop]
  rw [if_pos hcond, hrun]

theorem runLoop_cons (exec : Exec) (task : Task)
    (stepMap : List (String × Step)) (steps : List Step) (totalSteps fuel : Nat)
    (st : DagState) (r : String × Step) (rs : List (String × Step))
    (hcond : st.completed.length + st.failed.length < totalSteps)
    (hrun : runnableSteps st stepMap = r :: rs) :
    runLoop exec task stepMap steps totalSteps (fuel + 1) st =
      (match firstErr (runStepBatch exec task (pgUpd st (r :: rs)) (r :: rs)).2 with
       | some e => ((runStepBatch exec task (pgUpd st (r :: rs)) (r :: rs)).1,
           .error e)
       | none => runLoop exec task stepMap steps totalSteps fuel
           { (runStepBatch exec task (pgUpd st (r :: rs)) (r :: rs)).1 with
             progressLog :=
               (runStepBatch exec task (pgUpd st (r :: rs)) (r :: rs)).1.progressLog
               ++ [jsRound100
                 (runStepBatch exec task (pgUpd st (r :: rs)) (r :: rs)).1.completed.length
                 totalSteps] }) := by
  simp only [runLoop]
  rw [if_pos hcond, hrun]
  rfl

/-- Master invariant of the scheduling loop: set, status and progress
invariants are preserved into the final state, and a successful exit
certifies that every declared step is terminal, the progress invariant
holds in full, and no step failed along the way. -/
theorem runLoop_master (exec : Exec) (task : Task)
    (stepMap : List (String × Step)) (steps : List Step) (totalSteps : Nat)
    (hknd : (stepMap.map Prod.fst).Nodup)
    (hklen : (stepMap.map Prod.fst).length ≤ totalSteps) :
    ∀ (fuel : Nat) (st : DagState),
    SetsInv (stepMap.map Prod.fst) st → StatusesInv st →
    ProgressInv totalSteps st →
    SetsInv (stepMap.map Prod.fst)
      (runLoop exec task stepMap steps totalSteps fuel st).1 ∧
    StatusesInv (runLoop exec task stepMap steps totalSteps fuel st).1 ∧
    (runLoop exec task stepMap steps totalSteps fuel st).1.progressLog.Chain'
      (· ≤ ·) ∧
    (∀ p ∈ (runLoop exec task stepMap steps totalSteps fuel st).1.progressLog,
      ProgressEntryOk totalSteps p) ∧
    ((runLoop exec task stepMap steps totalSteps fuel st).2 = .ok () →
      totalSteps ≤
        terminalCount (runLoop exec task stepMap steps totalSteps fuel st).1 ∧
      ProgressInv totalSteps (runLoop exec task stepMap steps totalSteps fuel st).1 ∧
      (runLoop exec task stepMap steps totalSteps fuel st).1.failed = st.failed) := by
  intro fuel
  induction fuel with
  | zero =>
      intro st hs hst hp
      rw [runLoop_zero]
      exact ⟨hs, hst, hp.1, hp.2.1, fun h => by cases h⟩
  | succ fuel ih =>
      intro st hs hst hp
      by_cases hcond : st.completed.length + st.failed.length < totalSteps
      · rcases hrun : runnableSteps st stepMap with _ | ⟨r, rs⟩
        · rw [runLoop_deadlock exec task stepMap steps totalSteps fuel st hcond hrun]
          exact ⟨hs, hst, hp.1, hp.2.1, fun h => by cases h⟩
        · rw [runLoop_cons exec task stepMap steps totalSteps fuel st r rs hcond hrun]
          obtain ⟨hpc, hpf, hpst, hppl, hpck, _⟩ := pgUpd_fields st (r :: rs)
          have hs2 : SetsInv (stepMap.map Prod.fst) (pgUpd st (r :: rs)) :=
            SetsInv_frame _ st _ hpc hpf hs
          have hst2 : StatusesInv (pgUpd st (r :: rs)) :=
            StatusesInv_frame st _ hpst hpc hpf (le_of_eq hpck.symm) hst
          have hmemkeys : ∀ p ∈ (r :: rs), p.1 ∈ stepMap.map Prod.fst := by
            intro p hp'
            have := (mem_runnableSteps st stepMap p (hrun ▸ hp')).1
            exact List.mem_map_of_mem Prod.fst this
          have hbnd : ((r :: rs).map Prod.fst).Nodup := by
            have hsub := (runnableSteps_sublist st stepMap).map Prod.fst
            rw [hrun] at hsub
            exact List.Nodup.sublist hsub hknd
          have hfresh : ∀ p ∈ (r :: rs),
              p.1 ∉ (pgUpd st (r :: rs)).completed ∧
              p.1 ∉ (pgUpd st (r :: rs)).failed := by
            intro p hp'
            have hcr := (mem_runnableSteps st stepMap p (hrun ▸ hp')).2
            have := canRun_facts st p.1 p.2 hcr
            rw [hpc, hpf]
            exact this
          obtain ⟨hsb, hstb, hcb, hclb, hplb, hckb⟩ :=
            runStepBatch_inv (stepMap.map Prod.fst) exec task (r :: rs)
              (pgUpd st (r :: rs)) hs2 hst2 hmemkeys hbnd hfresh
          rcases hfe : firstErr (runStepBatch exec task (pgUpd st (r :: rs))
              (r :: rs)).2 with _ | e
          · dsimp only
            have hpl' : (runStepBatch exec task (pgUpd st (r :: rs))
                (r :: rs)).1.progressLog = st.progressLog := by
              rw [hplb, hppl]
            have hcl' : st.completed.length ≤ (runStepBatch exec task
                (pgUpd st (r :: rs)) (r :: rs)).1.completed.length := by
              rw [← hpc]
              exact hclb
            have hclk : (runStepBatch exec task (pgUpd st (r :: rs))
                (r :: rs)).1.completed.length ≤ totalSteps := by
              have h1 : (runStepBatch exec task (pgUpd st (r :: rs))
                  (r :: rs)).1.completed.length ≤
                  terminalCount (runStepBatch exec task (pgUpd st (r :: rs))
                    (r :: rs)).1 := by
                unfold terminalCount
                omega
              exact le_trans h1 (le_trans
                (terminalCount_le_keys _ _ hsb) hklen)
            have hs3 : SetsInv (stepMap.map Prod.fst)
                { (runStepBatch exec task (pgUpd st (r :: rs)) (r :: rs)).1 with
                  progressLog := (runStepBatch exec task (pgUpd st (r :: rs))
                    (r :: rs)).1.progressLog ++ [jsRound100 (runStepBatch exec
                    task (pgUpd st (r :: rs)) (r :: rs)).1.completed.length
                    totalSteps] } :=
              SetsInv_frame _ _ _ rfl rfl hsb
            have hst3 : StatusesInv
                { (runStepBatch exec task (pgUpd st (r :: rs)) (r :: rs)).1 with
                  progressLog := (runStepBatch exec task (pgUpd st (r :: rs))
                    (r :: rs)).1.progressLog ++ [jsRound100 (runStepBatch exec
                    task (pgUpd st (r :: rs)) (r :: rs)).1.completed.length
                    totalSteps] } :=
              StatusesInv_frame _ _ rfl rfl rfl (le_refl _) hstb
            have hp3 : ProgressInv totalSteps
                { (runStepBatch exec task (pgUpd st (r :: rs)) (r :: rs)).1 with
                  progressLog := (runStepBatch exec task (pgUpd st (r :: rs))
                    (r :: rs)).1.progressLog ++ [jsRound100 (runStepBatch exec
                    task (pgUpd st (r :: rs)) (r :: rs)).1.completed.length
                    totalSteps] } := by
              refine ⟨?_, ?_, Or.inr ?_⟩
              · show ((runStepBatch exec task (pgUpd st (r :: rs))
                  (r :: rs)).1.progressLog ++ [jsRound100 _ totalSteps]).Chain' _
                rw [List.chain'_append, hpl']
                refine ⟨hp.1, List.chain'_singleton _, ?_⟩
                intro x hx y hy
                simp only [List.head?_cons, Option.mem_def, Option.some_inj] at hy
                subst hy
                rcases hp.2.2 with hnil | hlast
                · rw [hnil] at hx
                  simp at hx
                · rw [hlast] at hx
                  simp only [Option.mem_def, Option.some_inj] at hx
                  subst hx
                  exact jsRound100_mono totalSteps hcl'
              · intro p hp'
                have hp2 : p ∈ (runStepBatch exec task (pgUpd st (r :: rs))
                    (r :: rs)).1.progressLog ++ [jsRound100 (runStepBatch exec
                    task (pgUpd st (r :: rs)) (r :: rs)).1.completed.length
                    totalSteps] := hp'
                rcases List.mem_append.mp hp2 with h | h
                · rw [hpl'] at h
                  exact hp.2.1 p h
                · simp only [List.mem_singleton] at h
                  subst h
                  exact ⟨_, hclk, rfl⟩
              · show ((runStepBatch exec task (pgUpd st (r :: rs))
                  (r :: rs)).1.progressLog ++ [jsRound100 _ totalSteps]).getLast?
                  = _
                rw [List.getLast?_concat]
            have hres := ih _ hs3 hst3 hp3
            refine ⟨hres.1, hres.2.1, hres.2.2.1, hres.2.2.2.1, ?_⟩
            intro hok
            have h5 := hres.2.2.2.2 hok
            refine ⟨h5.1, h5.2.1, ?_⟩
            rw [h5.2.2]
            show (runStepBatch exec task (pgUpd st (r :: rs)) (r :: rs)).1.failed
              = st.failed
            rw [runStepBatch_failed_of_noerr exec task (r :: rs)
              (pgUpd st (r :: rs)) hfe, hpf]
          · dsimp only
            refine ⟨hsb, hstb, ?_, ?_, fun h => by cases h⟩
            · rw [hplb, hppl]
              exact hp.1
            · rw [hplb, hppl]
              exact hp.2.1
      · rw [runLoop_done exec task stepMap steps totalSteps fuel st hcond]
        refine ⟨hs, hst, hp.1, hp.2.1, fun _ => ⟨?_, hp, rfl⟩⟩
        show totalSteps ≤ terminalCount st
        unfold terminalCount
        omega

theorem regularExec_noerr (exec : Exec) (task : Task) (st : DagState)
    (id : String) (step : Step)
    (hsucc : ∀ t tm, ∃ v, (exec t tm).1 = Except.ok v) :
    (regularExec exec task st id step).2 = none := by
  unfold regularExec
  dsimp only
  obtain ⟨v, he⟩ := hsucc
    (mkStepTask task step (.obj (resolveTemplates (match step.input with
      | some inp => inp
      | none => []) (dagContext task st.results))))
    (effTimeoutMs step task)
  rw [he]
  rfl

theorem executeStepBody_noerr (exec : Exec) (task : Task) (st : DagState)
    (id : String) (step : Step)
    (hsucc : ∀ t tm, ∃ v, (exec t tm).1 = Except.ok v)
    (hnofe : step.forEach = none ∨ step.forEach = some "") :
    (executeStepBody exec task st id step).2 = none := by
  unfold executeStepBody
  dsimp only
  rcases hnofe with h | h
  · rw [h]
    exact regularExec_noerr exec task _ id step hsucc
  · rw [h]
    dsimp only
    rw [if_pos rfl]
    exact regularExec_noerr exec task _ id step hsucc

theorem executeStep_noerr (exec : Exec) (task : Task) (st : DagState)
    (id : String) (step : Step)
    (hsucc : ∀ t tm, ∃ v, (exec t tm).1 = Except.ok v)
    (hnofe : step.forEach = none ∨ step.forEach = some "") :
    (executeStep exec task st id step).2 = none := by
  unfold executeStep
  split
  · split
    · exact executeStepBody_noerr exec task st id step hsucc hnofe
    · split
      · rfl
      · split
        · exact executeStepBody_noerr exec task st id step hsucc hnofe
        · rfl
  · exact executeStepBody_noerr exec task st id step hsucc hnofe

theorem runStepBatch_noerr (exec : Exec) (task : Task)
    (hsucc : ∀ t tm, ∃ v, (exec t tm).1 = Except.ok v) :
    ∀ (l : List (String × Step)) (st : DagState),
    (∀ p ∈ l, p.2.forEach = none ∨ p.2.forEach = some "") →
    firstErr (runStepBatch exec task st l).2 = none := by
  intro l
  induction l with
  | nil => intro st _; rfl
  | cons hd rest ih =>
      intro st hnofe
      obtain ⟨id, s⟩ := hd
      simp only [runStepBatch]
      rw [executeStep_noerr exec task st id s hsucc
        (hnofe (id, s) (List.mem_cons_self _ _))]
      show firstErr (none :: _) = none
      show firstErr (runStepBatch exec task (executeStep exec task st id s).1
        rest).2 = none
      exact ih _ (fun p hp => hnofe p (List.mem_cons_of_mem _ hp))

/-- With an always-succeeding oracle and no `forEach` fan-out, a loop whose
step map lost keys to duplicate ids always terminates in the deadlock
error naming the remaining (non-terminal) declared steps. -/
theorem runLoop_always_deadlock (exec : Exec) (task : Task)
    (stepMap : List (String × Step)) (steps : List Step) (totalSteps : Nat)
    (hsucc : ∀ t tm, ∃ v, (exec t tm).1 = Except.ok v)
    (hnofe : ∀ p ∈ stepMap, p.2.forEach = none ∨ p.2.forEach = some "")
    (hknd : (stepMap.map Prod.fst).Nodup)
    (hklt : (stepMap.map Prod.fst).length < totalSteps) :
    ∀ (fuel : Nat) (st : DagState),
    SetsInv (stepMap.map Prod.fst) st → StatusesInv st →
    (stepMap.map Prod.fst).length < fuel + terminalCount st →
    (runLoop exec task stepMap steps totalSteps fuel st).2 =
      .error (deadlockMsg (remainingTasks steps
        (runLoop exec task stepMap steps totalSteps fuel st).1)) := by
  intro fuel
  induction fuel with
  | zero =>
      intro st hs _ hfuel
      have := terminalCount_le_keys _ _ hs
      omega
  | succ fuel ih =>
      intro st hs hst hfuel
      have hterm := terminalCount_le_keys _ _ hs
      have hcond : st.completed.length + st.failed.length < totalSteps := by
        unfold terminalCount at hterm
        omega
      rcases hrun : runnableSteps st stepMap with _ | ⟨r, rs⟩
      · rw [runLoop_deadlock exec task stepMap steps totalSteps fuel st hcond hrun]
      · rw [runLoop_cons exec task stepMap steps totalSteps fuel st r rs hcond hrun]
        have hmemMap : ∀ p ∈ (r :: rs), p ∈ stepMap := by
          intro p hp'
          exact (mem_runnableSteps st stepMap p (hrun ▸ hp')).1
        have hfe : firstErr (runStepBatch exec task (pgUpd st (r :: rs))
            (r :: rs)).2 = none :=
          runStepBatch_noerr exec task hsucc (r :: rs) _
            (fun p hp' => hnofe p (hmemMap p hp'))
        rw [hfe]
        dsimp only
        obtain ⟨hpc, hpf, hpst, hppl, hpck, _⟩ := pgUpd_fields st (r :: rs)
        have hs2 : SetsInv (stepMap.map Prod.fst) (pgUpd st (r :: rs)) :=
          SetsInv_frame _ st _ hpc hpf hs
        have hst2 : StatusesInv (pgUpd st (r :: rs)) :=
          StatusesInv_frame st _ hpst hpc hpf (le_of_eq hpck.symm) hst
        have hmemkeys : ∀ p ∈ (r :: rs), p.1 ∈ stepMap.map Prod.fst :=
          fun p hp' => List.mem_map_of_mem Prod.fst (hmemMap p hp')
        have hbnd : ((r :: rs).map Prod.fst).Nodup := by
          have hsub := (runnableSteps_sublist st stepMap).map Prod.fst
          rw [hrun] at hsub
          exact List.Nodup.sublist hsub hknd
        have hfresh : ∀ p ∈ (r :: rs),
            p.1 ∉ (pgUpd st (r :: rs)).completed ∧
            p.1 ∉ (pgUpd st (r :: rs)).failed := by
          intro p hp'
          have hcr := (mem_runnableSteps st stepMap p (hrun ▸ hp')).2
          have := canRun_facts st p.1 p.2 hcr
          rw [hpc, hpf]
          exact this
        obtain ⟨hsb, hstb, hcb, hclb, hplb, hckb⟩ :=
          runStepBatch_inv (stepMap.map Prod.fst) exec task (r :: rs)
            (pgUpd st (r :: rs)) hs2 hst2 hmemkeys hbnd hfresh
        have hs3 : SetsInv (stepMap.map Prod.fst)
            { (runStepBatch exec task (pgUpd st (r :: rs)) (r :: rs)).1 with
              progressLog := (runStepBatch exec task (pgUpd st (r :: rs))
                (r :: rs)).1.progressLog ++ [jsRound100 (runStepBatch exec
                task (pgUpd st (r :: rs)) (r :: rs)).1.completed.length
                totalSteps] } :=
          SetsInv_frame _ _ _ rfl rfl hsb
        have hst3 : StatusesInv
            { (runStepBatch exec task (pgUpd st (r :: rs)) (r :: rs)).1 with
              progressLog := (runStepBatch exec task (pgUpd st (r :: rs))
                (r :: rs)).1.progressLog ++ [jsRound100 (runStepBatch exec
                task (pgUpd st (r :: rs)) (r :: rs)).1.completed.length
                totalSteps] } :=
          StatusesInv_frame _ _ rfl rfl rfl (le_refl _) hstb
        refine ih _ hs3 hst3 ?_
        have htc2 : terminalCount (pgUpd st (r :: rs)) = terminalCount st := by
          unfold terminalCount
          rw [hpc, hpf]
        have htc3 : terminalCount
            { (runStepBatch exec task (pgUpd st (r :: rs)) (r :: rs)).1 with
              progressLog := (runStepBatch exec task (pgUpd st (r :: rs))
                (r :: rs)).1.progressLog ++ [jsRound100 (runStepBatch exec
                task (pgUpd st (r :: rs)) (r :: rs)).1.completed.length
                totalSteps] } = terminalCount
            (runStepBatch exec task (pgUpd st (r :: rs)) (r :: rs)).1 := rfl
        rw [htc3, hcb, htc2]
        simp only [List.length_cons]
        omega

/-! ## Initial-state invariants and duplicate-id structure -/

theorem SetsInv_init (stepMap : List (String × Step)) :
    SetsInv (stepMap.map Prod.fst) (initDagState stepMap) :=
  ⟨List.nodup_nil, List.nodup_nil, by simp [initDagState], by simp [initDagState],
   by simp [initDagState]⟩

theorem ProgressInv_init (total : Nat) (stepMap : List (String × Step)) :
    ProgressInv total (initDagState stepMap) :=
  ⟨List.chain'_nil, by simp [initDagState], Or.inl rfl⟩

theorem StatusesInv_init (stepMap : List (String × Step)) :
    StatusesInv (initDagState stepMap) := by
  intro p hp
  have hp' : p ∈ initStatuses stepMap := hp
  unfold initStatuses at hp'
  rcases List.mem_map.mp hp' with ⟨q, _, rfl⟩
  refine ⟨⟨⟨fun h => by simp_all, fun _ h => by simp at h, fun d hd => by simp at hd,
    fun _ a b _ hb => by simp at hb⟩,
    ⟨fun a ha => by simp at ha, fun b hb => by simp at hb⟩⟩,
    fun _ _ => ⟨rfl, rfl⟩⟩

theorem data_append (s t : String) : (s ++ t).data = s.data ++ t.data := rfl

theorem stepDefault_inj {i j : Nat}
    (h : "step_" ++ toString i = "step_" ++ toString j) : i = j := by
  have hd : ("step_" ++ toString i).data = ("step_" ++ toString j).data :=
    congrArg String.data h
  rw [data_append, data_append] at hd
  have hts : (toString i).data = (toString j).data :=
    List.append_cancel_left hd
  have hts' : toString i = toString j := by
    cases hi : toString i with
    | mk di =>
        cases hj : toString j with
        | mk dj =>
            rw [hi, hj] at hts
            simp only at hts
            rw [hts]
  have h1 := jsArrayIndex_toString i
  rw [hts', jsArrayIndex_toString j] at h1
  exact (Option.some_inj.mp h1).symm

theorem defaultedId_of_no_trigger (s : Step) (i : Nat)
    (h : stepTriggersDag s = false) :
    defaultedId s i = "step_" ++ toString i := by
  unfold stepTriggersDag at h
  rcases Bool.or_eq_false_iff.mp h with ⟨_, h2⟩
  unfold defaultedId
  rcases hid : s.id with _ | id
  · rfl
  · rw [hid] at h2
    simp only [decide_eq_false_iff_not, not_not] at h2
    dsimp only
    rw [if_pos h2]

theorem dup_triggers_dag (steps : List Step)
    (h : ¬(defaultedIds steps).Nodup) : steps.any stepTriggersDag = true := by
  by_contra habs
  apply h
  have hall : ∀ s ∈ steps, stepTriggersDag s = false := by
    intro s hs
    rcases hb : stepTriggersDag s with _ | _
    · rfl
    · exact absurd (List.any_eq_true.mpr ⟨s, hs, hb⟩) habs
  rw [List.nodup_iff_getElem?_ne_getElem?]
  intro i j hij hj hEq
  have hjlen : j < steps.length := by
    rw [defaultedIds_length] at hj
    exact hj
  have hilen : i < steps.length := lt_trans hij hjlen
  have hgi : (defaultedIds steps)[i]? = some (defaultedId steps[i] i) := by
    unfold defaultedIds
    rw [List.getElem?_map]
    rw [List.getElem?_eq_getElem (by simpa [List.enum_length] using hilen)]
    rw [List.getElem_enum]
    rfl
  have hgj : (defaultedIds steps)[j]? = some (defaultedId steps[j] j) := by
    unfold defaultedIds
    rw [List.getElem?_map]
    rw [List.getElem?_eq_getElem (by simpa [List.enum_length] using hjlen)]
    rw [List.getElem_enum]
    rfl
  rw [hgi, hgj] at hEq
  have hij' : defaultedId steps[i] i = defaultedId steps[j] j :=
    Option.some_inj.mp hEq
  rw [defaultedId_of_no_trigger _ _ (hall _ (List.getElem_mem _)),
      defaultedId_of_no_trigger _ _ (hall _ (List.getElem_mem _))] at hij'
  exact absurd (stepDefault_inj hij') (by omega)

theorem foldl_mapSet_val (P : Step → Prop) :
    ∀ (l : List (Nat × Step)) (acc : List (String × Step)),
    (∀ p ∈ acc, P p.2) → (∀ q ∈ l, P q.2) →
    ∀ p ∈ l.foldl (fun m q => mapSet m (defaultedId q.2 q.1) q.2) acc, P p.2 := by
  intro l
  induction l with
  | nil => intro acc hacc _ p hp; exact hacc p hp
  | cons a rest ih =>
      intro acc hacc hl p hp
      refine ih (mapSet acc (defaultedId a.2 a.1) a.2) ?_
        (fun q hq => hl q (List.mem_cons_of_mem _ hq)) p hp
      intro q hq
      rcases mem_mapSet _ _ _ q hq with rfl | hq'
      · exact hl a (List.mem_cons_self _ _)
      · exact hacc q hq'

theorem mem_buildStepMap_val (steps : List Step) :
    ∀ p ∈ buildStepMap steps, p.2 ∈ steps := by
  intro p hp
  refine foldl_mapSet_val (· ∈ steps) steps.enum [] (by simp) ?_ p hp
  intro q hq
  have := List.mem_enum_iff_getElem?.mp hq
  exact List.get?_mem (by simpa [List.get?_eq_getElem?] using this)

/-! ## Progress-emission lemmas and dispatcher projections -/

theorem runStepBatch_progressLog (exec : Exec) (task : Task) :
    ∀ (l : List (String × Step)) (st : DagState),
    (runStepBatch exec task st l).1.progressLog = st.progressLog := by
  intro l
  induction l with
  | nil => intro st; rfl
  | cons hd rest ih =>
      intro st
      obtain ⟨id, s⟩ := hd
      simp only [runStepBatch]
      rw [ih, executeStep_progressLog]

theorem runLoop_log_mono (exec : Exec) (task : Task)
    (stepMap : List (String × Step)) (steps : List Step) (totalSteps : Nat) :
    ∀ (fuel : Nat) (st : DagState),
    st.progressLog.length ≤
      (runLoop exec task stepMap steps totalSteps fuel st).1.progressLog.length := by
  intro fuel
  induction fuel with
  | zero => intro st; rw [runLoop_zero]
  | succ fuel ih =>
      intro st
      by_cases hcond : st.completed.length + st.failed.length < totalSteps
      · rcases hrun : runnableSteps st stepMap with _ | ⟨r, rs⟩
        · rw [runLoop_deadlock exec task stepMap steps totalSteps fuel st hcond hrun]
        · rw [runLoop_cons exec task stepMap steps totalSteps fuel st r rs hcond hrun]
          rcases hfe : firstErr (runStepBatch exec task (pgUpd st (r :: rs))
              (r :: rs)).2 with _ | e
          · dsimp only
            refine le_trans ?_ (ih _)
            show st.progressLog.length ≤
              ((runStepBatch exec task (pgUpd st (r :: rs)) (r :: rs)).1.progressLog
                ++ [jsRound100 _ totalSteps]).length
            rw [List.length_append, runStepBatch_progressLog,
              (pgUpd_fields st (r :: rs)).2.2.2.1]
            omega
          · dsimp only
            rw [runStepBatch_progressLog, (pgUpd_fields st (r :: rs)).2.2.2.1]
      · rw [runLoop_done exec task stepMap steps totalSteps fuel st hcond]

theorem runLoop_ok_pos (exec : Exec) (task : Task)
    (stepMap : List (String × Step)) (steps : List Step) (totalSteps : Nat) :
    ∀ (fuel : Nat) (st : DagState),
    st.completed.length + st.failed.length < totalSteps →
    (runLoop exec task stepMap steps totalSteps fuel st).2 = .ok () →
    st.progressLog.length <
      (runLoop exec task stepMap steps totalSteps fuel st).1.progressLog.length := by
  intro fuel st hcond hok
  cases fuel with
  | zero => rw [runLoop_zero] at hok; cases hok
  | succ fuel =>
      rcases hrun : runnableSteps st stepMap with _ | ⟨r, rs⟩
      · rw [runLoop_deadlock exec task stepMap steps totalSteps fuel st hcond hrun]
          at hok
        cases hok
      · rcases hfe : firstErr (runStepBatch exec task (pgUpd st (r :: rs))
            (r :: rs)).2 with _ | e
        · rw [runLoop_cons exec task stepMap steps totalSteps fuel st r rs hcond
            hrun] at hok ⊢
          rw [hfe] at hok ⊢
          dsimp only at hok ⊢
          refine lt_of_lt_of_le ?_ (runLoop_log_mono exec task stepMap steps
            totalSteps fuel _)
          show st.progressLog.length <
            ((runStepBatch exec task (pgUpd st (r :: rs)) (r :: rs)).1.progressLog
              ++ [jsRound100 _ totalSteps]).length
          rw [List.length_append, runStepBatch_progressLog,
            (pgUpd_fields st (r :: rs)).2.2.2.1]
          simp
        · rw [runLoop_cons exec task stepMap steps totalSteps fuel st r rs hcond
            hrun] at hok
          rw [hfe] at hok
          dsimp only at hok
          cases hok

theorem processPipelineDAG_state (exec : Exec) (task : Task) (steps : List Step)
    (hsteps : task.steps = some steps) :
    (processPipelineDAG exec task).2 =
      (runLoop exec task (buildStepMap steps) steps steps.length
        (steps.length + 1) (initDagState (buildStepMap steps))).1 := by
  unfold processPipelineDAG
  rw [hsteps]
  dsimp only
  rcases hr : (runLoop exec task (buildStepMap steps) steps steps.length
      (steps.length + 1) (initDagState (buildStepMap steps))).2 with e | u <;> rfl

theorem processPipelineDAG_ok_inv (exec : Exec) (task : Task) (steps : List Step)
    (r : PipelineResult) (hsteps : task.steps = some steps)
    (h : (processPipelineDAG exec task).1 = .ok r) :
    (runLoop exec task (buildStepMap steps) steps steps.length
      (steps.length + 1) (initDagState (buildStepMap steps))).2 = .ok () ∧
    r = buildPipelineResult steps
      (runLoop exec task (buildStepMap steps) steps steps.length
        (steps.length + 1) (initDagState (buildStepMap steps))).1 := by
  unfold processPipelineDAG at h
  rw [hsteps] at h
  dsimp only at h
  revert h
  rcases hr : (runLoop exec task (buildStepMap steps) steps steps.length
      (steps.length + 1) (initDagState (buildStepMap steps))).2 with e | u
  · intro h
    cases h
  · intro h
    refine ⟨rfl, ?_⟩
    cases h
    rfl

theorem chain_map_jsRound100_range : ∀ (k i total : Nat),
    (((List.range' i k).map fun j => jsRound100 j total).Chain' (· ≤ ·)) := by
  intro k
  induction k with
  | zero => intro i total; exact List.chain'_nil
  | succ k ih =>
      intro i total
      cases k with
      | zero => exact List.chain'_singleton _
      | succ k' =>
          rw [List.range'_succ, List.map_cons]
          refine List.Chain'.cons ?_ ?_
          · show jsRound100 i total ≤ jsRound100 (i + 1) total
            exact jsRound100_mono total (by omega)
          · have := ih (i + 1) total
            rwa [List.range'_succ, List.map_cons] at this

theorem seqRunStep_progressLog (exec : Exec) (task : Task) (step : Step)
    (st : SeqState) (status0 : StepStatus) :
    (seqRunStep exec task step st status0).1.progressLog = st.progressLog := by
  unfold seqRunStep
  dsimp only
  rcases (exec (mkStepTask task step (.obj (resolveTemplates (match step.input with
      | some inp => inp
      | none => []) (seqContext task st)))) (effTimeoutMs step task)).1 with e | v
  · dsimp only
    split <;> rfl
  · rfl

theorem seqGo_progressLog (exec : Exec) (task : Task) (total : Nat) :
    ∀ (rest : List Step) (i : Nat) (st : SeqState),
    ∃ k ≤ rest.length,
      (seqGo exec task total rest i st).1.progressLog =
        st.progressLog ++ (List.range' i k).map fun j => jsRound100 j total := by
  intro rest
  induction rest with
  | nil =>
      intro i st
      exact ⟨0, le_refl _, by simp [seqGo]⟩
  | cons step rest ih =>
      intro i st
      have hone : ∀ (st' : SeqState),
          st'.progressLog = st.progressLog ++ [jsRound100 i total] →
          ∀ k ≤ rest.length,
          st'.progressLog ++ ((List.range' (i + 1) k).map fun j =>
            jsRound100 j total) =
          st.progressLog ++ ((List.range' i (k + 1)).map fun j =>
            jsRound100 j total) := by
        intro st' hst' k _
        rw [hst', List.range'_succ, List.map_cons, List.append_assoc]
        rfl
      unfold seqGo
      dsimp only
      rcases hrw : step.runWhen with _ | c
      · dsimp only
        rcases hrs : seqRunStep exec task step
            { st with progressLog := st.progressLog ++ [jsRound100 i total] }
            { id := "step_" ++ toString i, task := step.task,
              status := "pending",
              startedAt := some ({ st with progressLog :=
                st.progressLog ++ [jsRound100 i total] } : SeqState).clock }
            with ⟨st', out⟩
        have hlog : st'.progressLog = st.progressLog ++ [jsRound100 i total] := by
          have := seqRunStep_progressLog exec task step
            { st with progressLog := st.progressLog ++ [jsRound100 i total] }
            { id := "step_" ++ toString i, task := step.task,
              status := "pending",
              startedAt := some ({ st with progressLog :=
                st.progressLog ++ [jsRound100 i total] } : SeqState).clock }
          rw [hrs] at this
          exact this
        rcases out with _ | e
        · obtain ⟨k, hk, hklog⟩ := ih (i + 1) st'
          exact ⟨k + 1, by simpa using Nat.succ_le_succ hk,
            by rw [hklog]; exact hone st' hlog k hk⟩
        · exact ⟨1, by simp, by
            show st'.progressLog = _
            rw [hlog]
            rfl⟩
      · dsimp only
        by_cases h1 : c = "" ∨ c = "always"
        · rw [if_pos h1]
          rcases hrs : seqRunStep exec task step
              { st with progressLog := st.progressLog ++ [jsRound100 i total] }
              { id := "step_" ++ toString i, task := step.task,
                status := "pending",
                startedAt := some ({ st with progressLog :=
                  st.progressLog ++ [jsRound100 i total] } : SeqState).clock }
              with ⟨st', out⟩
          have hlog : st'.progressLog = st.progressLog ++ [jsRound100 i total] := by
            have := seqRunStep_progressLog exec task step
              { st with progressLog := st.progressLog ++ [jsRound100 i total] }
              { id := "step_" ++ toString i, task := step.task,
                status := "pending",
                startedAt := some ({ st with progressLog :=
                  st.progressLog ++ [jsRound100 i total] } : SeqState).clock }
            rw [hrs] at this
            exact this
          rcases out with _ | e
          · obtain ⟨k, hk, hklog⟩ := ih (i + 1) st'
            exact ⟨k + 1, by simpa using Nat.succ_le_succ hk,
              by rw [hklog]; exact hone st' hlog k hk⟩
          · exact ⟨1, by simp, by
              show st'.progressLog = _
              rw [hlog]
              rfl⟩
        · rw [if_neg h1]
          by_cases h2 : c = "on-demand"
          · rw [if_pos h2]
            obtain ⟨k, hk, hklog⟩ := ih (i + 1) _
            refine ⟨k + 1, by simpa using Nat.succ_le_succ hk, ?_⟩
            rw [hklog]
            exact hone _ rfl k hk
          · rw [if_neg h2]
            by_cases h3 : jsTruthy (resolveTemplate c (seqContext task
                { st with progressLog := st.progressLog ++ [jsRound100 i total] }))
                = true
            · rw [if_pos h3]
              rcases hrs : seqRunStep exec task step
                  { st with progressLog := st.progressLog ++ [jsRound100 i total] }
                  { id := "step_" ++ toString i, task := step.task,
                    status := "pending",
                    startedAt := some ({ st with progressLog :=
                      st.progressLog ++ [jsRound100 i total] } : SeqState).clock }
                  with ⟨st', out⟩
              have hlog : st'.progressLog =
                  st.progressLog ++ [jsRound100 i total] := by
                have := seqRunStep_progressLog exec task step
                  { st with progressLog := st.progressLog ++ [jsRound100 i total] }
                  { id := "step_" ++ toString i, task := step.task,
                    status := "pending",
                    startedAt := some ({ st with progressLog :=
                      st.progressLog ++ [jsRound100 i total] } : SeqState).clock }
                rw [hrs] at this
                exact this
              rcases out with _ | e
              · obtain ⟨k, hk, hklog⟩ := ih (i + 1) st'
                exact ⟨k + 1, by simpa using Nat.succ_le_succ hk,
                  by rw [hklog]; exact hone st' hlog k hk⟩
              · exact ⟨1, by simp, by
                  show st'.progressLog = _
                  rw [hlog]
                  rfl⟩
            · rw [if_neg h3]
              obtain ⟨k, hk, hklog⟩ := ih (i + 1) _
              refine ⟨k + 1, by simpa using Nat.succ_le_succ hk, ?_⟩
              rw [hklog]
              exact hone _ rfl k hk

theorem processPipelineSequential_state (exec : Exec) (task : Task)
    (steps : List Step) (hsteps : task.steps = some steps) :
    (processPipelineSequential exec task).2 =
      (seqGo exec task steps.length steps 0 {}).1 := by
  unfold processPipelineSequential
  rw [hsteps]
  dsimp only
  rcases hr : (seqGo exec task steps.length steps 0 {}).2 with e | u <;> rfl

theorem processPipelineSequential_ok_inv (exec : Exec) (task : Task)
    (steps : List Step) (r : PipelineResult) (hsteps : task.steps = some steps)
    (h : (processPipelineSequential exec task).1 = .ok r) :
    r = buildSeqResult (seqGo exec task steps.length steps 0 {}).1 := by
  unfold processPipelineSequential at h
  rw [hsteps] at h
  dsimp only at h
  revert h
  rcases hr : (seqGo exec task steps.length steps 0 {}).2 with e | u
  · intro h
    cases h
  · intro h
    cases h
    rfl

theorem seqRunStep_statuses (exec : Exec) (task : Task) (step : Step)
    (st : SeqState) (status0 : StepStatus) (c0 : Nat)
    (h0 : status0.startedAt = some c0) (hc0 : c0 ≤ st.clock) :
    ∀ s ∈ (seqRunStep exec task step st status0).1.statuses,
      s ∈ st.statuses ∨ seqStatusOk s := by
  intro s hs
  unfold seqRunStep at hs
  dsimp only at hs
  split at hs
  · rcases List.mem_append.mp hs with h | h
    · exact Or.inl h
    · right
      rcases List.mem_singleton.mp h with rfl
      refine ⟨⟨fun _ => rfl, fun _ _ => rfl, ?_, ?_⟩, fun _ => rfl⟩
      · intro d hd
        simp only [h0, Option.getD_some, Option.some_inj] at hd
        subst hd
        have : (c0 : Int) ≤ ((st.clock + (exec (mkStepTask task step
            (.obj (resolveTemplates (match step.input with
              | some inp => inp
              | none => []) (seqContext task st)))) (effTimeoutMs step task)).2
            : Nat) : Int) := by
          push_cast
          omega
        omega
      · intro _ a b ha hb
        simp only [h0, Option.some_inj] at ha hb
        omega
  · split at hs
    · rcases List.mem_append.mp hs with h | h
      · exact Or.inl h
      · right
        rcases List.mem_singleton.mp h with rfl
        refine ⟨⟨fun h => by simp_all, fun _ _ => rfl, ?_, ?_⟩, fun _ => rfl⟩
        · intro d hd
          simp only [h0, Option.getD_some, Option.some_inj] at hd
          subst hd
          have : (c0 : Int) ≤ ((st.clock + (exec (mkStepTask task step
              (.obj (resolveTemplates (match step.input with
                | some inp => inp
                | none => []) (seqContext task st)))) (effTimeoutMs step task)).2
              : Nat) : Int) := by
            push_cast
            omega
          omega
        · intro _ a b ha hb
          simp only [h0, Option.some_inj] at ha hb
          omega
    · rcases List.mem_append.mp hs with h | h
      · exact Or.inl h
      · right
        rcases List.mem_singleton.mp h with rfl
        refine ⟨⟨fun _ => rfl, fun _ _ => rfl, ?_, ?_⟩, fun _ => rfl⟩
        · intro d hd
          simp only [h0, Option.getD_some, Option.some_inj] at hd
          subst hd
          have : (c0 : Int) ≤ ((st.clock + (exec (mkStepTask task step
              (.obj (resolveTemplates (match step.input with
                | some inp => inp
                | none => []) (seqContext task st)))) (effTimeoutMs step task)).2
              : Nat) : Int) := by
            push_cast
            omega
          omega
        · intro _ a b ha hb
          simp only [h0, Option.some_inj] at ha hb
          omega

theorem seqSkipRecord_ok (status0 : StepStatus) (c : Nat)
    (h0 : status0.startedAt = some c) :
    seqStatusOk { status0 with
      status := "skipped"
      completedAt := some c
      duration := some 0 } := by
  refine ⟨⟨fun h => by simp_all, fun _ _ => rfl, ?_, ?_⟩, fun _ => rfl⟩
  · intro d hd
    simp only [Option.some_inj] at hd
    omega
  · intro _ a b ha hb
    simp only [h0, Option.some_inj] at ha hb
    omega

theorem seqGo_statuses (exec : Exec) (task : Task) (total : Nat) :
    ∀ (rest : List Step) (i : Nat) (st : SeqState),
    (∀ s ∈ st.statuses, seqStatusOk s) →
    ∀ s ∈ (seqGo exec task total rest i st).1.statuses, seqStatusOk s := by
  intro rest
  induction rest with
  | nil => intro i st hyp s hs; exact hyp s hs
  | cons step rest ih =>
      intro i st hyp s hs
      unfold seqGo at hs
      dsimp only at hs
      have hrun : ∀ (st' : SeqState) (out : Option String),
          seqRunStep exec task step
            { st with progressLog := st.progressLog ++ [jsRound100 i total] }
            { id := "step_" ++ toString i, task := step.task,
              status := "pending",
              startedAt := some ({ st with progressLog :=
                st.progressLog ++ [jsRound100 i total] } : SeqState).clock }
            = (st', out) →
          ∀ s ∈ st'.statuses, seqStatusOk s := by
        intro st' out hrs s' hs'
        have := seqRunStep_statuses exec task step
          { st with progressLog := st.progressLog ++ [jsRound100 i total] }
          { id := "step_" ++ toString i, task := step.task,
            status := "pending",
            startedAt := some ({ st with progressLog :=
              st.progressLog ++ [jsRound100 i total] } : SeqState).clock }
          st.clock rfl (le_refl _) s' (by rw [hrs] at *; exact hs')
        rcases this with h | h
        · exact hyp s' h
        · exact h
      have hskip : ∀ s ∈ st.statuses ++
          [{ id := "step_" ++ toString i
             task := step.task
             status := "skipped"
             startedAt := some st.clock
             completedAt := some st.clock
             duration := some 0 }],
          seqStatusOk s := by
        intro s' hs'
        rcases List.mem_append.mp hs' with h | h
        · exact hyp s' h
        · rcases List.mem_singleton.mp h with rfl
          exact seqSkipRecord_ok
            { id := "step_" ++ toString i
              task := step.task
              status := "pending"
              startedAt := some st.clock } st.clock rfl
      rcases hrw : step.runWhen with _ | c
      · rw [hrw] at hs
        dsimp only at hs
        rcases hrs : seqRunStep exec task step
            { st with progressLog := st.progressLog ++ [jsRound100 i total] }
            { id := "step_" ++ toString i, task := step.task,
              status := "pending",
              startedAt := some ({ st with progressLog :=
                st.progressLog ++ [jsRound100 i total] } : SeqState).clock }
            with ⟨st', out⟩
        rw [hrs] at hs
        rcases out with _ | e
        · exact ih (i + 1) st' (hrun st' none hrs) s hs
        · exact hrun st' (some e) hrs s hs
      · rw [hrw] at hs
        dsimp only at hs
        by_cases h1 : c = "" ∨ c = "always"
        · rw [if_pos h1] at hs
          rcases hrs : seqRunStep exec task step
              { st with progressLog := st.progressLog ++ [jsRound100 i total] }
              { id := "step_" ++ toString i, task := step.task,
                status := "pending",
                startedAt := some ({ st with progressLog :=
                  st.progressLog ++ [jsRound100 i total] } : SeqState).clock }
              with ⟨st', out⟩
          rw [hrs] at hs
          rcases out with _ | e
          · exact ih (i + 1) st' (hrun st' none hrs) s hs
          · exact hrun st' (some e) hrs s hs
        · rw [if_neg h1] at hs
          by_cases h2 : c = "on-demand"
          · rw [if_pos h2] at hs
            exact ih (i + 1) _ (fun s2 hs2 => hskip s2 hs2) s hs
          · rw [if_neg h2] at hs
            by_cases h3 : jsTruthy (resolveTemplate c (seqContext task
                { st with progressLog := st.progressLog ++ [jsRound100 i total] }))
                = true
            · rw [if_pos h3] at hs
              rcases hrs : seqRunStep exec task step
                  { st with progressLog := st.progressLog ++ [jsRound100 i total] }
                  { id := "step_" ++ toString i, task := step.task,
                    status := "pending",
                    startedAt := some ({ st with progressLog :=
                      st.progressLog ++ [jsRound100 i total] } : SeqState).clock }
                  with ⟨st', out⟩
              rw [hrs] at hs
              rcases out with _ | e
              · exact ih (i + 1) st' (hrun st' none hrs) s hs
              · exact hrun st' (some e) hrs s hs
            · rw [if_neg h3] at hs
              exact ih (i + 1) _ (fun s2 hs2 => hskip s2 hs2) s hs

/-! ## Chunking and all-success forEach lemmas -/

theorem chunkListGo_nil (c fuel : Nat) : chunkListGo c fuel ([] : List α) = [] := by
  cases fuel <;> rfl

theorem chunkListGo_flatten (c : Nat) (hc : c ≠ 0) :
    ∀ (fuel : Nat) (l : List α), l.length ≤ fuel →
    (chunkListGo c fuel l).flatten = l := by
  intro fuel
  induction fuel with
  | zero =>
      intro l hl
      have h0 : l = [] := List.eq_nil_of_length_eq_zero (by omega)
      subst h0
      rfl
  | succ fuel ih =>
      intro l hl
      cases l with
      | nil => rfl
      | cons x xs =>
          show ((x :: xs).take c :: chunkListGo c fuel ((x :: xs).drop c)).flatten
            = x :: xs
          rw [List.flatten_cons, ih ((x :: xs).drop c) (by
            rw [List.length_drop]
            simp only [List.length_cons] at hl ⊢
            omega)]
          exact List.take_append_drop c (x :: xs)

theorem chunkList_flatten (c : Nat) (l : List α) (hc : c ≠ 0) :
    (chunkList c l).flatten = l :=
  chunkListGo_flatten c hc l.length l (le_refl _)

theorem chunkListGo_sizes (c : Nat) :
    ∀ (fuel : Nat) (l : List α), ∀ ch ∈ chunkListGo c fuel l, ch.length ≤ c := by
  intro fuel
  induction fuel with
  | zero =>
      intro l ch hch
      have h0 : chunkListGo c 0 l = [] := by cases l <;> rfl
      rw [h0] at hch
      cases hch
  | succ fuel ih =>
      intro l ch hch
      cases l with
      | nil =>
          have h0 : chunkListGo c (fuel + 1) ([] : List α) = [] := rfl
          rw [h0] at hch
          cases hch
      | cons x xs =>
          rcases List.mem_cons.mp hch with rfl | h
          · rw [List.length_take]
            omega
          · exact ih _ ch h

theorem chunkList_sizes (c : Nat) (l : List α) :
    ∀ ch ∈ chunkList c l, ch.length ≤ c :=
  chunkListGo_sizes c l.length l

theorem chunkList_all_at_once (l : List α) (hl : l ≠ []) :
    chunkList l.length l = [l] := by
  cases l with
  | nil => exact absurd rfl hl
  | cons x xs =>
      show (x :: xs).take (x :: xs).length ::
        chunkListGo (x :: xs).length xs.length ((x :: xs).drop
          (x :: xs).length) = [x :: xs]
      rw [List.take_length, List.drop_length, chunkListGo_nil]

theorem runItemBatch_ok (exec : Exec) (task : Task) (step : Step)
    (hsucc : ∀ t tm, ∃ v, (exec t tm).1 = Except.ok v) :
    ∀ (b : List (Nat × JsValue)) (st : DagState),
    ∃ vs, (runItemBatch exec task step st b).2 = .ok vs ∧
      vs.length = b.length := by
  intro b
  induction b with
  | nil => intro st; exact ⟨[], rfl, rfl⟩
  | cons iv rest ih =>
      intro st
      obtain ⟨i, v⟩ := iv
      simp only [runItemBatch]
      obtain ⟨w, hw⟩ := hsucc (mkStepTask task step (.obj (resolveTemplates
        (match step.input with
         | some inp => inp
         | none => []) (itemContext task st.results v i))))
        (effTimeoutMs step task)
      have hri : (runItem exec task step st i v).2 = Except.ok w := hw
      rw [hri]
      dsimp only
      obtain ⟨vs, hvs, hlen⟩ := ih (runItem exec task step st i v).1
      rw [hvs]
      exact ⟨w :: vs, rfl, by simp [hlen]⟩

theorem runChunks_ok (exec : Exec) (task : Task) (step : Step)
    (hsucc : ∀ t tm, ∃ v, (exec t tm).1 = Except.ok v) :
    ∀ (bs : List (List (Nat × JsValue))) (st : DagState),
    ∃ vs, (runChunks exec task step st bs).2 = .ok vs ∧
      vs.length = bs.flatten.length := by
  intro bs
  induction bs with
  | nil => intro st; exact ⟨[], rfl, rfl⟩
  | cons b rest ih =>
      intro st
      simp only [runChunks]
      obtain ⟨vs1, hvs1, hlen1⟩ := runItemBatch_ok exec task step hsucc b st
      rw [hvs1]
      dsimp only
      obtain ⟨vs2, hvs2, hlen2⟩ :=
        ih (runItemBatch exec task step st b).1
      rw [hvs2]
      exact ⟨vs1 ++ vs2, rfl, by
        simp [List.length_append, hlen1, hlen2]⟩

theorem finishExec_ok_facts (st : DagState) (id : String) (step : Step)
    (v : JsValue) :
    (finishExec st id step (.ok v)).2 = none ∧
    mapGet (finishExec st id step (.ok v)).1.results id = some v ∧
    (getStatus (finishExec st id step (.ok v)).1 id).status = "completed" := by
  refine ⟨rfl, ?_, ?_⟩
  · exact mapGet_mapSet_self _ _ _
  · unfold finishExec completeStep getStatus updateStatus
    dsimp only
    rw [mapGet_mapSet_self]

/-! ## Claim theorems -/

/-- C8: a whole-string template (beginning with the brace pair and ending
with the closing pair) resolves to the value at the dot-separated path
inside the braces; path evaluation splits on `.`, traverses the context as
nested mappings with arrays indexed by stringified numeric segments, and
yields `undefined` at the first missing or non-object segment (the
`undefined` then absorbs every further segment) without ever raising; a
non-template string passes through unchanged; and field-wise resolution of
an input mapping replaces exactly the whole-string-template entries. -/
theorem C8_template_resolution :
    (∀ (t : String) (ctx : JsValue), isTemplate t = true →
      resolveTemplate t ctx = getNestedValue ctx (templatePath t)) ∧
    (∀ (t : String) (ctx : JsValue), isTemplate t = false →
      resolveTemplate t ctx = .str t) ∧
    (∀ (o : JsValue) (p q : String),
      getNestedValue o (p ++ "." ++ q) = getNestedValue (getNestedValue o p) q) ∧
    (∀ (path : String), getNestedValue .undef path = .undef) ∧
    (∀ (fields : List (String × JsValue)) (k : String),
      fields.find? (fun p => p.1 = k) = none → jsGet (.obj fields) k = .undef) ∧
    (∀ (k : String) (n : Int), jsGet (.num n) k = .undef) ∧
    (∀ (k s : String), jsGet (.str s) k = .undef) ∧
    (∀ (k : String) (b : Bool), jsGet (.bool b) k = .undef) ∧
    (∀ (k : String), jsGet .null k = .undef ∧ jsGet .undef k = .undef) ∧
    (∀ (elems : List JsValue) (i : Nat),
      jsGet (.arr elems) (toString i) = (elems.get? i).getD .undef) ∧
    (∀ (input : List (String × JsValue)) (ctx : JsValue) (j : Nat),
      (resolveTemplates input ctx).get? j = (input.get? j).map fun kv =>
        match kv.2 with
        | .str s =>
            if isTemplate s then (kv.1, getNestedValue ctx (templatePath s))
            else kv
        | _ => kv) := by
  refine ⟨?_, ?_, getNestedValue_append, ?_, ?_, ?_, ?_, ?_, ?_, ?_, ?_⟩
  · intro t ctx h
    simp [resolveTemplate, h]
  · intro t ctx h
    simp [resolveTemplate, h]
  · intro path
    exact foldl_jsGet_undef _
  · exact jsGet_obj_missing
  · intro k n; rfl
  · intro k s; rfl
  · intro k b; rfl
  · intro k; exact ⟨rfl, rfl⟩
  · intro elems i
    exact jsGet_arr_index elems _ i (jsArrayIndex_toString i)
  · intro input ctx j
    simp [resolveTemplates, List.getElem?_map, List.get?_eq_getElem?]

/-- C7: with retry config absent, or `attempts` absent or at most 1, the
executor runs exactly once with no observer call and no sleep; with `n ≥ 2`
attempts, the loop reports each attempt number to the observer before the
attempt, returns the executor's value at the first successful attempt with
no further events, sleeps the backoff delay (base delay when not
exponential, `delay · 2^(attempt-1)` when exponential) after each failing
non-final attempt, and re-raises the final attempt's error after `n`
failures. -/
theorem C7_retry_loop :
    (∀ (task : Task) (ex : Executor), task.retry = none →
      executeWithRetry task ex = (ex 1, [.call 1])) ∧
    (∀ (task : Task) (ex : Executor) (rc : RetryConfig),
      task.retry = some rc → rc.attempts = none →
      executeWithRetry task ex = (ex 1, [.call 1])) ∧
    (∀ (task : Task) (ex : Executor) (rc : RetryConfig) (m : Nat),
      task.retry = some rc → rc.attempts = some m → m ≤ 1 →
      executeWithRetry task ex = (ex 1, [.call 1])) ∧
    (∀ (task : Task) (ex : Executor) (rc : RetryConfig) (n k : Nat) (v : JsValue),
      task.retry = some rc → rc.attempts = some n → 2 ≤ n →
      1 ≤ k → k ≤ n → (∀ i, 1 ≤ i → i < k → ∃ e, ex i = .error e) →
      ex k = .ok v →
      executeWithRetry task ex =
        (.ok v,
         (List.range' 1 (k - 1)).flatMap
             (attemptEvents n (retryBaseDelay rc) (retryExpo rc)) ++
           [.observe k n, .call k])) ∧
    (∀ (task : Task) (ex : Executor) (rc : RetryConfig) (n : Nat),
      task.retry = some rc → rc.attempts = some n → 2 ≤ n →
      (∀ i, 1 ≤ i → i ≤ n → ∃ e, ex i = .error e) →
      executeWithRetry task ex =
        (ex n,
         (List.range' 1 (n - 1)).flatMap
             (attemptEvents n (retryBaseDelay rc) (retryExpo rc)) ++
           [.observe n n, .call n])) ∧
    (∀ (delay i : Nat), backoffDelay true delay i = delay * 2 ^ (i - 1)) ∧
    (∀ (delay i : Nat), backoffDelay false delay i = delay) := by
  refine ⟨?_, ?_, ?_, ?_, ?_, fun _ _ => rfl, fun _ _ => rfl⟩
  · intro task ex h
    simp [executeWithRetry, h]
  · intro task ex rc h ha
    simp [executeWithRetry, h, ha]
  · intro task ex rc m h ha hm
    simp [executeWithRetry, h, ha, hm]
  · intro task ex rc n k v h ha hn hk1 hkn hfail hok
    have hn1 : ¬ n ≤ 1 := by omega
    simp only [executeWithRetry, h, ha, if_neg hn1]
    rw [retryGo_first_ok ex n (retryBaseDelay rc) (retryExpo rc) (n - 1) 1 k v
      hk1 (by omega) (fun i h1 h2 => hfail i h1 h2) hok]
  · intro task ex rc n h ha hn hfail
    have hn1 : ¬ n ≤ 1 := by omega
    simp only [executeWithRetry, h, ha, if_neg hn1]
    have harith : 1 + (n - 1) = n := by omega
    rw [retryGo_all_fail ex n (retryBaseDelay rc) (retryExpo rc) (n - 1) 1
      (fun i h1 h2 => hfail i h1 (by omega)), harith]

/-- Witness for C7: the flaky executor under a 4-attempt exponential policy
succeeds on attempt 3 with the exact observer/call/sleep trace, and a
1-attempt policy runs the executor exactly once. -/
theorem C7_witness :
    executeWithRetry retryTask flakyExecutor =
      (.ok (.str "yay"),
       [.observe 1 4, .call 1, .sleep 10, .observe 2 4, .call 2, .sleep 20,
        .observe 3 4, .call 3]) ∧
    executeWithRetry { type := "t", retry := some { attempts := some 1 } }
        flakyExecutor = (flakyExecutor 1, [.call 1]) := by
  constructor
  · have hfail : ∀ i, 1 ≤ i → i < 3 → ∃ e, flakyExecutor i = .error e := by
      intro i h1 h2
      exact ⟨"fail" ++ toString i, by interval_cases i <;> rfl⟩
    have h := C7_retry_loop.2.2.2.1 retryTask flakyExecutor
      { attempts := some 4, backoff := some "exponential", delay := some 10 }
      4 3 (.str "yay") rfl rfl (by omega) (by omega) (by omega) hfail rfl
    rw [h]
    rfl
  · exact C7_retry_loop.2.2.1 _ flakyExecutor { attempts := some 1 } 1 rfl rfl
      (by omega)

/-- C6: a named backend (not `"auto"`) is looked up in the registry and
fails with the exact not-registered / not-healthy messages or is returned;
with `"auto"` or no backend hint, the healthy backends are collected in
insertion order (a throwing health check counts as unhealthy), an empty
collection fails with `No healthy backend available`, a GPU-requiring task
gets the first healthy backend reporting an available GPU (falling back to
the first healthy backend), and a task without GPU requirement gets the
first healthy backend. -/
theorem C6_selectBackend_policy :
    (∀ (registry : List BackendM) (task : Task) (b : String),
      task.backend = some b → b ≠ "auto" → b ≠ "" →
      registry.find? (fun be => be.name = b) = none →
      selectBackend registry task =
        .error ("Backend \"" ++ b ++ "\" not registered")) ∧
    (∀ (registry : List BackendM) (task : Task) (b : String) (be : BackendM),
      task.backend = some b → b ≠ "auto" → b ≠ "" →
      registry.find? (fun be => be.name = b) = some be →
      be.isHealthy = .ok false →
      selectBackend registry task =
        .error ("Backend \"" ++ b ++ "\" is not healthy")) ∧
    (∀ (registry : List BackendM) (task : Task) (b : String) (be : BackendM),
      task.backend = some b → b ≠ "auto" → b ≠ "" →
      registry.find? (fun be => be.name = b) = some be →
      be.isHealthy = .ok true →
      selectBackend registry task = .ok be) ∧
    (∀ (registry : List BackendM) (be : BackendM),
      ((healthyBackends registry).Sublist registry ∧
       (be ∈ healthyBackends registry ↔ be ∈ registry ∧ be.isHealthy = .ok true))) ∧
    (∀ (registry : List BackendM) (task : Task),
      task.backend = none ∨ task.backend = some "auto" →
      healthyBackends registry = [] →
      selectBackend registry task = .error "No healthy backend available") ∧
    (∀ (registry : List BackendM) (task : Task) (first : BackendM)
        (rest : List BackendM),
      task.backend = none ∨ task.backend = some "auto" →
      taskWantsGpu task = false →
      healthyBackends registry = first :: rest →
      selectBackend registry task = .ok first) ∧
    (∀ (registry : List BackendM) (task : Task) (first : BackendM)
        (rest : List BackendM),
      task.backend = none ∨ task.backend = some "auto" →
      taskWantsGpu task = true →
      healthyBackends registry = first :: rest →
      (∀ be ∈ healthyBackends registry, ∀ e, be.getResources ≠ some (.error e)) →
      selectBackend registry task =
        .ok (((first :: rest).find? reportsAvailableGpu).getD first)) := by
  have hauto : ∀ (registry : List BackendM) (task : Task),
      task.backend = none ∨ task.backend = some "auto" →
      selectBackend registry task = autoSelect registry task := by
    intro registry task h
    rcases h with h | h <;> simp [selectBackend, h]
  refine ⟨?_, ?_, ?_, ?_, ?_, ?_, ?_⟩
  · intro registry task b hb hba hbe hfind
    simp [selectBackend, hb, hfind, hba, hbe]
  · intro registry task b be hb hba hbe hfind hh
    simp [selectBackend, hb, hfind, hh, hba, hbe]
  · intro registry task b be hb hba hbe hfind hh
    simp [selectBackend, hb, hfind, hh, hba, hbe]
  · intro registry be
    exact ⟨healthyBackends_sublist registry, mem_healthyBackends registry be⟩
  · intro registry task h hempty
    rw [hauto registry task h]
    simp [autoSelect, hempty]
  · intro registry task first rest h hgpu hh
    rw [hauto registry task h]
    simp [autoSelect, hh, hgpu]
  · intro registry task first rest h hgpu hh hnothrow
    rw [hauto registry task h]
    rw [hh] at hnothrow
    simp only [autoSelect, hh, hgpu, if_pos]
    rw [gpuScan_no_throw _ hnothrow]
    rcases (first :: rest).find? reportsAvailableGpu with _ | be <;> simp

/-- Witness for C6 on a concrete registry: the three named-path outcomes,
the empty-healthy failure, first-healthy auto selection, and GPU-preferring
auto selection. -/
theorem C6_witness :
    selectBackend [beHealthy] { type := "x", backend := some "zzz" } =
      .error "Backend \"zzz\" not registered" ∧
    selectBackend [beUnhealthy] { type := "x", backend := some "u" } =
      .error "Backend \"u\" is not healthy" ∧
    selectBackend [beHealthy] { type := "x", backend := some "h" } = .ok beHealthy ∧
    selectBackend [beThrowing, beUnhealthy] { type := "x" } =
      .error "No healthy backend available" ∧
    selectBackend [beThrowing, beHealthy, beGpu] { type := "x" } = .ok beHealthy ∧
    selectBackend [beThrowing, beHealthy, beGpu] gpuTask = .ok beGpu := by
  refine ⟨?_, ?_, ?_, ?_, ?_, ?_⟩
  · exact C6_selectBackend_policy.1 _ _ "zzz" rfl (by decide) (by decide) rfl
  · exact C6_selectBackend_policy.2.1 _ _ "u" beUnhealthy rfl (by decide) (by decide)
      rfl rfl
  · exact C6_selectBackend_policy.2.2.1 _ _ "h" beHealthy rfl (by decide) (by decide)
      rfl rfl
  · exact C6_selectBackend_policy.2.2.2.2.1 _ _ (Or.inl rfl) rfl
  · exact C6_selectBackend_policy.2.2.2.2.2.1 _ _ beHealthy [beGpu] (Or.inl rfl)
      rfl rfl
  · have hnothrow : ∀ be ∈ healthyBackends [beThrowing, beHealthy, beGpu],
        ∀ e, be.getResources ≠ some (.error e) := by
      intro be hbe e
      have heq : healthyBackends [beThrowing, beHealthy, beGpu] = [beHealthy, beGpu] := rfl
      rw [heq] at hbe
      simp only [List.mem_cons, List.not_mem_nil, or_false] at hbe
      rcases hbe with rfl | rfl
      · simp [beHealthy]
      · simp [beGpu]
    have h := C6_selectBackend_policy.2.2.2.2.2.2 [beThrowing, beHealthy, beGpu]
      gpuTask beHealthy [beGpu] (Or.inl rfl) rfl rfl hnothrow
    rw [h]
    rfl

/-- Witness for C8 at concrete inputs. -/
theorem C8_witness :
    resolveTemplate "\x7b\x7b a.1.b \x7d\x7d"
        (.obj [("a", .arr [.null, .obj [("b", .num 7)]])]) =
      getNestedValue (.obj [("a", .arr [.null, .obj [("b", .num 7)]])]) "a.1.b" ∧
    resolveTemplate "plain" (.obj []) = .str "plain" ∧
    getNestedValue (.obj [("x", .num 1)]) ("x" ++ "." ++ "y") =
      getNestedValue (getNestedValue (.obj [("x", .num 1)]) "x") "y" ∧
    jsGet (.arr [.num 4, .num 5]) (toString 1) =
      ((([.num 4, .num 5] : List JsValue).get? 1).getD .undef) ∧
    (resolveTemplates [("u", .str "\x7b\x7bx\x7d\x7d"), ("w", .num 2)]
        (.obj [("x", .bool true)])).get? 0 =
      some ("u", getNestedValue (.obj [("x", .bool true)]) (templatePath "\x7b\x7bx\x7d\x7d")) := by
  refine ⟨C8_template_resolution.1 _ _ (by rfl), C8_template_resolution.2.1 _ _ (by rfl),
    C8_template_resolution.2.2.1 _ _ _, C8_template_resolution.2.2.2.2.2.2.2.2.2.1 _ 1, ?_⟩
  have h := C8_template_resolution.2.2.2.2.2.2.2.2.2.2
    [("u", .str "\x7b\x7bx\x7d\x7d"), ("w", .num 2)] (.obj [("x", .bool true)]) 0
  rw [h]
  rfl

/-- C3: whenever a scheduling tick of the DAG loop finds no runnable step
while some step is not yet terminal, the loop rejects with the
pipeline-deadlock error listing the task types of the unresolved declared
steps, with the exact message format of the source; in particular a
two-step dependency cycle always produces this error (for every oracle),
never an infinite loop. -/
theorem C3_deadlock :
    (∀ (exec : Exec) (task : Task) (stepMap : List (String × Step))
       (steps : List Step) (totalSteps fuel : Nat) (st : DagState),
       st.completed.length + st.failed.length < totalSteps →
       runnableSteps st stepMap = [] →
       runLoop exec task stepMap steps totalSteps (fuel + 1) st =
         (st, .error (deadlockMsg (remainingTasks steps st)))) ∧
    (∀ (remaining : List String), deadlockMsg remaining =
      "Pipeline deadlock: cannot run remaining steps ["
        ++ String.intercalate ", " remaining
        ++ "]. Check for circular dependencies or missing dependency IDs.") ∧
    (∀ (steps : List Step) (st : DagState), remainingTasks steps st =
      (steps.enum.filter fun p => !isTerminal st (defaultedId p.2 p.1)).map
        fun p => p.2.task) ∧
    (∀ (exec : Exec), processTask exec cyclicTask =
      .error (deadlockMsg ["ta", "tb"])) ∧
    deadlockMsg ["ta", "tb"] =
      "Pipeline deadlock: cannot run remaining steps [ta, tb]. Check for circular dependencies or missing dependency IDs." := by
  refine ⟨?_, fun _ => rfl, fun _ _ => rfl, fun _ => rfl, rfl⟩
  intro exec task stepMap steps totalSteps fuel st h1 h2
  exact runLoop_deadlock exec task stepMap steps totalSteps fuel st h1 h2

/-- Witness for C3: the cyclic demo pipeline's initial state has no
runnable step with two non-terminal steps, so the loop deadlocks at once,
and the dispatcher surfaces the deadlock error. -/
theorem C3_witness :
    ((initDagState (buildStepMap (cyclicTask.steps.getD []))).completed.length
      + (initDagState (buildStepMap (cyclicTask.steps.getD []))).failed.length < 2
     ∧ runnableSteps (initDagState (buildStepMap (cyclicTask.steps.getD [])))
        (buildStepMap (cyclicTask.steps.getD [])) = []) ∧
    runLoop demoExec cyclicTask (buildStepMap (cyclicTask.steps.getD []))
        (cyclicTask.steps.getD []) 2 3
        (initDagState (buildStepMap (cyclicTask.steps.getD []))) =
      (initDagState (buildStepMap (cyclicTask.steps.getD [])),
       .error (deadlockMsg (remainingTasks (cyclicTask.steps.getD [])
         (initDagState (buildStepMap (cyclicTask.steps.getD [])))))) ∧
    processTask demoExec cyclicTask = .error (deadlockMsg ["ta", "tb"]) :=
  ⟨⟨by decide, rfl⟩,
   C3_deadlock.1 demoExec cyclicTask (buildStepMap (cyclicTask.steps.getD []))
     (cyclicTask.steps.getD []) 2 2
     (initDagState (buildStepMap (cyclicTask.steps.getD []))) (by decide) rfl,
   C3_deadlock.2.2.2.1 demoExec⟩

/-- C9: a DAG step whose `runWhen` template resolves falsy is skipped with
the condition-false marker (carrying the original template string) as its
recorded result, and its id joins the `completed` set — likewise an
`on-demand` step with its marker; since `canRun` only requires dependencies
to be in `completed`, a non-terminal step all of whose dependencies were
completed or so skipped is runnable, so such skips never block or fail
dependents; concretely, the dependent of a condition-false-skipped step
executes and the pipeline returns normally. -/
theorem C9_condition_skip :
    (∀ (exec : Exec) (task : Task) (st : DagState) (id : String) (step : Step)
       (c : String), step.runWhen = some c → c ≠ "" → c ≠ "always" →
       c ≠ "on-demand" →
       jsTruthy (resolveTemplate c (dagContext task st.results)) = false →
       executeStep exec task st id step =
         (skipStep st id (conditionFalseMarker c), none)) ∧
    (∀ (exec : Exec) (task : Task) (st : DagState) (id : String) (step : Step),
       step.runWhen = some "on-demand" →
       executeStep exec task st id step = (skipStep st id onDemandMarker, none)) ∧
    (∀ (st : DagState) (id : String) (m : JsValue),
       (skipStep st id m).completed = setAdd st.completed id ∧
       (skipStep st id m).failed = st.failed ∧
       (skipStep st id m).results = mapSet st.results id m ∧
       (skipStep st id m).statuses = mapSet st.statuses id
         { getStatus st id with status := "skipped" } ∧
       id ∈ (skipStep st id m).completed) ∧
    (∀ (c : String), conditionFalseMarker c =
      .obj [("skipped", .bool true), ("reason", .str "condition-false"),
            ("condition", .str c)]) ∧
    (∀ (st : DagState) (id : String) (step : Step),
       id ∉ st.completed → id ∉ st.failed →
       (∀ d ∈ (match step.dependsOn with
               | some deps => deps
               | none => []), d ∈ st.completed) →
       canRun st id step = true) ∧
    (mapGet (processPipelineDAG demoExec conditionFalseTask).2.results "a" =
      some (conditionFalseMarker "\x7b\x7bpayload.flag\x7d\x7d") ∧
     mapGet (processPipelineDAG demoExec conditionFalseTask).2.results "b" =
      some (.obj [("did", .str "tb")]) ∧
     (getStatus (processPipelineDAG demoExec conditionFalseTask).2 "a").status =
      "skipped" ∧
     (getStatus (processPipelineDAG demoExec conditionFalseTask).2 "b").status =
      "completed" ∧
     "a" ∈ (processPipelineDAG demoExec conditionFalseTask).2.completed ∧
     ∃ r, processTask demoExec conditionFalseTask = .ok r) := by
  refine ⟨?_, ?_, ?_, fun _ => rfl, ?_, rfl, rfl, rfl, rfl, by decide, ⟨_, rfl⟩⟩
  · intro exec task st id step c hc h1 h2 h3 h4
    unfold executeStep
    rw [hc]
    dsimp only
    rw [if_neg (by simp [h1, h2]), if_neg h3, if_neg (by simp [h4])]
  · intro exec task st id step hc
    unfold executeStep
    rw [hc]
    dsimp only
    rw [if_neg (by simp), if_pos rfl]
  · intro st id m
    exact ⟨rfl, rfl, rfl, rfl, self_mem_setAdd _ _⟩
  · intro st id step h1 h2 hdeps
    unfold canRun
    rw [if_neg (by
      simp only [isTerminal, Bool.or_eq_true, not_or]
      constructor
      · intro habs
        exact h1 (by simpa using habs)
      · intro habs
        exact h2 (by simpa using habs))]
    rw [List.all_eq_true]
    intro d hd
    simpa using hdeps d hd

/-- Witness for C9: in the condition-false demo pipeline, executing step
`a` on the initial state skips it with the condition-false marker, and its
dependent `b` is runnable in the resulting state. -/
theorem C9_witness :
    executeStep demoExec conditionFalseTask
        (initDagState (buildStepMap (conditionFalseTask.steps.getD []))) "a"
        { id := some "a", task := "ta",
          runWhen := some "\x7b\x7bpayload.flag\x7d\x7d" } =
      (skipStep (initDagState (buildStepMap (conditionFalseTask.steps.getD [])))
        "a" (conditionFalseMarker "\x7b\x7bpayload.flag\x7d\x7d"), none) ∧
    canRun (skipStep (initDagState (buildStepMap (conditionFalseTask.steps.getD [])))
        "a" (conditionFalseMarker "\x7b\x7bpayload.flag\x7d\x7d")) "b"
        { id := some "b", task := "tb", dependsOn := some ["a"] } = true :=
  ⟨C9_condition_skip.1 demoExec conditionFalseTask
      (initDagState (buildStepMap (conditionFalseTask.steps.getD []))) "a"
      { id := some "a", task := "ta",
        runWhen := some "\x7b\x7bpayload.flag\x7d\x7d" }
      "\x7b\x7bpayload.flag\x7d\x7d" rfl (by decide) (by decide) (by decide) rfl,
   C9_condition_skip.2.2.2.2.1
      (skipStep (initDagState (buildStepMap (conditionFalseTask.steps.getD [])))
        "a" (conditionFalseMarker "\x7b\x7bpayload.flag\x7d\x7d")) "b"
      { id := some "b", task := "tb", dependsOn := some ["a"] }
      (by decide) (by decide) (by decide)⟩

/-- C2: a failing optional step is absorbed — in the DAG runner its status
becomes `skipped` (never `failed`) with the error text recorded, its result
is the skip marker carrying the error, its id joins `completed` (so
dependents still run) and no error is re-raised; a failing non-optional
step gets status `failed` and its error is re-raised by the scheduler tick
and surfaces from `processTask`, aborting the pipeline. The sequential
runner behaves alike on its status/result pushes. Concrete runs confirm
both outcomes end to end in both runners. -/
theorem C2_error_handling :
    (∀ (st : DagState) (id : String) (step : Step) (msg : String),
       step.optional = true →
       (handleStepError st id step msg).2 = none ∧
       (handleStepError st id step msg).1.completed = setAdd st.completed id ∧
       (handleStepError st id step msg).1.failed = st.failed ∧
       (handleStepError st id step msg).1.results =
         mapSet st.results id (optionalErrorMarker msg) ∧
       (getStatus (handleStepError st id step msg).1 id).status = "skipped" ∧
       (getStatus (handleStepError st id step msg).1 id).error = some msg) ∧
    (∀ (st : DagState) (id : String) (step : Step) (msg : String),
       step.optional = false →
       (handleStepError st id step msg).2 = some msg ∧
       (handleStepError st id step msg).1.completed = st.completed ∧
       (handleStepError st id step msg).1.failed = setAdd st.failed id ∧
       (handleStepError st id step msg).1.results = st.results ∧
       (getStatus (handleStepError st id step msg).1 id).status = "failed" ∧
       (getStatus (handleStepError st id step msg).1 id).error = some msg) ∧
    (∀ (msg : String), optionalErrorMarker msg =
      .obj [("error", .str msg), ("skipped", .bool true)]) ∧
    (∀ (exec : Exec) (task : Task) (stepMap : List (String × Step))
       (steps : List Step) (totalSteps fuel : Nat) (st : DagState)
       (r : String × Step) (rs : List (String × Step)) (e : String),
       st.completed.length + st.failed.length < totalSteps →
       runnableSteps st stepMap = r :: rs →
       firstErr (runStepBatch exec task (pgUpd st (r :: rs)) (r :: rs)).2 =
         some e →
       runLoop exec task stepMap steps totalSteps (fuel + 1) st =
         ((runStepBatch exec task (pgUpd st (r :: rs)) (r :: rs)).1,
          .error e)) ∧
    (∀ (exec : Exec) (task : Task) (steps : List Step) (e : String),
       task.steps = some steps → steps.length ≠ 0 →
       steps.any stepTriggersDag = true →
       (processPipelineDAG exec task).1 = .error e →
       processTask exec task = .error e) ∧
    (∀ (exec : Exec) (task : Task) (steps : List Step) (e : String),
       task.steps = some steps → steps.length ≠ 0 →
       steps.any stepTriggersDag = false →
       (processPipelineSequential exec task).1 = .error e →
       processTask exec task = .error e) ∧
    (∀ (exec : Exec) (task : Task) (step : Step) (st : SeqState)
       (status0 : StepStatus) (e : String),
       (exec (mkStepTask task step (.obj (resolveTemplates
           (match step.input with
            | some inp => inp
            | none => []) (seqContext task st)))) (effTimeoutMs step task)).1 =
         .error e →
       (step.optional = true →
         (seqRunStep exec task step st status0).2 = none ∧
         (seqRunStep exec task step st status0).1.stepResults =
           st.stepResults ++ [optionalErrorMarker e] ∧
         ∃ s, (seqRunStep exec task step st status0).1.statuses =
             st.statuses ++ [s] ∧ s.status = "skipped" ∧ s.error = some e) ∧
       (step.optional = false →
         (seqRunStep exec task step st status0).2 = some e ∧
         (seqRunStep exec task step st status0).1.stepResults =
           st.stepResults ∧
         ∃ s, (seqRunStep exec task step st status0).1.statuses =
             st.statuses ++ [s] ∧ s.status = "failed" ∧ s.error = some e)) ∧
    (mapGet (processPipelineDAG demoFailExec optionalFailTask).2.results "a" =
       some (optionalErrorMarker "boom") ∧
     (getStatus (processPipelineDAG demoFailExec optionalFailTask).2 "a").status =
       "skipped" ∧
     (getStatus (processPipelineDAG demoFailExec optionalFailTask).2 "a").error =
       some "boom" ∧
     "a" ∈ (processPipelineDAG demoFailExec optionalFailTask).2.completed ∧
     (getStatus (processPipelineDAG demoFailExec optionalFailTask).2 "b").status =
       "completed" ∧
     (∃ r, processTask demoFailExec optionalFailTask = .ok r) ∧
     processTask demoFailExec requiredFailTask = .error "boom" ∧
     (getStatus (processPipelineDAG demoFailExec requiredFailTask).2 "a").status =
       "failed" ∧
     (processPipelineSequential demoFailExec seqOptFailTask).2.stepResults =
       [optionalErrorMarker "boom", .str "fine"] ∧
     (∃ r, processTask demoFailExec seqOptFailTask = .ok r) ∧
     processTask demoFailExec seqReqFailTask = .error "boom") := by
  refine ⟨?_, ?_, fun _ => rfl, ?_, ?_, ?_, ?_,
    rfl, rfl, rfl, by decide, rfl, ⟨_, rfl⟩, rfl, rfl, rfl, ⟨_, rfl⟩, rfl⟩
  · intro st id step msg hop
    unfold handleStepError
    rw [if_pos hop]
    refine ⟨rfl, rfl, rfl, rfl, ?_, ?_⟩ <;>
      (unfold getStatus updateStatus; dsimp only; rw [mapGet_mapSet_self])
  · intro st id step msg hop
    unfold handleStepError
    rw [if_neg (by simp [hop])]
    refine ⟨rfl, rfl, rfl, rfl, ?_, ?_⟩ <;>
      (unfold getStatus updateStatus; dsimp only; rw [mapGet_mapSet_self])
  · intro exec task stepMap steps totalSteps fuel st r rs e h1 h2 hfe
    rw [runLoop_cons exec task stepMap steps totalSteps fuel st r rs h1 h2, hfe]
  · intro exec task steps e hsteps hlen hany hdag
    unfold processTask
    rw [hsteps]
    dsimp only
    rw [if_pos hlen, if_pos hany, hdag]
  · intro exec task steps e hsteps hlen hany hseq
    unfold processTask
    rw [hsteps]
    dsimp only
    rw [if_pos hlen, if_neg (by simp [hany]), hseq]
  · intro exec task step st status0 e he
    unfold seqRunStep
    dsimp only
    rw [he]
    dsimp only
    constructor
    · intro hop
      rw [if_pos hop]
      exact ⟨rfl, rfl, _, rfl, rfl, rfl⟩
    · intro hop
      rw [if_neg (by simp [hop])]
      exact ⟨rfl, rfl, _, rfl, rfl, rfl⟩

/-- Witness for C2: the optional/non-optional error handlers applied to the
initial state of the optional-failure demo pipeline, and the dispatcher
propagation applied to the required-failure demo pipeline. -/
theorem C2_witness :
    ((handleStepError (initDagState (buildStepMap (optionalFailTask.steps.getD [])))
        "a" { id := some "a", task := "bad", optional := true } "boom").2 = none ∧
     (getStatus (handleStepError
        (initDagState (buildStepMap (optionalFailTask.steps.getD [])))
        "a" { id := some "a", task := "bad", optional := true } "boom").1
        "a").status = "skipped") ∧
    ((handleStepError (initDagState (buildStepMap (requiredFailTask.steps.getD [])))
        "a" { id := some "a", task := "bad" } "boom").2 = some "boom" ∧
     (getStatus (handleStepError
        (initDagState (buildStepMap (requiredFailTask.steps.getD [])))
        "a" { id := some "a", task := "bad" } "boom").1 "a").status = "failed") ∧
    processTask demoFailExec requiredFailTask = .error "boom" := by
  refine ⟨⟨?_, ?_⟩, ⟨?_, ?_⟩, ?_⟩
  · exact (C2_error_handling.1
      (initDagState (buildStepMap (optionalFailTask.steps.getD [])))
      "a" { id := some "a", task := "bad", optional := true } "boom" rfl).1
  · exact (C2_error_handling.1
      (initDagState (buildStepMap (optionalFailTask.steps.getD [])))
      "a" { id := some "a", task := "bad", optional := true } "boom" rfl).2.2.2.2.1
  · exact (C2_error_handling.2.1
      (initDagState (buildStepMap (requiredFailTask.steps.getD [])))
      "a" { id := some "a", task := "bad" } "boom" rfl).1
  · exact (C2_error_handling.2.1
      (initDagState (buildStepMap (requiredFailTask.steps.getD [])))
      "a" { id := some "a", task := "bad" } "boom" rfl).2.2.2.2.1
  · exact C2_error_handling.2.2.2.2.1 demoFailExec requiredFailTask
      (requiredFailTask.steps.getD []) "boom" rfl (by decide) (by decide) rfl

/-- C10 (amended): in a DAG pipeline where two declared steps share an id
after defaulting, some step carries a truthy id (so the dispatcher routes
to the DAG runner), the step map collapses the duplicates to strictly
fewer keys than declared steps, `processTask` always rejects (never
returns a `PipelineResult`) with the terminal count strictly below the
declared step count; when, additionally, every execution succeeds and no
step declares `forEach`, the rejection is the pipeline-deadlock error
listing the remaining steps. Concretely the duplicate-id demo collapses to
the single key `a` bound to the last declaration, completes only `a`, and
deadlocks. -/
theorem C10_duplicate_ids :
    (∀ (steps : List Step), ¬(defaultedIds steps).Nodup →
      steps.any stepTriggersDag = true) ∧
    (∀ (steps : List Step), ¬(defaultedIds steps).Nodup →
      ((buildStepMap steps).map Prod.fst).length < steps.length) ∧
    (∀ (exec : Exec) (task : Task) (steps : List Step),
      task.steps = some steps → ¬(defaultedIds steps).Nodup →
      (∃ e, (processPipelineDAG exec task).1 = .error e ∧
        processTask exec task = .error e) ∧
      terminalCount (processPipelineDAG exec task).2 < steps.length) ∧
    (∀ (exec : Exec) (task : Task) (steps : List Step),
      task.steps = some steps → ¬(defaultedIds steps).Nodup →
      (∀ t tm, ∃ v, (exec t tm).1 = Except.ok v) →
      (∀ s ∈ steps, s.forEach = none ∨ s.forEach = some "") →
      (processPipelineDAG exec task).1 =
        .error (deadlockMsg (remainingTasks steps
          (processPipelineDAG exec task).2))) ∧
    ((buildStepMap (duplicateIdTask.steps.getD [])).map Prod.fst = ["a"] ∧
     mapGet (buildStepMap (duplicateIdTask.steps.getD [])) "a" =
       some { id := some "a", task := "t2" } ∧
     (processPipelineDAG demoExec duplicateIdTask).2.completed = ["a"] ∧
     processTask demoExec duplicateIdTask = .error (deadlockMsg [])) := by
  refine ⟨fun steps h => dup_triggers_dag steps h,
    fun steps h => buildStepMap_keys_length_lt steps h, ?_, ?_,
    rfl, rfl, rfl, rfl⟩
  · intro exec task steps hsteps hdup
    have hklt : ((buildStepMap steps).map Prod.fst).length < steps.length :=
      buildStepMap_keys_length_lt steps hdup
    have hknd := buildStepMap_keys_nodup steps
    have hm := runLoop_master exec task (buildStepMap steps) steps steps.length
      hknd (le_of_lt hklt) (steps.length + 1) (initDagState (buildStepMap steps))
      (SetsInv_init _) (StatusesInv_init _) (ProgressInv_init _ _)
    rcases hr : (runLoop exec task (buildStepMap steps) steps steps.length
        (steps.length + 1) (initDagState (buildStepMap steps))).2 with e | u
    · have hdag : (processPipelineDAG exec task).1 = .error e ∧
          (processPipelineDAG exec task).2 = (runLoop exec task
            (buildStepMap steps) steps steps.length (steps.length + 1)
            (initDagState (buildStepMap steps))).1 := by
        unfold processPipelineDAG
        rw [hsteps]
        dsimp only
        rw [hr]
        exact ⟨rfl, rfl⟩
      have hany := dup_triggers_dag steps hdup
      have hlen : steps.length ≠ 0 := by
        intro h0
        apply hdup
        have hnil : defaultedIds steps = [] :=
          List.eq_nil_of_length_eq_zero (by rw [defaultedIds_length]; exact h0)
        rw [hnil]
        exact List.nodup_nil
      refine ⟨⟨e, hdag.1, ?_⟩, ?_⟩
      · unfold processTask
        rw [hsteps]
        dsimp only
        rw [if_pos hlen, if_pos hany, hdag.1]
      · rw [hdag.2]
        exact lt_of_le_of_lt (terminalCount_le_keys _ _ hm.1) hklt
    · exfalso
      have hok := hm.2.2.2.2 (by rw [hr])
      have h1 := terminalCount_le_keys _ _ hm.1
      omega
  · intro exec task steps hsteps hdup hsucc hnofe
    have hklt : ((buildStepMap steps).map Prod.fst).length < steps.length :=
      buildStepMap_keys_length_lt steps hdup
    have hknd := buildStepMap_keys_nodup steps
    have hnofe' : ∀ p ∈ buildStepMap steps,
        p.2.forEach = none ∨ p.2.forEach = some "" :=
      fun p hp => hnofe p.2 (mem_buildStepMap_val steps p hp)
    have hdl := runLoop_always_deadlock exec task (buildStepMap steps) steps
      steps.length hsucc hnofe' hknd hklt (steps.length + 1)
      (initDagState (buildStepMap steps)) (SetsInv_init _) (StatusesInv_init _)
      (by
        unfold terminalCount
        have h0 : (initDagState (buildStepMap steps)).completed.length = 0 := rfl
        have h1 : (initDagState (buildStepMap steps)).failed.length = 0 := rfl
        omega)
    unfold processPipelineDAG
    rw [hsteps]
    dsimp only
    rw [hdl]

/-- Counterexample for C10 as stated: a duplicate-id pipeline whose
collapsed step fails rejects with the step's own error, which is not the
pipeline-deadlock message — the deadlock rejection is not universal over
duplicate-id pipelines. -/
theorem C10_counterexample :
    ¬(defaultedIds (dupFailTask.steps.getD [])).Nodup ∧
    processTask demoFailExec dupFailTask = .error "boom" ∧
    (∀ remaining : List String, "boom" ≠ deadlockMsg remaining) := by
  refine ⟨by decide, rfl, ?_⟩
  intro rem h
  have hlen := congrArg String.length h
  have hexp : (deadlockMsg rem).length =
      ("Pipeline deadlock: cannot run remaining steps [").length +
      (String.intercalate ", " rem).length +
      ("]. Check for circular dependencies or missing dependency IDs.").length := by
    unfold deadlockMsg
    rw [String.length_append, String.length_append]
  rw [hexp] at hlen
  have h1 : ("Pipeline deadlock: cannot run remaining steps [").length = 47 := by
    decide
  have h2 :
      ("]. Check for circular dependencies or missing dependency IDs.").length
        = 61 := by decide
  have h3 : ("boom").length = 4 := by decide
  omega

/-- Witness for C10: the amended theorem applied to the duplicate-id demo
pipeline under the always-succeeding demo oracle. -/
theorem C10_witness :
    ((∃ e, (processPipelineDAG demoExec duplicateIdTask).1 = .error e ∧
       processTask demoExec duplicateIdTask = .error e) ∧
     terminalCount (processPipelineDAG demoExec duplicateIdTask).2 <
       (duplicateIdTask.steps.getD []).length) ∧
    (processPipelineDAG demoExec duplicateIdTask).1 =
      .error (deadlockMsg (remainingTasks (duplicateIdTask.steps.getD [])
        (processPipelineDAG demoExec duplicateIdTask).2)) :=
  ⟨C10_duplicate_ids.2.2.1 demoExec duplicateIdTask
     (duplicateIdTask.steps.getD []) rfl (by decide),
   C10_duplicate_ids.2.2.2.1 demoExec duplicateIdTask
     (duplicateIdTask.steps.getD []) rfl (by decide)
     (fun t tm => ⟨.obj [("did", .str t.type)], rfl⟩) (by decide)⟩

/-- C4 (amended): every progress emission of either runner is an integer
in `[0, 100]` of the form `round(100 · c / total)` with `c ≤ total`, and
the emitted sequence is monotonically non-decreasing; the DAG runner emits
after each successful tick and on a successful run its last emission is
exactly `100` (so the final `100` IS explicitly emitted there); the
sequential runner emits `round(100 · i / total)` before step `i`, its
emissions being an initial segment of that indexed family. -/
theorem C4_progress :
    (∀ (total p : Nat), ProgressEntryOk total p → p ≤ 100) ∧
    (∀ (exec : Exec) (task : Task) (steps : List Step),
      task.steps = some steps →
      (processPipelineDAG exec task).2.progressLog.Chain' (· ≤ ·) ∧
      ∀ p ∈ (processPipelineDAG exec task).2.progressLog,
        ProgressEntryOk steps.length p) ∧
    (∀ (exec : Exec) (task : Task) (steps : List Step) (r : PipelineResult),
      task.steps = some steps → steps.length ≠ 0 →
      (processPipelineDAG exec task).1 = .ok r →
      (processPipelineDAG exec task).2.progressLog.getLast? = some 100) ∧
    (∀ (exec : Exec) (task : Task) (steps : List Step),
      task.steps = some steps →
      (∃ k ≤ steps.length,
        (processPipelineSequential exec task).2.progressLog =
          (List.range' 0 k).map fun j => jsRound100 j steps.length) ∧
      (processPipelineSequential exec task).2.progressLog.Chain' (· ≤ ·) ∧
      ∀ p ∈ (processPipelineSequential exec task).2.progressLog,
        ProgressEntryOk steps.length p) := by
  refine ⟨?_, ?_, ?_, ?_⟩
  · rintro total p ⟨c, hc, rfl⟩
    exact jsRound100_le_100 hc
  · intro exec task steps hsteps
    have hm := runLoop_master exec task (buildStepMap steps) steps steps.length
      (buildStepMap_keys_nodup steps) (buildStepMap_keys_length_le steps)
      (steps.length + 1) (initDagState (buildStepMap steps))
      (SetsInv_init _) (StatusesInv_init _) (ProgressInv_init _ _)
    rw [processPipelineDAG_state exec task steps hsteps]
    exact ⟨hm.2.2.1, hm.2.2.2.1⟩
  · intro exec task steps r hsteps hne hok
    have hm := runLoop_master exec task (buildStepMap steps) steps steps.length
      (buildStepMap_keys_nodup steps) (buildStepMap_keys_length_le steps)
      (steps.length + 1) (initDagState (buildStepMap steps))
      (SetsInv_init _) (StatusesInv_init _) (ProgressInv_init _ _)
    have hloopok := (processPipelineDAG_ok_inv exec task steps r hsteps hok).1
    obtain ⟨hterm, hpinv, hfail⟩ := hm.2.2.2.2 hloopok
    have hfail0 : (runLoop exec task (buildStepMap steps) steps steps.length
        (steps.length + 1) (initDagState (buildStepMap steps))).1.failed = [] := by
      rw [hfail]
      rfl
    have hkle := buildStepMap_keys_length_le steps
    have htk := terminalCount_le_keys _ _ hm.1
    have hceq : (runLoop exec task (buildStepMap steps) steps steps.length
        (steps.length + 1) (initDagState (buildStepMap steps))).1.completed.length
        = steps.length := by
      unfold terminalCount at hterm htk
      rw [hfail0] at hterm htk
      simp only [List.length_nil] at hterm htk
      omega
    have hpos := runLoop_ok_pos exec task (buildStepMap steps) steps steps.length
      (steps.length + 1) (initDagState (buildStepMap steps))
      (by
        have h0 : (initDagState (buildStepMap steps)).completed.length = 0 := rfl
        have h1 : (initDagState (buildStepMap steps)).failed.length = 0 := rfl
        omega)
      hloopok
    rw [processPipelineDAG_state exec task steps hsteps]
    rcases hpinv.2.2 with hnil | hlast
    · exfalso
      rw [hnil] at hpos
      have h0 : (initDagState (buildStepMap steps)).progressLog.length = 0 := rfl
      simp only [List.length_nil] at hpos
      omega
    · rw [hlast, hceq, jsRound100_total_eq_100 hne]
  · intro exec task steps hsteps
    obtain ⟨k, hk, hlog⟩ := seqGo_progressLog exec task steps.length steps 0
      ({} : SeqState)
    have hlog' : (processPipelineSequential exec task).2.progressLog =
        (List.range' 0 k).map fun j => jsRound100 j steps.length := by
      rw [processPipelineSequential_state exec task steps hsteps, hlog]
      rfl
    refine ⟨⟨k, hk, hlog'⟩, ?_, ?_⟩
    · rw [hlog']
      exact chain_map_jsRound100_range k 0 steps.length
    · intro p hp
      rw [hlog'] at hp
      rcases List.mem_map.mp hp with ⟨j, hj, rfl⟩
      have := List.mem_range'_1.mp hj
      exact ⟨j, by omega, rfl⟩

/-- Counterexample for C4 as stated: the successful single-step DAG demo
emits exactly `[100]` to the progress callback — the final `100` is
explicitly emitted by the DAG runner. -/
theorem C4_counterexample :
    (processPipelineDAG demoExec singleStepTask).2.progressLog = [100] ∧
    100 ∈ (processPipelineDAG demoExec singleStepTask).2.progressLog ∧
    (∃ r, processTask demoExec singleStepTask = .ok r) := by
  refine ⟨rfl, ?_, ⟨_, rfl⟩⟩
  rw [show (processPipelineDAG demoExec singleStepTask).2.progressLog = [100]
    from rfl]
  exact List.mem_singleton.mpr rfl

/-- Witness for C4: the amended theorem applied to the single-step DAG demo
(whose sole emission is the final 100) and to the sequential demo. -/
theorem C4_witness :
    ((processPipelineDAG demoExec singleStepTask).2.progressLog.Chain' (· ≤ ·) ∧
     ∀ p ∈ (processPipelineDAG demoExec singleStepTask).2.progressLog,
       ProgressEntryOk (singleStepTask.steps.getD []).length p) ∧
    (processPipelineDAG demoExec singleStepTask).2.progressLog.getLast? =
      some 100 ∧
    ((∃ k ≤ (seqDemoTask.steps.getD []).length,
       (processPipelineSequential demoExec seqDemoTask).2.progressLog =
         (List.range' 0 k).map fun j =>
           jsRound100 j (seqDemoTask.steps.getD []).length) ∧
     (processPipelineSequential demoExec seqDemoTask).2.progressLog.Chain'
       (· ≤ ·) ∧
     ∀ p ∈ (processPipelineSequential demoExec seqDemoTask).2.progressLog,
       ProgressEntryOk (seqDemoTask.steps.getD []).length p) :=
  ⟨C4_progress.2.1 demoExec singleStepTask (singleStepTask.steps.getD []) rfl,
   C4_progress.2.2.1 demoExec singleStepTask (singleStepTask.steps.getD []) _
     rfl (by decide) rfl,
   C4_progress.2.2.2 demoExec seqDemoTask (seqDemoTask.steps.getD []) rfl⟩

/-- C5 (amended): in every DAG run, every status record satisfies the
timing invariant — `completed`/`failed` records carry a duration, a
`skipped` record carries one whenever it recorded an error (an absorbed
optional failure), every recorded duration is non-negative, and on
terminal records `completedAt ≥ startedAt` whenever both are set; the
returned `PipelineResult` exposes exactly these records. In every
sequential run the stronger property holds: every terminal status —
including all skips — carries a duration. (`runWhen` skips in the DAG
runner write no timing fields at all, so the claim's blanket
duration-on-skipped clause fails there.) -/
theorem C5_status_invariants :
    (∀ (exec : Exec) (task : Task) (steps : List Step),
      task.steps = some steps →
      ∀ p ∈ (processPipelineDAG exec task).2.statuses, statusTimingOk p.2) ∧
    (∀ (exec : Exec) (task : Task) (steps : List Step) (r : PipelineResult),
      task.steps = some steps →
      (processPipelineDAG exec task).1 = .ok r →
      r.stepStatus = (processPipelineDAG exec task).2.statuses.map
        fun p => p.2) ∧
    (∀ (exec : Exec) (task : Task) (steps : List Step),
      task.steps = some steps →
      ∀ s ∈ (processPipelineSequential exec task).2.statuses, seqStatusOk s) ∧
    (∀ (exec : Exec) (task : Task) (steps : List Step) (r : PipelineResult),
      task.steps = some steps →
      (processPipelineSequential exec task).1 = .ok r →
      r.stepStatus = (processPipelineSequential exec task).2.statuses) := by
  refine ⟨?_, ?_, ?_, ?_⟩
  · intro exec task steps hsteps p hp
    have hm := runLoop_master exec task (buildStepMap steps) steps steps.length
      (buildStepMap_keys_nodup steps) (buildStepMap_keys_length_le steps)
      (steps.length + 1) (initDagState (buildStepMap steps))
      (SetsInv_init _) (StatusesInv_init _) (ProgressInv_init _ _)
    rw [processPipelineDAG_state exec task steps hsteps] at hp
    exact (hm.2.1 p hp).1.1
  · intro exec task steps r hsteps hok
    obtain ⟨_, rfl⟩ := processPipelineDAG_ok_inv exec task steps r hsteps hok
    rw [processPipelineDAG_state exec task steps hsteps]
    rfl
  · intro exec task steps hsteps s hs
    rw [processPipelineSequential_state exec task steps hsteps] at hs
    exact seqGo_statuses exec task steps.length steps 0 {} (by simp) s hs
  · intro exec task steps r hsteps hok
    rw [processPipelineSequential_ok_inv exec task steps r hsteps hok,
      processPipelineSequential_state exec task steps hsteps]
    rfl

/-- Counterexample for C5 as stated: the on-demand-skipped step of the
on-demand demo pipeline appears in the returned result with status
`skipped` but with no duration at all. -/
theorem C5_counterexample :
    (processPipelineDAG demoExec onDemandTask).1 =
      .ok (buildPipelineResult (onDemandTask.steps.getD [])
        (processPipelineDAG demoExec onDemandTask).2) ∧
    (buildPipelineResult (onDemandTask.steps.getD [])
        (processPipelineDAG demoExec onDemandTask).2).stepStatus =
      [{ id := "a", task := "ta", status := "skipped" }] ∧
    ({ id := "a", task := "ta", status := "skipped" } : StepStatus).status =
      "skipped" ∧
    ({ id := "a", task := "ta", status := "skipped" } : StepStatus).duration =
      none :=
  ⟨rfl, rfl, rfl, rfl⟩

/-- Witness for C5: the amended theorem applied to the optional-failure
demo pipelines of both runners, evaluated at their first status record. -/
theorem C5_witness :
    statusTimingOk
      (getStatus (processPipelineDAG demoFailExec optionalFailTask).2 "a") ∧
    seqStatusOk
      { id := "step_0"
        task := "bad"
        status := "skipped"
        startedAt := some 0
        completedAt := some 3
        duration := some 3
        error := some "boom" } := by
  constructor
  · exact C5_status_invariants.1 demoFailExec optionalFailTask
      (optionalFailTask.steps.getD []) rfl
      ("a", getStatus (processPipelineDAG demoFailExec optionalFailTask).2 "a")
      (List.mem_cons_self _ _)
  · exact C5_status_invariants.2.2.1 demoFailExec seqOptFailTask
      (seqOptFailTask.steps.getD []) rfl
      { id := "step_0"
        task := "bad"
        status := "skipped"
        startedAt := some 0
        completedAt := some 3
        duration := some 3
        error := some "boom" }
      (List.mem_cons_self _ _)

/-- C1: a `forEach` step resolves its template against the step context;
a non-array resolution throws into the step error handler the exact
message `forEach template "<expr>" did not resolve to array, got:
<typeof>` (re-raised when the step is not optional); an array resolution
is processed in sequential batches — the enumerated items are sliced into
chunks of the concurrency (all items at once when `forEachConcurrency` is
absent or `0`), the chunks exactly partition the items — with every item
executed as its own sub-task carrying the step's task type, merged
retry/resources and effective timeout; when every item call succeeds the
step completes with the array of per-item results, one per input item, and
an empty array completes immediately with an empty result array. -/
theorem C1_forEach :
    (∀ (exec : Exec) (task : Task) (st : DagState) (id : String) (step : Step)
       (fe : String) (other : JsValue),
       step.forEach = some fe → fe ≠ "" →
       resolveTemplate fe (dagContext task st.results) = other →
       (∀ xs, other ≠ .arr xs) →
       executeStepBody exec task st id step =
         handleStepError (markRunning st id) id step
           ("forEach template \"" ++ fe ++ "\" did not resolve to array, got: "
             ++ jsTypeof other) ∧
       (step.optional = false →
         (executeStepBody exec task st id step).2 =
           some ("forEach template \"" ++ fe
             ++ "\" did not resolve to array, got: " ++ jsTypeof other))) ∧
    (∀ (c : Nat) (l : List (Nat × JsValue)), c ≠ 0 →
      (chunkList c l).flatten = l) ∧
    (∀ (c : Nat) (l : List (Nat × JsValue)),
      ∀ ch ∈ chunkList c l, ch.length ≤ c) ∧
    (∀ (l : List (Nat × JsValue)), l ≠ [] → chunkList l.length l = [l]) ∧
    (∀ (task : Task) (step : Step) (p : JsValue),
      (mkStepTask task step p).type = step.task ∧
      (mkStepTask task step p).backend = task.backend ∧
      (mkStepTask task step p).payload = p ∧
      (mkStepTask task step p).retry = jsOrOpt step.retry task.retry ∧
      (mkStepTask task step p).resources =
        jsOrOpt step.resources task.resources) ∧
    (∀ (exec : Exec) (task : Task) (step : Step) (st : DagState)
       (i : Nat) (v : JsValue),
      (runItem exec task step st i v).1.calls = st.calls ++
        [(mkStepTask task step (.obj (resolveTemplates
            (match step.input with
             | some inp => inp
             | none => []) (itemContext task st.results v i))),
          effTimeoutMs step task)]) ∧
    (∀ (exec : Exec) (task : Task) (st : DagState) (id : String) (step : Step)
       (fe : String) (xs : List JsValue),
       (∀ t tm, ∃ v, (exec t tm).1 = Except.ok v) →
       step.forEach = some fe → fe ≠ "" →
       resolveTemplate fe (dagContext task st.results) = .arr xs →
       ∃ vs : List JsValue, vs.length = xs.length ∧
         (executeStepBody exec task st id step).2 = none ∧
         mapGet (executeStepBody exec task st id step).1.results id =
           some (.arr vs) ∧
         (getStatus (executeStepBody exec task st id step).1 id).status =
           "completed") ∧
    (∀ (exec : Exec) (task : Task) (st : DagState) (id : String) (step : Step)
       (fe : String),
       step.forEach = some fe → fe ≠ "" →
       resolveTemplate fe (dagContext task st.results) = .arr [] →
       executeStepBody exec task st id step =
         (completeStep (markRunning st id) id (.arr []), none)) ∧
    ((processPipelineDAG demoExec forEachTask).2.calls.map
        (fun c => c.1.payload) =
      [.obj [("v", .num 1), ("i", .num 0)], .obj [("v", .num 2), ("i", .num 1)],
       .obj [("v", .num 3), ("i", .num 2)]] ∧
     (processPipelineDAG demoExec forEachTask).2.calls.map
        (fun c => c.1.type) = ["double", "double", "double"] ∧
     mapGet (processPipelineDAG demoExec forEachTask).2.results "proc" =
      some (.arr [.obj [("did", .str "double")], .obj [("did", .str "double")],
        .obj [("did", .str "double")]]) ∧
     (∃ r, processTask demoExec forEachTask = .ok r) ∧
     chunkList 2 [(0, JsValue.num 1), (1, JsValue.num 2), (2, JsValue.num 3)] =
      [[(0, JsValue.num 1), (1, JsValue.num 2)], [(2, JsValue.num 3)]] ∧
     (processPipelineDAG demoExec forEachBadTask).1 =
      .error ("forEach template \"\x7b\x7bpayload.missing\x7d\x7d\" did not "
        ++ "resolve to array, got: undefined") ∧
     (getStatus (processPipelineDAG demoExec forEachEmptyTask).2 "proc").status
       = "completed" ∧
     mapGet (processPipelineDAG demoExec forEachEmptyTask).2.results "proc" =
       some (.arr []) ∧
     (∃ r, processTask demoExec forEachEmptyTask = .ok r)) := by
  refine ⟨?_, fun c l hc => chunkList_flatten c l hc, chunkList_sizes,
    fun l hl => chunkList_all_at_once l hl,
    fun task step p => ⟨rfl, rfl, rfl, rfl, rfl⟩,
    fun exec task step st i v => rfl, ?_, ?_,
    rfl, rfl, rfl, ⟨_, rfl⟩, rfl, rfl, rfl, rfl, ⟨_, rfl⟩⟩
  · intro exec task st id step fe other hfe hne hres hother
    have hbody : executeStepBody exec task st id step =
        handleStepError (markRunning st id) id step
          ("forEach template \"" ++ fe ++ "\" did not resolve to array, got: "
            ++ jsTypeof other) := by
      unfold executeStepBody
      dsimp only
      rw [hfe]
      dsimp only
      rw [if_neg hne]
      have hres' : resolveTemplate fe
          (dagContext task (markRunning st id).results) = other := hres
      rw [hres']
      rcases other with _ | _ | b | n | s2 | elems | fields
      · rfl
      · rfl
      · rfl
      · rfl
      · rfl
      · exact absurd rfl (hother elems)
      · rfl
    refine ⟨hbody, ?_⟩
    intro hop
    rw [hbody]
    unfold handleStepError
    rw [if_neg (by simp [hop])]
  · intro exec task st id step fe xs hsucc hfe hne hres
    have hred : executeStepBody exec task st id step =
        finishExec (runChunks exec task step (markRunning st id)
          (chunkList (match step.forEachConcurrency with
            | some c => if c = 0 then xs.length else c
            | none => xs.length) xs.enum)).1 id step
          ((runChunks exec task step (markRunning st id)
            (chunkList (match step.forEachConcurrency with
              | some c => if c = 0 then xs.length else c
              | none => xs.length) xs.enum)).2.map JsValue.arr) := by
      unfold executeStepBody
      dsimp only
      rw [hfe]
      dsimp only
      rw [if_neg hne]
      have hres' : resolveTemplate fe
          (dagContext task (markRunning st id).results) = .arr xs := hres
      rw [hres']
    have hflat : (chunkList (match step.forEachConcurrency with
        | some c => if c = 0 then xs.length else c
        | none => xs.length) xs.enum).flatten = xs.enum := by
      by_cases hxs : xs = []
      · subst hxs
        rcases step.forEachConcurrency with _ | c <;> rfl
      · refine chunkList_flatten _ _ ?_
        have hlen : xs.length ≠ 0 := by
          intro h0
          exact hxs (List.eq_nil_of_length_eq_zero h0)
        rcases hconc : step.forEachConcurrency with _ | c
        · exact hlen
        · dsimp only
          by_cases hc0 : c = 0
          · rw [if_pos hc0]
            exact hlen
          · rw [if_neg hc0]
            exact hc0
    obtain ⟨vs, hvs, hlen⟩ := runChunks_ok exec task step hsucc
      (chunkList (match step.forEachConcurrency with
        | some c => if c = 0 then xs.length else c
        | none => xs.length) xs.enum) (markRunning st id)
    have hmap : ((runChunks exec task step (markRunning st id)
        (chunkList (match step.forEachConcurrency with
          | some c => if c = 0 then xs.length else c
          | none => xs.length) xs.enum)).2).map JsValue.arr =
        Except.ok (.arr vs) := by
      rw [hvs]
      rfl
    refine ⟨vs, ?_, ?_, ?_, ?_⟩
    · rw [hlen, hflat, List.enum_length]
    · rw [hred, hmap]
      exact (finishExec_ok_facts _ id step (.arr vs)).1
    · rw [hred, hmap]
      exact (finishExec_ok_facts _ id step (.arr vs)).2.1
    · rw [hred, hmap]
      exact (finishExec_ok_facts _ id step (.arr vs)).2.2
  · intro exec task st id step fe hfe hne hres
    unfold executeStepBody
    dsimp only
    rw [hfe]
    dsimp only
    rw [if_neg hne]
    have hres' : resolveTemplate fe
        (dagContext task (markRunning st id).results) = .arr [] := hres
    rw [hres']
    rfl

/-- Witness for C1: the forEach demo pipelines — the success theorem at the
three-item template step, the type-mismatch theorem at the missing-path
step, the empty-array theorem at the empty list, and the chunker at
concurrency 2. -/
theorem C1_witness :
    (∃ vs : List JsValue,
      vs.length = ([JsValue.num 1, .num 2, .num 3] : List JsValue).length ∧
      (executeStepBody demoExec forEachTask
        (initDagState (buildStepMap (forEachTask.steps.getD [])))
        "proc" { id := some "proc", task := "double",
                 forEach := some "\x7b\x7bpayload.xs\x7d\x7d",
                 forEachConcurrency := some 2,
                 input := some [("v", .str "\x7b\x7bitem\x7d\x7d"),
                                ("i", .str "\x7b\x7bindex\x7d\x7d")] }).2 =
        none ∧
      mapGet (executeStepBody demoExec forEachTask
        (initDagState (buildStepMap (forEachTask.steps.getD [])))
        "proc" { id := some "proc", task := "double",
                 forEach := some "\x7b\x7bpayload.xs\x7d\x7d",
                 forEachConcurrency := some 2,
                 input := some [("v", .str "\x7b\x7bitem\x7d\x7d"),
                                ("i", .str "\x7b\x7bindex\x7d\x7d")] }).1.results
        "proc" = some (.arr vs) ∧
      (getStatus (executeStepBody demoExec forEachTask
        (initDagState (buildStepMap (forEachTask.steps.getD [])))
        "proc" { id := some "proc", task := "double",
                 forEach := some "\x7b\x7bpayload.xs\x7d\x7d",
                 forEachConcurrency := some 2,
                 input := some [("v", .str "\x7b\x7bitem\x7d\x7d"),
                                ("i", .str "\x7b\x7bindex\x7d\x7d")] }).1
        "proc").status = "completed") ∧
    (executeStepBody demoExec forEachBadTask
        (initDagState (buildStepMap (forEachBadTask.steps.getD [])))
        "proc" { id := some "proc", task := "double",
                 forEach := some "\x7b\x7bpayload.missing\x7d\x7d" }).2 =
      some ("forEach template \"\x7b\x7bpayload.missing\x7d\x7d\" did not "
        ++ "resolve to array, got: " ++ jsTypeof JsValue.undef) ∧
    executeStepBody demoExec forEachEmptyTask
        (initDagState (buildStepMap (forEachEmptyTask.steps.getD [])))
        "proc" { id := some "proc", task := "double",
                 forEach := some "\x7b\x7bpayload.xs\x7d\x7d" } =
      (completeStep (markRunning
        (initDagState (buildStepMap (forEachEmptyTask.steps.getD []))) "proc")
        "proc" (.arr []), none) ∧
    (chunkList 2 [(0, JsValue.num 1), (1, JsValue.num 2),
      (2, JsValue.num 3)]).flatten =
      [(0, JsValue.num 1), (1, JsValue.num 2), (2, JsValue.num 3)] :=
  ⟨C1_forEach.2.2.2.2.2.2.1 demoExec forEachTask
     (initDagState (buildStepMap (forEachTask.steps.getD []))) "proc"
     { id := some "proc", task := "double",
       forEach := some "\x7b\x7bpayload.xs\x7d\x7d",
       forEachConcurrency := some 2,
       input := some [("v", .str "\x7b\x7bitem\x7d\x7d"),
                      ("i", .str "\x7b\x7bindex\x7d\x7d")] }
     "\x7b\x7bpayload.xs\x7d\x7d" [.num 1, .num 2, .num 3]
     (fun t tm => ⟨.obj [("did", .str t.type)], rfl⟩) rfl (by decide) rfl,
   (C1_forEach.1 demoExec forEachBadTask
     (initDagState (buildStepMap (forEachBadTask.steps.getD []))) "proc"
     { id := some "proc", task := "double",
       forEach := some "\x7b\x7bpayload.missing\x7d\x7d" }
     "\x7b\x7bpayload.missing\x7d\x7d" JsValue.undef
     rfl (by decide) rfl (fun xs h => by cases h)).2 rfl,
   C1_forEach.2.2.2.2.2.2.2.1 demoExec forEachEmptyTask
     (initDagState (buildStepMap (forEachEmptyTask.steps.getD []))) "proc"
     { id := some "proc", task := "double",
       forEach := some "\x7b\x7bpayload.xs\x7d\x7d" }
     "\x7b\x7bpayload.xs\x7d\x7d" rfl (by decide) rfl,
   C1_forEach.2.1 2 [(0, JsValue.num 1), (1, JsValue.num 2), (2, JsValue.num 3)]
     (by decide)⟩

end DWA
